import Mathlib

/-!
# R-Car SYSC power-domain controller (drivers/soc/renesas/rcar-sysc.c)

A shallow embedding of the register protocol engine, the power-domain
callbacks, the PDMODE fix-up and the init loop of the R-Car SYSC driver,
followed by theorems about them.

Modelling conventions

* Hardware is an oracle `Hw`: the value a register read returns is a function
  of the whole access history so far and of the register read.  Every
  deterministic simulated hardware model is such a function.
* Every register access, delay and lock operation the driver performs is
  appended to a chronological `Trace`.
* Registers are named by the address expression the driver evaluates
  (`rcar_sysc_base + offs`, `rcar_sysc_base + chan_offs + offs`, ...).
* `u32` values are naturals reduced modulo `2 ^ 32`.
* `pr_debug` statements are compiled out (no `DEBUG`), so the register read
  in the argument list of the one at the end of `rcar_sysc_power` is not
  performed.
* Bounded `for` loops are recursive functions on the number of iterations
  left; the loop counter `k` equals the bound on exit exactly when the
  function reports that no `break` was taken.
-/

namespace RcarSysc

/-! ## Constants of the driver -/

def SYSCSR : Nat := 0x00
def SYSCISR : Nat := 0x04
def SYSCISCR : Nat := 0x08
def SYSCIER : Nat := 0x0c
def SYSCIMR : Nat := 0x10

def SYSCSR_PONENB : Nat := 1
def SYSCSR_POFFENB : Nat := 0

def PWRSR_OFFS : Nat := 0x00
def PWROFFCR_OFFS : Nat := 0x04
def PWROFFSR_OFFS : Nat := 0x08
def PWRONCR_OFFS : Nat := 0x0c
def PWRONSR_OFFS : Nat := 0x10
def PWRER_OFFS : Nat := 0x14

def SYSCSR_RETRIES : Nat := 1000
def SYSCSR_DELAY_US : Nat := 10
def PWRER_RETRIES : Nat := 1000
def PWRER_DELAY_US : Nat := 10
def SYSCISR_RETRIES : Nat := 1000
def SYSCISR_DELAY_US : Nat := 10

def RCAR_PD_ALWAYS_ON : Nat := 32
def NUM_FIXUP_AREAS : Nat := 14

def MSTPSR5_ADDR : Nat := 0xE615003C
def MSTPSR8_ADDR : Nat := 0xE61509A0
def SMSTPCR5_ADDR : Nat := 0xE6150144
def SMSTPCR8_ADDR : Nat := 0xE6150990
def IMPx8_MASK : Nat := 0xff000000
def IMPx5_MASK : Nat := 0xbf200001

/-- Kernel errno values returned (negated) by the driver. -/
def ENOENT : Int := 2
def EIO : Int := 5
def EAGAIN : Int := 11
def ENOMEM : Int := 12
def EBUSY : Int := 16
def ENODEV : Int := 19

/-- The kernel macro `BIT(n)`, i.e. `1UL << n`. -/
def BIT (n : Nat) : Nat := 1 <<< n

/-- Truncation to an unsigned 32-bit value. -/
def u32 (x : Nat) : Nat := x % 2 ^ 32

/-! ## Hardware model -/

/-- A memory-mapped register, named by the address expression of the access. -/
inductive Reg where
  /-- Top-level SYSC register `rcar_sysc_base + offs`. -/
  | sysc (offs : Nat)
  /-- Per-domain register `rcar_sysc_base + chan_offs + offs`. -/
  | chan (chan_offs : Nat) (offs : Nat)
  /-- External request mask register `rcar_sysc_base + rcar_sysc_extmask_offs`. -/
  | extmask (offs : Nat)
  /-- A register reached through `ioremap(addr, 4)`. -/
  | phys (addr : Nat)
  deriving DecidableEq, Repr

/-- One observable action of the driver. -/
inductive Event where
  | read (r : Reg) (v : Nat)
  | write (r : Reg) (v : Nat)
  | delay (us : Nat)
  | lock
  | unlock
  deriving DecidableEq, Repr

/-- Chronological log of the driver's actions (oldest first). -/
abbrev Trace := List Event

/-- Hardware behaviour: the raw value of a read, given the history so far. -/
abbrev Hw := Trace → Reg → Nat

/-- The functions `ioread32` / `readl`: a 32-bit register read, logged. -/
def ioread32 (hw : Hw) (r : Reg) (tr : Trace) : Nat × Trace :=
  (u32 (hw tr r), tr ++ [Event.read r (u32 (hw tr r))])

/-- The functions `iowrite32` / `writel`: a 32-bit register write, logged. -/
def iowrite32 (v : Nat) (r : Reg) (tr : Trace) : Trace :=
  tr ++ [Event.write r (u32 v)]

/-- The busy-wait `udelay(us)`, logged. -/
def udelay (us : Nat) (tr : Trace) : Trace :=
  tr ++ [Event.delay us]

/-- Whether an event is a register write. -/
def Event.isWrite : Event → Bool
  | Event.write _ _ => true
  | _ => false

/-- Whether an event is a write to register `r`. -/
def Event.isWriteTo (r : Reg) : Event → Bool
  | Event.write r' _ => decide (r' = r)
  | _ => false

/-- Whether an event is a read of register `r`. -/
def Event.isReadOf (r : Reg) : Event → Bool
  | Event.read r' _ => decide (r' = r)
  | _ => false

/-- Number of register writes in a trace. -/
def writes (tr : Trace) : Nat := tr.countP Event.isWrite

/-- Number of writes to register `r` in a trace. -/
def writesTo (r : Reg) (tr : Trace) : Nat := tr.countP (Event.isWriteTo r)

/-- Number of reads of register `r` in a trace. -/
def readsOf (r : Reg) (tr : Trace) : Nat := tr.countP (Event.isReadOf r)

/-- Whether bit `n` is set in the 32-bit value that a read of `r` returns
after history `tr`. -/
def reads_bit (hw : Hw) (tr : Trace) (r : Reg) (n : Nat) : Bool :=
  (u32 (hw tr r)).testBit n

/-! ## Data model -/

/-- The C type `struct rcar_sysc_ch`. -/
structure rcar_sysc_ch where
  chan_offs : Nat
  chan_bit : Nat
  isr_bit : Nat
  deriving DecidableEq, Repr

/-- Which clock-domain attach/detach pair `rcar_sysc_pd_setup` installed. -/
inductive ClkDomain where
  | unset
  | cpg_mstp
  | cpg_mssr
  deriving DecidableEq, Repr

/-- The C type `struct rcar_sysc_pd`.  Of the embedded `genpd` only the
fields the driver assigns are kept: its name, its flags and the
attach/detach pair. -/
structure rcar_sysc_pd where
  name : String
  genpd_flags : Nat
  attach_dev : ClkDomain
  ch : rcar_sysc_ch
  flags : Nat
  deriving DecidableEq, Repr

/-- File-scope state of the driver. -/
structure Sysc where
  rcar_sysc_quirks : Nat
  has_clk_crl : Bool
  has_cpg_mstp : Bool
  rcar_sysc_extmask_offs : Nat
  rcar_sysc_extmask_val : Nat
  /-- The array `rcar_domains[RCAR_PD_ALWAYS_ON + 1]`, by slot. -/
  rcar_domains : Nat → Option rcar_sysc_pd
  /-- The pointer `rcar_sysc_onecell_data` (NULL before init) with its
  `domains[RCAR_PD_ALWAYS_ON + 1]` array, by slot. -/
  rcar_sysc_onecell_data : Option (Nat → Option rcar_sysc_pd)

/-! ## Register protocol engine -/

/-- The acceptance wait of `rcar_sysc_pwr_on_off`:
`for (k = 0; k < SYSCSR_RETRIES; k++)`, with `n` iterations left.
Returns `true` when the loop was left by `break` (so `k < SYSCSR_RETRIES`). -/
def syscsr_wait (hw : Hw) (sr_bit : Nat) : Nat → Trace → Bool × Trace
  | 0, tr => (false, tr)
  | n + 1, tr =>
    let r := ioread32 hw (Reg.sysc SYSCSR) tr
    if r.1 &&& BIT sr_bit ≠ 0 then (true, r.2)
    else syscsr_wait hw sr_bit n (udelay SYSCSR_DELAY_US r.2)

/-- The function `rcar_sysc_pwr_on_off`.  The channel is passed with its
enclosing domain, which is what `to_pd_name` recovers through
`container_of`. -/
def rcar_sysc_pwr_on_off (hw : Hw) (pd : rcar_sysc_pd) (on_ : Bool) (tr : Trace) :
    Int × Trace :=
  let sr_bit := if on_ then SYSCSR_PONENB else SYSCSR_POFFENB
  let reg_offs := if on_ then PWRONCR_OFFS else PWROFFCR_OFFS
  let w := syscsr_wait hw sr_bit SYSCSR_RETRIES tr
  if w.1 = false then (-EAGAIN, w.2)
  else
    let tr1 :=
      if on_ = false ∧ (pd.name = "a3vp" ∨ pd.name = "a3ir" ∨ pd.name = "a3vc")
      then udelay 1 w.2 else w.2
    (0, iowrite32 (BIT pd.ch.chan_bit) (Reg.chan pd.ch.chan_offs reg_offs) tr1)

/-- How a retry loop of `rcar_sysc_power` was left. -/
inductive LoopExit where
  /-- Left by `break`: the loop counter is below the bound. -/
  | brk
  /-- Ran to the bound: the loop counter equals the bound. -/
  | exhausted
  /-- Left by `goto out` with the given `ret`. -/
  | out (ret : Int)
  deriving DecidableEq, Repr

/-- The submission loop of `rcar_sysc_power`:
`for (k = 0; k < PWRER_RETRIES; k++)`, with `n` iterations left. -/
def pwrer_loop (hw : Hw) (pd : rcar_sysc_pd) (on_ : Bool) (chan_mask : Nat) :
    Nat → Trace → LoopExit × Trace
  | 0, tr => (LoopExit.exhausted, tr)
  | n + 1, tr =>
    let r := rcar_sysc_pwr_on_off hw pd on_ tr
    if r.1 ≠ 0 then (LoopExit.out r.1, r.2)
    else
      let s := ioread32 hw (Reg.chan pd.ch.chan_offs PWRER_OFFS) r.2
      if s.1 &&& chan_mask = 0 then (LoopExit.brk, s.2)
      else pwrer_loop hw pd on_ chan_mask n (udelay PWRER_DELAY_US s.2)

/-- The completion wait of `rcar_sysc_power`:
`for (k = 0; k < SYSCISR_RETRIES; k++)`, with `n` iterations left.
Returns `true` when the loop was left by `break`. -/
def syscisr_wait (hw : Hw) (isr_mask : Nat) : Nat → Trace → Bool × Trace
  | 0, tr => (false, tr)
  | n + 1, tr =>
    let r := ioread32 hw (Reg.sysc SYSCISR) tr
    if r.1 &&& isr_mask ≠ 0 then (true, r.2)
    else syscisr_wait hw isr_mask n (udelay SYSCISR_DELAY_US r.2)

/-- The part of `rcar_sysc_power` between arming the interrupt and the
label `out`: submission loop, completion wait and acknowledge. -/
def rcar_sysc_power_request (hw : Hw) (pd : rcar_sysc_pd) (on_ : Bool) (tr : Trace) :
    Int × Trace :=
  let isr_mask := u32 (BIT pd.ch.isr_bit)
  let chan_mask := u32 (BIT pd.ch.chan_bit)
  let l := pwrer_loop hw pd on_ chan_mask PWRER_RETRIES tr
  match l.1 with
  | LoopExit.out ret => (ret, l.2)
  | LoopExit.exhausted => (- EIO, l.2)
  | LoopExit.brk =>
    let w := syscisr_wait hw isr_mask SYSCISR_RETRIES l.2
    let ret : Int := if w.1 = false then - EIO else 0
    (ret, iowrite32 isr_mask (Reg.sysc SYSCISCR) w.2)

/-- The head of `rcar_sysc_power`: take the lock, write the external request
mask when one is configured, then enable, mask and clear the interrupt source
of the domain. -/
def rcar_sysc_power_arm (g : Sysc) (hw : Hw) (pd : rcar_sysc_pd) (tr : Trace) : Trace :=
  let isr_mask := u32 (BIT pd.ch.isr_bit)
  let tr0 := tr ++ [Event.lock]
  let tr1 :=
    if g.rcar_sysc_extmask_val ≠ 0
    then iowrite32 g.rcar_sysc_extmask_val (Reg.extmask g.rcar_sysc_extmask_offs) tr0
    else tr0
  let imr := ioread32 hw (Reg.sysc SYSCIMR) tr1
  let tr2 := iowrite32 (imr.1 ||| isr_mask) (Reg.sysc SYSCIMR) imr.2
  let ier := ioread32 hw (Reg.sysc SYSCIER) tr2
  let tr3 := iowrite32 (ier.1 ||| isr_mask) (Reg.sysc SYSCIER) ier.2
  iowrite32 isr_mask (Reg.sysc SYSCISCR) tr3

/-- The tail of `rcar_sysc_power` from the label `out`: clear the external
request mask when one is configured and drop the lock. -/
def rcar_sysc_power_out (g : Sysc) (tr : Trace) : Trace :=
  let tr5 :=
    if g.rcar_sysc_extmask_val ≠ 0
    then iowrite32 0 (Reg.extmask g.rcar_sysc_extmask_offs) tr
    else tr
  tr5 ++ [Event.unlock]

/-- The function `rcar_sysc_power`. -/
def rcar_sysc_power (g : Sysc) (hw : Hw) (pd : rcar_sysc_pd) (on_ : Bool) (tr : Trace) :
    Int × Trace :=
  let res := rcar_sysc_power_request hw pd on_ (rcar_sysc_power_arm g hw pd tr)
  (res.1, rcar_sysc_power_out g res.2)

/-- The power control register a request for direction `on_` is written to. -/
def ctrl_reg (pd : rcar_sysc_pd) (on_ : Bool) : Reg :=
  Reg.chan pd.ch.chan_offs (if on_ then PWRONCR_OFFS else PWROFFCR_OFFS)

/-- The bit of the SYSC status register that signals readiness for a request
of direction `on_`. -/
def ready_bit (on_ : Bool) : Nat := if on_ then SYSCSR_PONENB else SYSCSR_POFFENB

/-- The function `rcar_sysc_power_is_off`. -/
def rcar_sysc_power_is_off (hw : Hw) (ch : rcar_sysc_ch) (tr : Trace) : Bool × Trace :=
  let st := ioread32 hw (Reg.chan ch.chan_offs PWRSR_OFFS) tr
  (decide (st.1 &&& BIT ch.chan_bit ≠ 0), st.2)

/-! ## Clock gate of the A3IR domain -/

/-- The two `while` loops of `rcar_sysc_a3ir_clk_ctrl`, with `fuel` bounding
the number of condition evaluations; `timeout` is the C variable.  Both status
registers are read at every evaluation of the condition.  Returns the final
`timeout`. -/
def a3ir_clk_wait (hw : Hw) (clk_en : Bool) : Nat → Nat → Trace → Nat × Trace
  | 0, timeout, tr => (timeout, tr)
  | fuel + 1, timeout, tr =>
    let s5 := ioread32 hw (Reg.phys MSTPSR5_ADDR) tr
    let s8 := ioread32 hw (Reg.phys MSTPSR8_ADDR) s5.2
    let cond : Bool :=
      if clk_en then decide (((s5.1 &&& IMPx5_MASK) ||| (s8.1 &&& IMPx8_MASK)) ≠ 0)
      else decide (((s5.1 &&& IMPx5_MASK) &&& (s8.1 &&& IMPx8_MASK)) = 0)
    if cond then
      let tr1 := udelay 1 s8.2
      if timeout + 1 > 100 then (timeout + 1, tr1)
      else a3ir_clk_wait hw clk_en fuel (timeout + 1) tr1
    else (timeout, s8.2)

/-- The function `rcar_sysc_a3ir_clk_ctrl`.  The loop is entered with
`timeout = 0` and leaves by `break` once `timeout` reaches 101, so 102
condition evaluations are never exceeded. -/
def rcar_sysc_a3ir_clk_ctrl (hw : Hw) (clk_en : Bool) (tr : Trace) : Int × Trace :=
  let c5 := ioread32 hw (Reg.phys SMSTPCR5_ADDR) tr
  let val5 := if clk_en then c5.1 &&& u32 (IMPx5_MASK ^^^ (2 ^ 32 - 1)) else c5.1 ||| IMPx5_MASK
  let tr1 := iowrite32 val5 (Reg.phys SMSTPCR5_ADDR) c5.2
  let c8 := ioread32 hw (Reg.phys SMSTPCR8_ADDR) tr1
  let val8 := if clk_en then c8.1 &&& u32 (IMPx8_MASK ^^^ (2 ^ 32 - 1)) else c8.1 ||| IMPx8_MASK
  let tr2 := iowrite32 val8 (Reg.phys SMSTPCR8_ADDR) c8.2
  let w := a3ir_clk_wait hw clk_en 102 0 tr2
  if w.1 > 100 then (-EBUSY, w.2) else (0, w.2)

/-! ## Power-domain callbacks -/

/-- The function `rcar_sysc_pd_power_off`. -/
def rcar_sysc_pd_power_off (g : Sysc) (hw : Hw) (pd : rcar_sysc_pd) (tr : Trace) :
    Int × Trace :=
  let off := rcar_sysc_power_is_off hw pd.ch tr
  if off.1 then (0, off.2)
  else
    let tr1 :=
      if g.has_clk_crl = true ∧ pd.name = "a3ir"
      then (rcar_sysc_a3ir_clk_ctrl hw false off.2).2 else off.2
    rcar_sysc_power g hw pd false tr1

/-- The function `rcar_sysc_pd_power_on`. -/
def rcar_sysc_pd_power_on (g : Sysc) (hw : Hw) (pd : rcar_sysc_pd) (tr : Trace) :
    Int × Trace :=
  let off := rcar_sysc_power_is_off hw pd.ch tr
  if off.1 = false then (0, off.2)
  else
    let tr1 :=
      if g.has_clk_crl = true ∧ pd.name = "a3ir"
      then (rcar_sysc_a3ir_clk_ctrl hw true off.2).2 else off.2
    rcar_sysc_power g hw pd true tr1

/-! ## Headers that are not among the sources -/

/-- Constants of `rcar-sysc.h`, `linux/pm_domain.h` and
`dt-bindings/power/r8a77980-sysc.h`.  These headers are not among the
sources, so their values are parameters of everything that uses them. -/
structure Hdr where
  PD_CPU : Nat
  PD_SCU : Nat
  PD_NO_CR : Nat
  GENPD_FLAG_PM_CLK : Nat
  GENPD_FLAG_ALWAYS_ON : Nat
  GENPD_FLAG_ACTIVE_WAKEUP : Nat
  R8A77980_PD_A2IR0 : Nat
  R8A77980_PD_A2IR5 : Nat
  R8A77980_PD_A2SC0 : Nat
  R8A77980_PD_A2DP0 : Nat
  R8A77980_PD_A2CN : Nat
  R8A77980_PD_A3IR : Nat

/-- Modelled from the spec: `struct rcar_sysc_area` is declared in
`rcar-sysc.h`, which is not among the sources.  The fields are the ones
`rcar_sysc_pd_init` reads, in the order of the descriptor tuple
(name, offset, bit, isr_bit, parent-index, flags) of the spec, which is also
the order the positional initialisers of `r8a77980_fixup_areas` rely on.
A `name` of `none` is the C null pointer. -/
structure rcar_sysc_area where
  name : Option String
  chan_offs : Nat
  chan_bit : Nat
  isr_bit : Nat
  parent : Int
  flags : Nat
  deriving DecidableEq, Repr

/-- Modelled from the spec: `struct rcar_sysc_info` is declared in
`rcar-sysc.h`, which is not among the sources.  The fields are the ones
`rcar_sysc_pd_init` reads: `init` holds the value the optional `info->init()`
returns, `areas` the `num_areas` descriptors, `mode` the value behind the
optional `info->mode` pointer. -/
structure rcar_sysc_info where
  init : Option Int
  areas : List rcar_sysc_area
  extmask_offs : Nat
  extmask_val : Nat
  mode : Option Nat

/-! ## PDMODE fix-up -/

/-- Memory faults of the C program. -/
inductive Fault where
  /-- A null pointer was dereferenced. -/
  | null_deref
  /-- An array was indexed outside its bounds. -/
  | out_of_bounds
  deriving DecidableEq, Repr

/-- A zero-initialised `struct rcar_sysc_area`. -/
def rcar_sysc_area.zero : rcar_sysc_area :=
  { name := none, chan_offs := 0, chan_bit := 0, isr_bit := 0, parent := 0, flags := 0 }

/-- One row entry of `r8a77980_fixup_areas`: five positional initialisers,
the remaining field zero. -/
def fixup_entry (name : String) (chan_offs chan_bit isr_bit parent : Nat) : rcar_sysc_area :=
  { name := some name, chan_offs := chan_offs, chan_bit := chan_bit, isr_bit := isr_bit,
    parent := parent, flags := 0 }

/-- Row 0 of `r8a77980_fixup_areas`: "Fix-up area for PDMODE = 1". -/
def fixup_areas_pdmode1 (K : Hdr) : List rcar_sysc_area :=
  [ fixup_entry "a2ir0" 0x400 0 K.R8A77980_PD_A2IR0 K.R8A77980_PD_A3IR,
    fixup_entry "a2ir1" 0x400 0 K.R8A77980_PD_A2IR0 K.R8A77980_PD_A3IR,
    fixup_entry "a2ir2" 0x400 0 K.R8A77980_PD_A2IR0 K.R8A77980_PD_A3IR,
    fixup_entry "a2ir3" 0x400 0 K.R8A77980_PD_A2IR0 K.R8A77980_PD_A3IR,
    fixup_entry "a2ir4" 0x400 0 K.R8A77980_PD_A2IR0 K.R8A77980_PD_A3IR,
    fixup_entry "a2ir5" 0x400 5 K.R8A77980_PD_A2IR5 K.R8A77980_PD_A3IR,
    fixup_entry "a2sc0" 0x400 6 K.R8A77980_PD_A2SC0 K.R8A77980_PD_A3IR,
    fixup_entry "a2sc1" 0x400 6 K.R8A77980_PD_A2SC0 K.R8A77980_PD_A3IR,
    fixup_entry "a2sc2" 0x400 6 K.R8A77980_PD_A2SC0 K.R8A77980_PD_A3IR,
    fixup_entry "a2sc3" 0x400 6 K.R8A77980_PD_A2SC0 K.R8A77980_PD_A3IR,
    fixup_entry "a2sc4" 0x400 6 K.R8A77980_PD_A2SC0 K.R8A77980_PD_A3IR,
    fixup_entry "a2dp0" 0x400 11 K.R8A77980_PD_A2DP0 K.R8A77980_PD_A3IR,
    fixup_entry "a2dp1" 0x400 11 K.R8A77980_PD_A2DP0 K.R8A77980_PD_A3IR,
    fixup_entry "a2cn" 0x400 13 K.R8A77980_PD_A2CN K.R8A77980_PD_A3IR ]

/-- Row 1 of `r8a77980_fixup_areas`: "No handle for PDMODE = 2".  The
initialiser is empty, so the 14 entries are zero-initialised. -/
def fixup_areas_pdmode2 : List rcar_sysc_area :=
  List.replicate NUM_FIXUP_AREAS rcar_sysc_area.zero

/-- Row 2 of `r8a77980_fixup_areas`: "Fix-up area for PDMODE = 3". -/
def fixup_areas_pdmode3 (K : Hdr) : List rcar_sysc_area :=
  [ fixup_entry "a2ir0" 0x400 0 K.R8A77980_PD_A2IR0 K.R8A77980_PD_A3IR,
    fixup_entry "a2ir1" 0x400 0 K.R8A77980_PD_A2IR0 K.R8A77980_PD_A3IR,
    fixup_entry "a2ir2" 0x400 0 K.R8A77980_PD_A2IR0 K.R8A77980_PD_A3IR,
    fixup_entry "a2ir3" 0x400 0 K.R8A77980_PD_A2IR0 K.R8A77980_PD_A3IR,
    fixup_entry "a2ir4" 0x400 0 K.R8A77980_PD_A2IR0 K.R8A77980_PD_A3IR,
    fixup_entry "a2ir5" 0x400 0 K.R8A77980_PD_A2IR0 K.R8A77980_PD_A3IR,
    fixup_entry "a2sc0" 0x400 0 K.R8A77980_PD_A2IR0 K.R8A77980_PD_A3IR,
    fixup_entry "a2sc1" 0x400 0 K.R8A77980_PD_A2IR0 K.R8A77980_PD_A3IR,
    fixup_entry "a2sc2" 0x400 0 K.R8A77980_PD_A2IR0 K.R8A77980_PD_A3IR,
    fixup_entry "a2sc3" 0x400 0 K.R8A77980_PD_A2IR0 K.R8A77980_PD_A3IR,
    fixup_entry "a2sc4" 0x400 0 K.R8A77980_PD_A2IR0 K.R8A77980_PD_A3IR,
    fixup_entry "a2dp0" 0x400 0 K.R8A77980_PD_A2IR0 K.R8A77980_PD_A3IR,
    fixup_entry "a2dp1" 0x400 0 K.R8A77980_PD_A2IR0 K.R8A77980_PD_A3IR,
    fixup_entry "a2cn" 0x400 0 K.R8A77980_PD_A2IR0 K.R8A77980_PD_A3IR ]

/-- The table `r8a77980_fixup_areas[3][NUM_FIXUP_AREAS]`. -/
def r8a77980_fixup_areas (K : Hdr) : List (List rcar_sysc_area) :=
  [fixup_areas_pdmode1 K, fixup_areas_pdmode2, fixup_areas_pdmode3 K]

/-- The value of `x - 1` for an `unsigned int` `x`: it wraps to `UINT_MAX`
at 0. -/
def u32_dec (x : Nat) : Nat := if x = 0 then 2 ^ 32 - 1 else x - 1

/-- The test `!strcmp(a, b)`: string equality, faulting on a null argument. -/
def strcmp_eq : Option String → Option String → Except Fault Bool
  | some a, some b => Except.ok (decide (a = b))
  | _, _ => Except.error Fault.null_deref

/-- The loop of `rcar_sysc_fixup_area` over the entries of one table row, in
index order.  The name compared is `pd->genpd.name`, which no assignment of
the loop changes. -/
def fixup_row : List rcar_sysc_area → rcar_sysc_pd → Except Fault rcar_sysc_pd
  | [], pd => Except.ok pd
  | a :: rest, pd =>
    match strcmp_eq (some pd.name) a.name with
    | Except.error f => Except.error f
    | Except.ok true =>
      fixup_row rest
        { pd with ch := { chan_offs := a.chan_offs, chan_bit := a.chan_bit,
                          isr_bit := a.isr_bit } }
    | Except.ok false => fixup_row rest pd

/-- The function `rcar_sysc_fixup_area`.  `mode` is an `unsigned int`, so
`mode - 1` wraps around at 0; a row index outside the 3-row table is a fault. -/
def rcar_sysc_fixup_area (K : Hdr) (pd : rcar_sysc_pd) (mode : Nat) :
    Except Fault rcar_sysc_pd :=
  match (r8a77980_fixup_areas K)[u32_dec mode]? with
  | none => Except.error Fault.out_of_bounds
  | some row => fixup_row (row.take NUM_FIXUP_AREAS) pd

/-! ## Domain setup and init -/

/-- The function `rcar_sysc_pd_setup`.  `genpd_err` is the value the external
`pm_genpd_init` returns.  Returns that value, the domain as set up and the
trace. -/
def rcar_sysc_pd_setup (K : Hdr) (g : Sysc) (hw : Hw) (genpd_err : Int)
    (pd : rcar_sysc_pd) (tr : Trace) : Int × rcar_sysc_pd × Trace :=
  let gf1 :=
    if pd.flags &&& K.PD_CPU ≠ 0 then pd.genpd_flags ||| K.GENPD_FLAG_ALWAYS_ON
    else if pd.flags &&& K.PD_SCU ≠ 0 then pd.genpd_flags ||| K.GENPD_FLAG_ALWAYS_ON
    else if pd.flags &&& K.PD_NO_CR ≠ 0 then pd.genpd_flags ||| K.GENPD_FLAG_ALWAYS_ON
    else pd.genpd_flags
  let pd1 : rcar_sysc_pd :=
    if pd.flags &&& (K.PD_CPU ||| K.PD_SCU) = 0 then
      { pd with
        genpd_flags := gf1 ||| (K.GENPD_FLAG_PM_CLK ||| K.GENPD_FLAG_ACTIVE_WAKEUP),
        attach_dev := if g.has_cpg_mstp then ClkDomain.cpg_mstp else ClkDomain.cpg_mssr }
    else { pd with genpd_flags := gf1 }
  if pd.flags &&& (K.PD_CPU ||| K.PD_NO_CR) ≠ 0 then (genpd_err, pd1, tr)
  else
    let off := rcar_sysc_power_is_off hw pd.ch tr
    if off.1 = false then (genpd_err, pd1, off.2)
    else (genpd_err, pd1, (rcar_sysc_power g hw pd true off.2).2)

/-- The loop of `rcar_power_on_force`, `for (i = 0; i < RCAR_PD_ALWAYS_ON; i++)`,
with `n` iterations left and `i` the loop counter. -/
def power_on_force_loop (g : Sysc) (hw : Hw) : Nat → Nat → Trace → Trace
  | 0, _, tr => tr
  | n + 1, i, tr =>
    match g.rcar_domains i with
    | none => power_on_force_loop g hw n (i + 1) tr
    | some pd =>
      if g.rcar_sysc_quirks &&& BIT pd.ch.isr_bit ≠ 0 then
        let off := rcar_sysc_power_is_off hw pd.ch tr
        if off.1 = false then power_on_force_loop g hw n (i + 1) off.2
        else power_on_force_loop g hw n (i + 1) (rcar_sysc_power g hw pd true off.2).2
      else power_on_force_loop g hw n (i + 1) tr

/-- The function `rcar_power_on_force`. -/
def rcar_power_on_force (g : Sysc) (hw : Hw) (tr : Trace) : Trace :=
  power_on_force_loop g hw RCAR_PD_ALWAYS_ON 0 tr

/-- What `rcar_sysc_pd_init` obtains from the kernel services it calls. -/
structure InitEnv where
  /-- Whether `soc_device_match(r8a77980)` finds a match. -/
  soc_is_r8a77980 : Bool
  /-- The `match->data` of `of_find_matching_node_and_match`, if a node is found. -/
  info : Option rcar_sysc_info
  /-- Whether a "renesas,cpg-mstp-clocks" node exists. -/
  cpg_mstp_node : Bool
  /-- The `data` of the entry of `rcar_sysc_quirks_match` that
  `soc_device_match` selects, if any. -/
  quirks_data : Option Nat
  /-- Whether `of_iomap` succeeds. -/
  iomap_ok : Bool
  /-- Whether the allocation of the `rcar_pm_domains` succeeds. -/
  kzalloc_domains_ok : Bool
  /-- Whether the allocation of the domain of area `i` succeeds. -/
  kzalloc_pd_ok : Nat → Bool
  /-- The value `pm_genpd_init` returns for the domain of area `i`. -/
  genpd_init_err : Nat → Int
  /-- The value `pm_genpd_add_subdomain` returns for the domain of area `i`. -/
  add_subdomain_err : Nat → Int
  /-- The value `of_genpd_add_provider_onecell` returns. -/
  add_provider_err : Int

/-- The zero-initialised file-scope state before init. -/
def Sysc.boot : Sysc :=
  { rcar_sysc_quirks := 0, has_clk_crl := false, has_cpg_mstp := false,
    rcar_sysc_extmask_offs := 0, rcar_sysc_extmask_val := 0,
    rcar_domains := fun _ => none, rcar_sysc_onecell_data := none }

/-- Store `v` in slot `i` of an array. -/
def slot_set {α : Type} (arr : Nat → Option α) (i : Nat) (v : α) : Nat → Option α :=
  fun j => if j = i then some v else arr j

/-- The domain `rcar_sysc_pd_init` builds for an area named `nm` before it
calls `rcar_sysc_pd_setup`: copy of the descriptor, fix-up when `mode` is
non-zero, then the errata quirk. -/
def area_to_pd (K : Hdr) (quirks mode : Nat) (area : rcar_sysc_area) (nm : String) :
    Except Fault rcar_sysc_pd :=
  let pd0 : rcar_sysc_pd :=
    { name := nm, genpd_flags := 0, attach_dev := ClkDomain.unset,
      ch := { chan_offs := area.chan_offs, chan_bit := area.chan_bit,
              isr_bit := area.isr_bit },
      flags := area.flags }
  match (if mode ≠ 0 then rcar_sysc_fixup_area K pd0 mode else Except.ok pd0) with
  | Except.error f => Except.error f
  | Except.ok pd1 =>
    if quirks &&& BIT pd1.ch.isr_bit ≠ 0
    then Except.ok { pd1 with flags := pd1.flags ||| K.PD_NO_CR }
    else Except.ok pd1

/-- One iteration of the area loop of `rcar_sysc_pd_init`, for the area at
index `i`.  The first component is `some error` on `goto out_put` and `none`
when the loop goes on.  The arrays `domains->domains` and `rcar_domains` have
`RCAR_PD_ALWAYS_ON + 1` slots; an access beyond them is a fault. -/
def pd_init_area (K : Hdr) (env : InitEnv) (hw : Hw) (mode : Nat) (i : Nat)
    (area : rcar_sysc_area) (g : Sysc) (tr : Trace) :
    Except Fault (Option Int × Sysc × Trace) :=
  match area.name with
  | none => Except.ok (none, g, tr)
  | some nm =>
    if env.kzalloc_pd_ok i = false then Except.ok (some (-ENOMEM), g, tr)
    else
      match area_to_pd K g.rcar_sysc_quirks mode area nm with
      | Except.error f => Except.error f
      | Except.ok pd =>
        let r := rcar_sysc_pd_setup K g hw (env.genpd_init_err i) pd tr
        if r.1 ≠ 0 then Except.ok (some r.1, g, r.2.2)
        else if area.isr_bit > RCAR_PD_ALWAYS_ON ∨ i > RCAR_PD_ALWAYS_ON
        then Except.error Fault.out_of_bounds
        else
          let g1 : Sysc :=
            { g with
              rcar_sysc_onecell_data :=
                g.rcar_sysc_onecell_data.map (fun d => slot_set d area.isr_bit r.2.1),
              rcar_domains := slot_set g.rcar_domains i r.2.1 }
          if area.parent < 0 then Except.ok (none, g1, r.2.2)
          else if area.parent > RCAR_PD_ALWAYS_ON then Except.error Fault.out_of_bounds
          else if env.add_subdomain_err i ≠ 0
          then Except.ok (some (env.add_subdomain_err i), g1, r.2.2)
          else Except.ok (none, g1, r.2.2)

/-- The area loop of `rcar_sysc_pd_init`, over the areas from index `i` on. -/
def pd_init_loop (K : Hdr) (env : InitEnv) (hw : Hw) (mode : Nat) :
    List rcar_sysc_area → Nat → Sysc → Trace → Except Fault (Option Int × Sysc × Trace)
  | [], _, g, tr => Except.ok (none, g, tr)
  | area :: rest, i, g, tr =>
    match pd_init_area K env hw mode i area g tr with
    | Except.error f => Except.error f
    | Except.ok (some err, g1, tr1) => Except.ok (some err, g1, tr1)
    | Except.ok (none, g1, tr1) => pd_init_loop K env hw mode rest (i + 1) g1 tr1

/-- The function `rcar_sysc_pd_init`, run on the file-scope state `g`.
Returns the value returned, the file-scope state and the trace. -/
def rcar_sysc_pd_init (K : Hdr) (env : InitEnv) (hw : Hw) (g : Sysc) :
    Except Fault (Int × Sysc × Trace) :=
  let g1 : Sysc := { g with has_clk_crl := env.soc_is_r8a77980 }
  match env.info with
  | none => Except.ok (-ENODEV, g1, [])
  | some info =>
    if info.init.getD 0 ≠ 0 then Except.ok (info.init.getD 0, g1, [])
    else
      let g2 : Sysc :=
        { g1 with
          has_cpg_mstp := env.cpg_mstp_node,
          rcar_sysc_quirks :=
            match env.quirks_data with
            | some data => u32 data
            | none => g1.rcar_sysc_quirks }
      if env.iomap_ok = false then Except.ok (-ENOMEM, g2, [])
      else
        let g3 : Sysc :=
          { g2 with
            rcar_sysc_extmask_offs := info.extmask_offs,
            rcar_sysc_extmask_val := info.extmask_val }
        if env.kzalloc_domains_ok = false then Except.ok (-ENOMEM, g3, [])
        else
          let g4 : Sysc := { g3 with rcar_sysc_onecell_data := some (fun _ => none) }
          let mode := info.mode.getD 0
          match pd_init_loop K env hw mode info.areas 0 g4 [] with
          | Except.error f => Except.error f
          | Except.ok (some err, g5, tr) => Except.ok (err, g5, tr)
          | Except.ok (none, g5, tr) =>
            Except.ok (env.add_provider_err, g5, rcar_power_on_force g5 hw tr)

/-! ## CPU power entry points -/

/-- The loop of `rcar_sysc_power_cpu` over the slots of
`rcar_sysc_onecell_data->domains`, with `n` iterations left and `i` the loop
counter. -/
def power_cpu_loop (K : Hdr) (g : Sysc) (hw : Hw) (d : Nat → Option rcar_sysc_pd)
    (idx : Nat) (on_ : Bool) : Nat → Nat → Trace → Int × Trace
  | 0, _, tr => (-ENOENT, tr)
  | n + 1, i, tr =>
    match d i with
    | none => power_cpu_loop K g hw d idx on_ n (i + 1) tr
    | some pd =>
      if pd.flags &&& K.PD_CPU = 0 ∨ pd.ch.chan_bit ≠ idx
      then power_cpu_loop K g hw d idx on_ n (i + 1) tr
      else rcar_sysc_power g hw pd on_ tr

/-- The function `rcar_sysc_power_cpu`; `num_domains` is the size
`RCAR_PD_ALWAYS_ON + 1` of the `domains` array. -/
def rcar_sysc_power_cpu (K : Hdr) (g : Sysc) (hw : Hw) (idx : Nat) (on_ : Bool)
    (tr : Trace) : Int × Trace :=
  match g.rcar_sysc_onecell_data with
  | none => (-ENODEV, tr)
  | some d => power_cpu_loop K g hw d idx on_ (RCAR_PD_ALWAYS_ON + 1) 0 tr

/-- The function `rcar_sysc_power_down_cpu`. -/
def rcar_sysc_power_down_cpu (K : Hdr) (g : Sysc) (hw : Hw) (cpu : Nat) (tr : Trace) :
    Int × Trace :=
  rcar_sysc_power_cpu K g hw cpu false tr

/-- The function `rcar_sysc_power_up_cpu`. -/
def rcar_sysc_power_up_cpu (K : Hdr) (g : Sysc) (hw : Hw) (cpu : Nat) (tr : Trace) :
    Int × Trace :=
  rcar_sysc_power_cpu K g hw cpu true tr

/-! ## Classes of events -/

/-- Whether an event is an access to a register reached through `ioremap`
(the module stop registers of the clock gate). -/
def Event.onPhys : Event → Bool
  | Event.read (Reg.phys _) _ => true
  | Event.write (Reg.phys _) _ => true
  | _ => false

/-- Whether an event is a `spin_lock_irqsave` of `rcar_sysc_lock`. -/
def Event.isLock : Event → Bool
  | Event.lock => true
  | _ => false

/-- The events the submission loop and the completion wait can produce:
accesses to top-level and per-domain SYSC registers, and delays. -/
def Event.inRequest : Event → Bool
  | Event.read (Reg.sysc _) _ => true
  | Event.read (Reg.chan _ _) _ => true
  | Event.write (Reg.sysc _) _ => true
  | Event.write (Reg.chan _ _) _ => true
  | Event.delay _ => true
  | _ => false

/-- The events `rcar_sysc_a3ir_clk_ctrl` can produce: accesses to `ioremap`ped
registers, and delays. -/
def Event.inClkCtrl : Event → Bool
  | Event.read (Reg.phys _) _ => true
  | Event.write (Reg.phys _) _ => true
  | Event.delay _ => true
  | _ => false

/-- Number of lock acquisitions in a trace. -/
def locks (tr : Trace) : Nat := tr.countP Event.isLock

/-- The trace `tr'` is `tr` followed by events that all satisfy `q`. -/
def Extends (q : Event → Bool) (tr tr' : Trace) : Prop :=
  ∃ evs, tr' = tr ++ evs ∧ ∀ e ∈ evs, q e = true

/-- In `tr`, an event satisfying `p` stands before an event satisfying `q`. -/
def OccursBefore (p q : Event → Bool) (tr : Trace) : Prop :=
  ∃ a e1 b e2 c, tr = a ++ e1 :: (b ++ e2 :: c) ∧ p e1 = true ∧ q e2 = true

/-! ## Concrete inputs -/

/-- A concrete assignment of the header constants. -/
def hdr_sample : Hdr :=
  { PD_CPU := 1, PD_SCU := 2, PD_NO_CR := 4,
    GENPD_FLAG_PM_CLK := 1, GENPD_FLAG_ALWAYS_ON := 4, GENPD_FLAG_ACTIVE_WAKEUP := 8,
    R8A77980_PD_A2IR0 := 23, R8A77980_PD_A2IR5 := 12, R8A77980_PD_A2SC0 := 30,
    R8A77980_PD_A2DP0 := 3, R8A77980_PD_A2CN := 10, R8A77980_PD_A3IR := 24 }

/-- A controllable domain: register block at 0x140, control bit 0, interrupt bit 9. -/
def pd_sample : rcar_sysc_pd :=
  { name := "a3vp", genpd_flags := 0, attach_dev := ClkDomain.unset,
    ch := { chan_offs := 0x140, chan_bit := 0, isr_bit := 9 }, flags := 0 }

/-- The same domain with the `PD_NO_CR` flag of `hdr_sample`. -/
def pd_nocr_sample : rcar_sysc_pd := { pd_sample with flags := 4 }

/-- Hardware that returns all-ones on every read. -/
def hw_ones : Hw := fun _ _ => 0xffffffff

/-- Hardware that returns zero on every read. -/
def hw_zero : Hw := fun _ _ => 0

/-- Hardware that is always ready (status register reads 3), accepts every
submission (error status reads 0) and never raises an interrupt status bit. -/
def hw_no_irq : Hw := fun _ r => if r = Reg.sysc 0x00 then 3 else 0

/-- Hardware that is always ready, rejects the first submission of
`pd_sample` power-on and accepts the second, and shows every interrupt status
bit. -/
def hw_reject_once : Hw := fun tr r =>
  if r = Reg.sysc 0x00 then 3
  else if r = Reg.chan 0x140 0x14 then
    (if writesTo (Reg.chan 0x140 0x0c) tr ≤ 1 then 1 else 0)
  else if r = Reg.sysc 0x04 then 0xffffffff
  else 0

/-- A descriptor table: an always-on area, two controllable areas and a CPU
area, with no PDMODE selector. -/
def info_sample : rcar_sysc_info :=
  { init := none,
    areas :=
      [ { name := some "always-on", chan_offs := 0, chan_bit := 0, isr_bit := 32,
          parent := -1, flags := 4 },
        { name := some "a3vp", chan_offs := 0x340, chan_bit := 0, isr_bit := 9,
          parent := 32, flags := 0 },
        { name := some "a2sc2", chan_offs := 0x400, chan_bit := 8, isr_bit := 0,
          parent := 32, flags := 0 },
        { name := some "ca53-cpu0", chan_offs := 0x200, chan_bit := 0, isr_bit := 5,
          parent := 32, flags := 1 } ],
    extmask_offs := 0x138, extmask_val := 1, mode := none }

/-- Kernel services that all succeed, on a chip whose errata bitmask is
`BIT(9)`. -/
def env_sample : InitEnv :=
  { soc_is_r8a77980 := true, info := some info_sample, cpg_mstp_node := false,
    quirks_data := some 0x200, iomap_ok := true, kzalloc_domains_ok := true,
    kzalloc_pd_ok := fun _ => true, genpd_init_err := fun _ => 0,
    add_subdomain_err := fun _ => 0, add_provider_err := 0 }

/-- What `rcar_sysc_pd_init` yields on `env_sample` with all-zero hardware. -/
def init_sample : Int × Sysc × Trace :=
  (rcar_sysc_pd_init hdr_sample env_sample hw_zero Sysc.boot).toOption.getD
    (0, Sysc.boot, [])

/-- The domain `rcar_sysc_pd_init` leaves in `rcar_domains[1]` on `env_sample`:
area "a3vp", whose interrupt bit 9 is in the errata bitmask. -/
def pd_a3vp_init_sample : rcar_sysc_pd :=
  { name := "a3vp", genpd_flags := 13, attach_dev := ClkDomain.cpg_mssr,
    ch := { chan_offs := 0x340, chan_bit := 0, isr_bit := 9 }, flags := 4 }

/-- The domain `rcar_sysc_pd_init` leaves in `rcar_domains[2]` on `env_sample`:
area "a2sc2", outside the errata bitmask. -/
def pd_a2sc2_init_sample : rcar_sysc_pd :=
  { name := "a2sc2", genpd_flags := 9, attach_dev := ClkDomain.cpg_mssr,
    ch := { chan_offs := 0x400, chan_bit := 8, isr_bit := 0 }, flags := 0 }

/-- A descriptor table that fills all 33 slots of `rcar_domains`: the always-on
area at index 0 and, at index k + 1, a controllable area with isr_bit k. -/
def info_full : rcar_sysc_info :=
  { init := none,
    areas :=
      [ { name := some "always-on", chan_offs := 0, chan_bit := 0, isr_bit := 32,
          parent := -1, flags := 4 },
        { name := some "pd0", chan_offs := 0x40, chan_bit := 0, isr_bit := 0,
          parent := 32, flags := 0 },
        { name := some "pd1", chan_offs := 0x80, chan_bit := 0, isr_bit := 1,
          parent := 32, flags := 0 },
        { name := some "pd2", chan_offs := 0xc0, chan_bit := 0, isr_bit := 2,
          parent := 32, flags := 0 },
        { name := some "pd3", chan_offs := 0x100, chan_bit := 0, isr_bit := 3,
          parent := 32, flags := 0 },
        { name := some "pd4", chan_offs := 0x140, chan_bit := 0, isr_bit := 4,
          parent := 32, flags := 0 },
        { name := some "pd5", chan_offs := 0x180, chan_bit := 0, isr_bit := 5,
          parent := 32, flags := 0 },
        { name := some "pd6", chan_offs := 0x1c0, chan_bit := 0, isr_bit := 6,
          parent := 32, flags := 0 },
        { name := some "pd7", chan_offs := 0x200, chan_bit := 0, isr_bit := 7,
          parent := 32, flags := 0 },
        { name := some "pd8", chan_offs := 0x240, chan_bit := 0, isr_bit := 8,
          parent := 32, flags := 0 },
        { name := some "pd9", chan_offs := 0x280, chan_bit := 0, isr_bit := 9,
          parent := 32, flags := 0 },
        { name := some "pd10", chan_offs := 0x2c0, chan_bit := 0, isr_bit := 10,
          parent := 32, flags := 0 },
        { name := some "pd11", chan_offs := 0x300, chan_bit := 0, isr_bit := 11,
          parent := 32, flags := 0 },
        { name := some "pd12", chan_offs := 0x340, chan_bit := 0, isr_bit := 12,
          parent := 32, flags := 0 },
        { name := some "pd13", chan_offs := 0x380, chan_bit := 0, isr_bit := 13,
          parent := 32, flags := 0 },
        { name := some "pd14", chan_offs := 0x3c0, chan_bit := 0, isr_bit := 14,
          parent := 32, flags := 0 },
        { name := some "pd15", chan_offs := 0x400, chan_bit := 0, isr_bit := 15,
          parent := 32, flags := 0 },
        { name := some "pd16", chan_offs := 0x440, chan_bit := 0, isr_bit := 16,
          parent := 32, flags := 0 },
        { name := some "pd17", chan_offs := 0x480, chan_bit := 0, isr_bit := 17,
          parent := 32, flags := 0 },
        { name := some "pd18", chan_offs := 0x4c0, chan_bit := 0, isr_bit := 18,
          parent := 32, flags := 0 },
        { name := some "pd19", chan_offs := 0x500, chan_bit := 0, isr_bit := 19,
          parent := 32, flags := 0 },
        { name := some "pd20", chan_offs := 0x540, chan_bit := 0, isr_bit := 20,
          parent := 32, flags := 0 },
        { name := some "pd21", chan_offs := 0x580, chan_bit := 0, isr_bit := 21,
          parent := 32, flags := 0 },
        { name := some "pd22", chan_offs := 0x5c0, chan_bit := 0, isr_bit := 22,
          parent := 32, flags := 0 },
        { name := some "pd23", chan_offs := 0x600, chan_bit := 0, isr_bit := 23,
          parent := 32, flags := 0 },
        { name := some "pd24", chan_offs := 0x640, chan_bit := 0, isr_bit := 24,
          parent := 32, flags := 0 },
        { name := some "pd25", chan_offs := 0x680, chan_bit := 0, isr_bit := 25,
          parent := 32, flags := 0 },
        { name := some "pd26", chan_offs := 0x6c0, chan_bit := 0, isr_bit := 26,
          parent := 32, flags := 0 },
        { name := some "pd27", chan_offs := 0x700, chan_bit := 0, isr_bit := 27,
          parent := 32, flags := 0 },
        { name := some "pd28", chan_offs := 0x740, chan_bit := 0, isr_bit := 28,
          parent := 32, flags := 0 },
        { name := some "pd29", chan_offs := 0x780, chan_bit := 0, isr_bit := 29,
          parent := 32, flags := 0 },
        { name := some "pd30", chan_offs := 0x7c0, chan_bit := 0, isr_bit := 30,
          parent := 32, flags := 0 },
        { name := some "pd31", chan_offs := 0x800, chan_bit := 0, isr_bit := 31,
          parent := 32, flags := 0 } ],
    extmask_offs := 0, extmask_val := 0, mode := none }

/-- Kernel services that all succeed, on a chip whose errata bitmask is
`BIT(31)`. -/
def env_full : InitEnv :=
  { soc_is_r8a77980 := false, info := some info_full, cpg_mstp_node := false,
    quirks_data := some 0x80000000, iomap_ok := true, kzalloc_domains_ok := true,
    kzalloc_pd_ok := fun _ => true, genpd_init_err := fun _ => 0,
    add_subdomain_err := fun _ => 0, add_provider_err := 0 }

/-- The file-scope state `rcar_sysc_pd_init` leaves on `env_full` when every
domain reads on during init. -/
def sysc_full : Sysc :=
  ((rcar_sysc_pd_init hdr_sample env_full hw_zero Sysc.boot).toOption.getD
    (0, Sysc.boot, [])).2.1

/-- A domain with the `PD_SCU` flag of `hdr_sample` only. -/
def pd_scu_sample : rcar_sysc_pd :=
  { name := "ca53-scu", genpd_flags := 0, attach_dev := ClkDomain.unset,
    ch := { chan_offs := 0x140, chan_bit := 0, isr_bit := 21 }, flags := 2 }

/-- A domain with the `PD_CPU` flag of `hdr_sample` only. -/
def pd_cpu_sample : rcar_sysc_pd :=
  { name := "ca53-cpu0", genpd_flags := 0, attach_dev := ClkDomain.unset,
    ch := { chan_offs := 0x200, chan_bit := 0, isr_bit := 5 }, flags := 1 }

/-- File-scope state on a chip with the clock-gate interaction. -/
def sysc_v3h : Sysc := { Sysc.boot with has_clk_crl := true }

/-- The domain "a3ir". -/
def pd_a3ir_sample : rcar_sysc_pd :=
  { name := "a3ir", genpd_flags := 0, attach_dev := ClkDomain.unset,
    ch := { chan_offs := 0x180, chan_bit := 0, isr_bit := 24 }, flags := 0 }

/-- A descriptor table with a PDMODE selector that reads 1 and two areas of the
a2sc group, with distinct names and distinct isr_bit values. -/
def info_pdmode1 : rcar_sysc_info :=
  { init := none,
    areas :=
      [ { name := some "a2sc0", chan_offs := 0x400, chan_bit := 6, isr_bit := 30,
          parent := -1, flags := 0 },
        { name := some "a2sc1", chan_offs := 0x400, chan_bit := 7, isr_bit := 31,
          parent := -1, flags := 0 } ],
    extmask_offs := 0x138, extmask_val := 1, mode := some 1 }

/-- Kernel services that all succeed, without errata bitmask. -/
def env_pdmode1 : InitEnv :=
  { soc_is_r8a77980 := true, info := some info_pdmode1, cpg_mstp_node := false,
    quirks_data := none, iomap_ok := true, kzalloc_domains_ok := true,
    kzalloc_pd_ok := fun _ => true, genpd_init_err := fun _ => 0,
    add_subdomain_err := fun _ => 0, add_provider_err := 0 }

/-- The file-scope state `rcar_sysc_pd_init` leaves on `env_pdmode1`. -/
def sysc_pdmode1 : Sysc :=
  ((rcar_sysc_pd_init hdr_sample env_pdmode1 hw_zero Sysc.boot).toOption.getD
    (0, Sysc.boot, [])).2.1

/-- File-scope state with one registered CPU domain, in slot 5 of the onecell
table. -/
def sysc_cpu : Sysc :=
  { Sysc.boot with
    rcar_sysc_onecell_data := some (slot_set (fun _ => none) 5 pd_cpu_sample) }

/-- File-scope state of a chip with an external request mask. -/
def sysc_extmask : Sysc :=
  { Sysc.boot with rcar_sysc_extmask_offs := 0x2f8, rcar_sysc_extmask_val := 1 }

/-! ## Further classes of events and counters -/

/-- Whether an event is a `spin_unlock_irqrestore` of `rcar_sysc_lock`. -/
def Event.isUnlock : Event → Bool
  | Event.unlock => true
  | _ => false

/-- Whether an event is a `udelay(us)`. -/
def Event.isDelayOf (us : Nat) : Event → Bool
  | Event.delay us' => decide (us' = us)
  | _ => false

/-- Number of `udelay(us)` calls in a trace. -/
def delaysOf (us : Nat) (tr : Trace) : Nat := tr.countP (Event.isDelayOf us)

/-- The events of the head and the tail of `rcar_sysc_power`: taking and
dropping the lock, the writes of the external request mask, the
read-modify-write of SYSCIMR and SYSCIER and the writes of SYSCISCR. -/
def Event.inFrame : Event → Bool
  | Event.lock => true
  | Event.unlock => true
  | Event.write (Reg.extmask _) _ => true
  | Event.read (Reg.sysc o) _ => decide (o = SYSCIMR ∨ o = SYSCIER)
  | Event.write (Reg.sysc o) _ => decide (o = SYSCIMR ∨ o = SYSCIER ∨ o = SYSCISCR)
  | _ => false

/-- Number of register accesses of a trace that are performed while
`rcar_sysc_lock` is not held; `held` tells whether the lock is held when the
trace starts. -/
def accesses_outside : Bool → Trace → Nat
  | _, [] => 0
  | _, Event.lock :: t => accesses_outside true t
  | _, Event.unlock :: t => accesses_outside false t
  | held, Event.read _ _ :: t => (if held then 0 else 1) + accesses_outside held t
  | held, Event.write _ _ :: t => (if held then 0 else 1) + accesses_outside held t
  | held, Event.delay _ :: t => accesses_outside held t

/-- The condition of the `while` loops of `rcar_sysc_a3ir_clk_ctrl`, evaluated
after history `tr`: MSTPSR5 is read first, then MSTPSR8. -/
def a3ir_clk_busy (hw : Hw) (clk_en : Bool) (tr : Trace) : Bool :=
  let s5 := ioread32 hw (Reg.phys MSTPSR5_ADDR) tr
  let s8 := ioread32 hw (Reg.phys MSTPSR8_ADDR) s5.2
  if clk_en then decide (((s5.1 &&& IMPx5_MASK) ||| (s8.1 &&& IMPx8_MASK)) ≠ 0)
  else decide (((s5.1 &&& IMPx5_MASK) &&& (s8.1 &&& IMPx8_MASK)) = 0)

/-- Two hardware behaviours that return the same value at every register
outside the per-domain register block at `chan_offs`. -/
def AgreeOutside (chan_offs : Nat) (hw1 hw2 : Hw) : Prop :=
  ∀ tr r, (∀ b, r ≠ Reg.chan chan_offs b) → hw1 tr r = hw2 tr r

/-- Hardware on which every domain reads powered off, the controller is always
ready, no request is rejected and every interrupt status bit shows. -/
def hw_all_off : Hw := fun _ r =>
  match r with
  | Reg.chan _ offs => if offs = 0x14 then 0 else 0xffffffff
  | _ => 0xffffffff

/-- The hardware `hw_all_off`, except that the register block at 0xc0 reads
zero (that domain is on). -/
def hw_parent_on : Hw := fun tr r =>
  match r with
  | Reg.chan o _ => if o = 0xc0 then 0 else hw_all_off tr r
  | _ => hw_all_off tr r

/-- A descriptor table with a three-level tree: the always-on root, the
controllable area "a3sh" below it, and the controllable area "a2sh" below
"a3sh" (its parent index 1 is the isr_bit of "a3sh"). -/
def info_tree : rcar_sysc_info :=
  { init := none,
    areas :=
      [ { name := some "always-on", chan_offs := 0, chan_bit := 0, isr_bit := 32,
          parent := -1, flags := 4 },
        { name := some "a3sh", chan_offs := 0xc0, chan_bit := 0, isr_bit := 1,
          parent := 32, flags := 0 },
        { name := some "a2sh", chan_offs := 0x100, chan_bit := 0, isr_bit := 2,
          parent := 1, flags := 0 } ],
    extmask_offs := 0, extmask_val := 0, mode := none }

/-- Kernel services that all succeed, on a chip without errata bitmask. -/
def env_tree : InitEnv :=
  { soc_is_r8a77980 := false, info := some info_tree, cpg_mstp_node := false,
    quirks_data := none, iomap_ok := true, kzalloc_domains_ok := true,
    kzalloc_pd_ok := fun _ => true, genpd_init_err := fun _ => 0,
    add_subdomain_err := fun _ => 0, add_provider_err := 0 }

/-- The file-scope state `rcar_sysc_pd_init` leaves on `env_tree` when every
domain reads powered at boot. -/
def sysc_tree : Sysc :=
  ((rcar_sysc_pd_init hdr_sample env_tree hw_zero Sysc.boot).toOption.getD
    (0, Sysc.boot, [])).2.1

/-- The domain of area "a3sh" of `info_tree`. -/
def pd_tree_a : rcar_sysc_pd :=
  { name := "a3sh", genpd_flags := 9, attach_dev := ClkDomain.cpg_mssr,
    ch := { chan_offs := 0xc0, chan_bit := 0, isr_bit := 1 }, flags := 0 }

/-- The domain of area "a2sh" of `info_tree`. -/
def pd_tree_b : rcar_sysc_pd :=
  { name := "a2sh", genpd_flags := 9, attach_dev := ClkDomain.cpg_mssr,
    ch := { chan_offs := 0x100, chan_bit := 0, isr_bit := 2 }, flags := 0 }

/-- Clock-gate hardware whose status registers read all-ones until 100 delays
of 1 µs have passed, and zero from then on. -/
def hw_ack_late : Hw := fun tr _ => if delaysOf 1 tr < 100 then 0xffffffff else 0

/-- Clock-gate hardware on which, of the module stop status bits, only bit 31
of MSTPSR5 and of MSTPSR8 reads set. -/
def hw_ack_partial : Hw := fun _ r =>
  if r = Reg.phys MSTPSR5_ADDR ∨ r = Reg.phys MSTPSR8_ADDR then 0x80000000 else 0

/-- The trace after one evaluation of the condition of the `while` loops of
`rcar_sysc_a3ir_clk_ctrl`: the read of MSTPSR5, then the read of MSTPSR8. -/
def a3ir_clk_poll (hw : Hw) (tr : Trace) : Trace :=
  (ioread32 hw (Reg.phys MSTPSR8_ADDR) (ioread32 hw (Reg.phys MSTPSR5_ADDR) tr).2).2

/-! # Theorems -/

/-! ## Bit tests -/

theorem and_BIT_ne_zero (v n : Nat) : v &&& BIT n ≠ 0 ↔ v.testBit n = true := by
  unfold BIT
  rw [Nat.one_shiftLeft, Nat.and_two_pow]
  cases h : v.testBit n <;> simp

theorem u32_lt (x : Nat) : u32 x < 2 ^ 32 := Nat.mod_lt _ (by norm_num)

theorem and_u32_BIT_ne_zero (v n : Nat) (hv : v < 2 ^ 32) :
    v &&& u32 (BIT n) ≠ 0 ↔ v.testBit n = true := by
  by_cases hn : n < 32
  · have h1 : u32 (BIT n) = BIT n := by
      unfold u32 BIT
      rw [Nat.one_shiftLeft]
      exact Nat.mod_eq_of_lt (Nat.pow_lt_pow_right (by norm_num) hn)
    rw [h1]
    exact and_BIT_ne_zero v n
  · have h0 : u32 (BIT n) = 0 := by
      unfold u32 BIT
      rw [Nat.one_shiftLeft]
      exact Nat.mod_eq_zero_of_dvd (pow_dvd_pow 2 (by omega))
    have hb : v.testBit n = false :=
      Nat.testBit_lt_two_pow (lt_of_lt_of_le hv (Nat.pow_le_pow_right (by norm_num) (by omega)))
    simp [h0, hb]

theorem read_and_BIT (hw : Hw) (tr : Trace) (r : Reg) (n : Nat) :
    u32 (hw tr r) &&& BIT n ≠ 0 ↔ reads_bit hw tr r n = true :=
  and_BIT_ne_zero _ _

theorem read_and_u32_BIT (hw : Hw) (tr : Trace) (r : Reg) (n : Nat) :
    u32 (hw tr r) &&& u32 (BIT n) ≠ 0 ↔ reads_bit hw tr r n = true :=
  and_u32_BIT_ne_zero _ _ (u32_lt _)

/-! ## The power-state query -/

theorem power_is_off_eq (hw : Hw) (ch : rcar_sysc_ch) (tr : Trace) :
    rcar_sysc_power_is_off hw ch tr =
      (reads_bit hw tr (Reg.chan ch.chan_offs PWRSR_OFFS) ch.chan_bit,
        tr ++ [Event.read (Reg.chan ch.chan_offs PWRSR_OFFS)
          (u32 (hw tr (Reg.chan ch.chan_offs PWRSR_OFFS)))]) := by
  unfold rcar_sysc_power_is_off ioread32
  have h := read_and_BIT hw tr (Reg.chan ch.chan_offs PWRSR_OFFS) ch.chan_bit
  cases hb : reads_bit hw tr (Reg.chan ch.chan_offs PWRSR_OFFS) ch.chan_bit
  · have h0 : ¬ (u32 (hw tr (Reg.chan ch.chan_offs PWRSR_OFFS)) &&& BIT ch.chan_bit ≠ 0) := by
      rw [h, hb]; simp
    simp [h0]
  · have h1 : u32 (hw tr (Reg.chan ch.chan_offs PWRSR_OFFS)) &&& BIT ch.chan_bit ≠ 0 :=
      h.mpr hb
    simp [h1]

/-! ## Acceptance wait and submission -/

theorem syscsr_wait_countP (hw : Hw) (sr_bit : Nat) (p : Event → Bool)
    (hr : ∀ v, p (Event.read (Reg.sysc SYSCSR) v) = false)
    (hd : ∀ us, p (Event.delay us) = false) :
    ∀ n tr, List.countP p (syscsr_wait hw sr_bit n tr).2 = List.countP p tr := by
  intro n
  induction n with
  | zero => intro tr; simp [syscsr_wait]
  | succ n ih =>
    intro tr
    simp only [syscsr_wait]
    split
    · simp [ioread32, List.countP_append, hr]
    · rw [ih]
      simp [udelay, ioread32, List.countP_append, hr, hd]

theorem syscsr_wait_ready (hw : Hw) (sr_bit n : Nat) (tr : Trace)
    (h : reads_bit hw tr (Reg.sysc SYSCSR) sr_bit = true) :
    syscsr_wait hw sr_bit (n + 1) tr =
      (true, tr ++ [Event.read (Reg.sysc SYSCSR) (u32 (hw tr (Reg.sysc SYSCSR)))]) := by
  have h1 := (read_and_BIT hw tr (Reg.sysc SYSCSR) sr_bit).mpr h
  simp only [syscsr_wait, ioread32]
  rw [if_pos h1]

theorem syscsr_wait_never (hw : Hw) (sr_bit : Nat)
    (h : ∀ tr, reads_bit hw tr (Reg.sysc SYSCSR) sr_bit = false) :
    ∀ n tr, (syscsr_wait hw sr_bit n tr).1 = false ∧
      readsOf (Reg.sysc SYSCSR) (syscsr_wait hw sr_bit n tr).2 =
        readsOf (Reg.sysc SYSCSR) tr + n := by
  intro n
  induction n with
  | zero => intro tr; simp [syscsr_wait]
  | succ n ih =>
    intro tr
    have h0 : ¬ (u32 (hw tr (Reg.sysc SYSCSR)) &&& BIT sr_bit ≠ 0) := by
      rw [read_and_BIT, h tr]; simp
    simp only [syscsr_wait, ioread32]
    rw [if_neg h0]
    obtain ⟨a, b⟩ := ih (udelay SYSCSR_DELAY_US
      (tr ++ [Event.read (Reg.sysc SYSCSR) (u32 (hw tr (Reg.sysc SYSCSR)))]))
    refine ⟨a, ?_⟩
    rw [b]
    simp [readsOf, udelay, List.countP_append, Event.isReadOf]
    omega

theorem pwr_on_off_ready (hw : Hw) (pd : rcar_sysc_pd) (on_ : Bool) (tr : Trace)
    (h : reads_bit hw tr (Reg.sysc SYSCSR) (ready_bit on_) = true) :
    rcar_sysc_pwr_on_off hw pd on_ tr =
      (0, iowrite32 (BIT pd.ch.chan_bit) (ctrl_reg pd on_)
        (if on_ = false ∧ (pd.name = "a3vp" ∨ pd.name = "a3ir" ∨ pd.name = "a3vc")
         then udelay 1 (tr ++ [Event.read (Reg.sysc SYSCSR) (u32 (hw tr (Reg.sysc SYSCSR)))])
         else tr ++ [Event.read (Reg.sysc SYSCSR) (u32 (hw tr (Reg.sysc SYSCSR)))])) := by
  have hR : SYSCSR_RETRIES = 999 + 1 := rfl
  cases on_
  · have hw1 := syscsr_wait_ready hw SYSCSR_POFFENB 999 tr h
    simp [rcar_sysc_pwr_on_off, hR, hw1, ctrl_reg]
  · have hw1 := syscsr_wait_ready hw SYSCSR_PONENB 999 tr h
    simp [rcar_sysc_pwr_on_off, hR, hw1, ctrl_reg]

theorem pwr_on_off_ready_counts (hw : Hw) (pd : rcar_sysc_pd) (on_ : Bool) (tr : Trace)
    (h : reads_bit hw tr (Reg.sysc SYSCSR) (ready_bit on_) = true) :
    (rcar_sysc_pwr_on_off hw pd on_ tr).1 = 0 ∧
    writesTo (ctrl_reg pd on_) (rcar_sysc_pwr_on_off hw pd on_ tr).2 =
      writesTo (ctrl_reg pd on_) tr + 1 ∧
    readsOf (Reg.sysc SYSCISR) (rcar_sysc_pwr_on_off hw pd on_ tr).2 =
      readsOf (Reg.sysc SYSCISR) tr := by
  rw [pwr_on_off_ready hw pd on_ tr h]
  refine ⟨rfl, ?_, ?_⟩
  · split <;>
      simp [writesTo, iowrite32, udelay, List.countP_append, Event.isWriteTo]
  · split <;>
      simp [readsOf, iowrite32, udelay, List.countP_append, Event.isReadOf, SYSCSR, SYSCISR]

theorem pwr_on_off_never (hw : Hw) (pd : rcar_sysc_pd) (on_ : Bool) (tr : Trace)
    (h : ∀ t, reads_bit hw t (Reg.sysc SYSCSR) (ready_bit on_) = false) :
    (rcar_sysc_pwr_on_off hw pd on_ tr).1 = -EAGAIN ∧
    readsOf (Reg.sysc SYSCSR) (rcar_sysc_pwr_on_off hw pd on_ tr).2 =
      readsOf (Reg.sysc SYSCSR) tr + 1000 ∧
    ∀ r, writesTo r (rcar_sysc_pwr_on_off hw pd on_ tr).2 = writesTo r tr := by
  have hn := syscsr_wait_never hw (ready_bit on_) h SYSCSR_RETRIES tr
  have hc := fun r => syscsr_wait_countP hw (ready_bit on_) (Event.isWriteTo r)
    (fun _ => rfl) (fun _ => rfl) SYSCSR_RETRIES tr
  have hb : (if on_ = true then SYSCSR_PONENB else SYSCSR_POFFENB) = ready_bit on_ := rfl
  simp only [rcar_sysc_pwr_on_off, hb, hn.1, if_true]
  exact ⟨trivial, hn.2, hc⟩

theorem pwrer_loop_step (hw : Hw) (pd : rcar_sysc_pd) (on_ : Bool) (n : Nat) (tr : Trace)
    (h : reads_bit hw tr (Reg.sysc SYSCSR) (ready_bit on_) = true) :
    pwrer_loop hw pd on_ (u32 (BIT pd.ch.chan_bit)) (n + 1) tr =
      if reads_bit hw (rcar_sysc_pwr_on_off hw pd on_ tr).2
          (Reg.chan pd.ch.chan_offs PWRER_OFFS) pd.ch.chan_bit = true
      then pwrer_loop hw pd on_ (u32 (BIT pd.ch.chan_bit)) n
        (udelay PWRER_DELAY_US
          (ioread32 hw (Reg.chan pd.ch.chan_offs PWRER_OFFS)
            (rcar_sysc_pwr_on_off hw pd on_ tr).2).2)
      else (LoopExit.brk,
        (ioread32 hw (Reg.chan pd.ch.chan_offs PWRER_OFFS)
          (rcar_sysc_pwr_on_off hw pd on_ tr).2).2) := by
  have h0 := (pwr_on_off_ready_counts hw pd on_ tr h).1
  have hb := read_and_u32_BIT hw (rcar_sysc_pwr_on_off hw pd on_ tr).2
    (Reg.chan pd.ch.chan_offs PWRER_OFFS) pd.ch.chan_bit
  rw [pwrer_loop]
  simp only [h0, ne_eq, not_true_eq_false, if_false]
  by_cases hc : reads_bit hw (rcar_sysc_pwr_on_off hw pd on_ tr).2
      (Reg.chan pd.ch.chan_offs PWRER_OFFS) pd.ch.chan_bit = true
  · have h1 := hb.mpr hc
    rw [if_pos hc, if_neg]
    simpa [ioread32] using h1
  · have h1 : ¬ (u32 (hw (rcar_sysc_pwr_on_off hw pd on_ tr).2
        (Reg.chan pd.ch.chan_offs PWRER_OFFS)) &&& u32 (BIT pd.ch.chan_bit) ≠ 0) :=
      fun hx => hc (hb.mp hx)
    rw [if_neg hc, if_pos]
    simpa [ioread32] using h1

theorem pwrer_loop_accept (hw : Hw) (pd : rcar_sysc_pd) (on_ : Bool) (N : Nat)
    (hready : ∀ tr, reads_bit hw tr (Reg.sysc SYSCSR) (ready_bit on_) = true)
    (hrej : ∀ tr, 1 ≤ writesTo (ctrl_reg pd on_) tr → writesTo (ctrl_reg pd on_) tr ≤ N →
      reads_bit hw tr (Reg.chan pd.ch.chan_offs PWRER_OFFS) pd.ch.chan_bit = true)
    (hacc : ∀ tr, writesTo (ctrl_reg pd on_) tr = N + 1 →
      reads_bit hw tr (Reg.chan pd.ch.chan_offs PWRER_OFFS) pd.ch.chan_bit = false) :
    ∀ m n tr, m < n → writesTo (ctrl_reg pd on_) tr + m = N →
      (pwrer_loop hw pd on_ (u32 (BIT pd.ch.chan_bit)) n tr).1 = LoopExit.brk ∧
      writesTo (ctrl_reg pd on_)
        (pwrer_loop hw pd on_ (u32 (BIT pd.ch.chan_bit)) n tr).2 = N + 1 ∧
      readsOf (Reg.sysc SYSCISR)
        (pwrer_loop hw pd on_ (u32 (BIT pd.ch.chan_bit)) n tr).2 =
          readsOf (Reg.sysc SYSCISR) tr := by
  intro m
  induction m with
  | zero =>
    intro n tr hlt hw0
    obtain ⟨k, rfl⟩ : ∃ k, n = k + 1 := ⟨n - 1, by omega⟩
    obtain ⟨_, c2, c3⟩ := pwr_on_off_ready_counts hw pd on_ tr (hready tr)
    have hclr := hacc (rcar_sysc_pwr_on_off hw pd on_ tr).2 (by omega)
    rw [pwrer_loop_step hw pd on_ k tr (hready tr), hclr]
    simp only [Bool.false_eq_true, if_false]
    refine ⟨trivial, ?_, ?_⟩
    · simp [ioread32, writesTo, List.countP_append, Event.isWriteTo] at c2 hw0 ⊢
      omega
    · simp [ioread32, readsOf, List.countP_append, Event.isReadOf] at c3 ⊢
      exact c3
  | succ m ih =>
    intro n tr hlt hw0
    obtain ⟨k, rfl⟩ : ∃ k, n = k + 1 := ⟨n - 1, by omega⟩
    obtain ⟨_, c2, c3⟩ := pwr_on_off_ready_counts hw pd on_ tr (hready tr)
    have hset := hrej (rcar_sysc_pwr_on_off hw pd on_ tr).2 (by omega) (by omega)
    rw [pwrer_loop_step hw pd on_ k tr (hready tr), hset]
    simp only [if_true]
    have hw1 : writesTo (ctrl_reg pd on_) (udelay PWRER_DELAY_US
        (ioread32 hw (Reg.chan pd.ch.chan_offs PWRER_OFFS)
          (rcar_sysc_pwr_on_off hw pd on_ tr).2).2) + m = N := by
      simp [ioread32, udelay, writesTo, List.countP_append, Event.isWriteTo] at c2 hw0 ⊢
      omega
    have hr1 : readsOf (Reg.sysc SYSCISR) (udelay PWRER_DELAY_US
        (ioread32 hw (Reg.chan pd.ch.chan_offs PWRER_OFFS)
          (rcar_sysc_pwr_on_off hw pd on_ tr).2).2) = readsOf (Reg.sysc SYSCISR) tr := by
      simp [ioread32, udelay, readsOf, List.countP_append, Event.isReadOf] at c3 ⊢
      exact c3
    obtain ⟨i1, i2, i3⟩ := ih k _ (by omega) hw1
    exact ⟨i1, i2, by rw [i3, hr1]⟩

theorem pwrer_loop_reject (hw : Hw) (pd : rcar_sysc_pd) (on_ : Bool)
    (hready : ∀ tr, reads_bit hw tr (Reg.sysc SYSCSR) (ready_bit on_) = true)
    (hrej : ∀ tr, reads_bit hw tr (Reg.chan pd.ch.chan_offs PWRER_OFFS) pd.ch.chan_bit = true) :
    ∀ n tr,
      (pwrer_loop hw pd on_ (u32 (BIT pd.ch.chan_bit)) n tr).1 = LoopExit.exhausted ∧
      writesTo (ctrl_reg pd on_)
        (pwrer_loop hw pd on_ (u32 (BIT pd.ch.chan_bit)) n tr).2 =
          writesTo (ctrl_reg pd on_) tr + n ∧
      readsOf (Reg.sysc SYSCISR)
        (pwrer_loop hw pd on_ (u32 (BIT pd.ch.chan_bit)) n tr).2 =
          readsOf (Reg.sysc SYSCISR) tr := by
  intro n
  induction n with
  | zero => intro tr; simp [pwrer_loop]
  | succ n ih =>
    intro tr
    obtain ⟨_, c2, c3⟩ := pwr_on_off_ready_counts hw pd on_ tr (hready tr)
    rw [pwrer_loop_step hw pd on_ n tr (hready tr), hrej]
    simp only [if_true]
    obtain ⟨i1, i2, i3⟩ := ih (udelay PWRER_DELAY_US
        (ioread32 hw (Reg.chan pd.ch.chan_offs PWRER_OFFS)
          (rcar_sysc_pwr_on_off hw pd on_ tr).2).2)
    refine ⟨i1, ?_, ?_⟩
    · rw [i2]
      simp [ioread32, udelay, writesTo, List.countP_append, Event.isWriteTo] at c2 ⊢
      omega
    · rw [i3]
      simp [ioread32, udelay, readsOf, List.countP_append, Event.isReadOf] at c3 ⊢
      exact c3

theorem pwrer_loop_never (hw : Hw) (pd : rcar_sysc_pd) (on_ : Bool) (cm n : Nat) (tr : Trace)
    (h : ∀ t, reads_bit hw t (Reg.sysc SYSCSR) (ready_bit on_) = false) :
    (pwrer_loop hw pd on_ cm (n + 1) tr).1 = LoopExit.out (-EAGAIN) ∧
    readsOf (Reg.sysc SYSCSR) (pwrer_loop hw pd on_ cm (n + 1) tr).2 =
      readsOf (Reg.sysc SYSCSR) tr + 1000 ∧
    ∀ r, writesTo r (pwrer_loop hw pd on_ cm (n + 1) tr).2 = writesTo r tr := by
  obtain ⟨a, b, c⟩ := pwr_on_off_never hw pd on_ tr h
  have hne : (rcar_sysc_pwr_on_off hw pd on_ tr).1 ≠ 0 := by
    rw [a]; decide
  rw [pwrer_loop]
  simp only [hne, ne_eq, not_false_eq_true, if_true]
  exact ⟨by rw [a], b, c⟩

/-! ## Completion wait -/

theorem syscisr_wait_countP (hw : Hw) (isr_mask : Nat) (p : Event → Bool)
    (hr : ∀ v, p (Event.read (Reg.sysc SYSCISR) v) = false)
    (hd : ∀ us, p (Event.delay us) = false) :
    ∀ n tr, List.countP p (syscisr_wait hw isr_mask n tr).2 = List.countP p tr := by
  intro n
  induction n with
  | zero => intro tr; simp [syscisr_wait]
  | succ n ih =>
    intro tr
    simp only [syscisr_wait]
    split
    · simp [ioread32, List.countP_append, hr]
    · rw [ih]
      simp [udelay, ioread32, List.countP_append, hr, hd]

theorem syscisr_wait_done (hw : Hw) (pd : rcar_sysc_pd) (c : Reg) (W j : Nat)
    (hdone : ∀ tr, writesTo c tr = W → readsOf (Reg.sysc SYSCISR) tr = j →
      reads_bit hw tr (Reg.sysc SYSCISR) pd.ch.isr_bit = true) :
    ∀ n tr, writesTo c tr = W → readsOf (Reg.sysc SYSCISR) tr ≤ j →
      j < readsOf (Reg.sysc SYSCISR) tr + n →
      (syscisr_wait hw (u32 (BIT pd.ch.isr_bit)) n tr).1 = true := by
  intro n
  induction n with
  | zero => intro tr _ h1 h2; omega
  | succ n ih =>
    intro tr hW h1 h2
    simp only [syscisr_wait]
    split
    · rfl
    · rename_i hclr
      have hbit : reads_bit hw tr (Reg.sysc SYSCISR) pd.ch.isr_bit ≠ true := by
        intro hx
        exact hclr ((read_and_u32_BIT hw tr (Reg.sysc SYSCISR) pd.ch.isr_bit).mpr hx)
      have hne : readsOf (Reg.sysc SYSCISR) tr ≠ j := fun hx => hbit (hdone tr hW hx)
      apply ih
      · simpa [ioread32, udelay, writesTo, List.countP_append, Event.isWriteTo] using hW
      · simp [ioread32, udelay, readsOf, List.countP_append, Event.isReadOf]
        simp only [readsOf] at hne h1
        omega
      · simp [ioread32, udelay, readsOf, List.countP_append, Event.isReadOf]
        simp only [readsOf] at hne h2
        omega

theorem syscisr_wait_never (hw : Hw) (pd : rcar_sysc_pd)
    (h : ∀ tr, reads_bit hw tr (Reg.sysc SYSCISR) pd.ch.isr_bit = false) :
    ∀ n tr, (syscisr_wait hw (u32 (BIT pd.ch.isr_bit)) n tr).1 = false ∧
      readsOf (Reg.sysc SYSCISR) (syscisr_wait hw (u32 (BIT pd.ch.isr_bit)) n tr).2 =
        readsOf (Reg.sysc SYSCISR) tr + n := by
  intro n
  induction n with
  | zero => intro tr; simp [syscisr_wait]
  | succ n ih =>
    intro tr
    have h0 : ¬ (u32 (hw tr (Reg.sysc SYSCISR)) &&& u32 (BIT pd.ch.isr_bit) ≠ 0) := by
      rw [read_and_u32_BIT, h tr]; simp
    simp only [syscisr_wait, ioread32]
    rw [if_neg h0]
    obtain ⟨a, b⟩ := ih (udelay SYSCISR_DELAY_US
      (tr ++ [Event.read (Reg.sysc SYSCISR) (u32 (hw tr (Reg.sysc SYSCISR)))]))
    refine ⟨a, ?_⟩
    rw [b]
    simp [readsOf, udelay, List.countP_append, Event.isReadOf]
    omega

/-! ## The whole handshake -/

theorem arm_counts (g : Sysc) (hw : Hw) (pd : rcar_sysc_pd) (tr : Trace) :
    (∀ a b, writesTo (Reg.chan a b) (rcar_sysc_power_arm g hw pd tr) =
      writesTo (Reg.chan a b) tr) ∧
    readsOf (Reg.sysc SYSCISR) (rcar_sysc_power_arm g hw pd tr) =
      readsOf (Reg.sysc SYSCISR) tr ∧
    readsOf (Reg.sysc SYSCSR) (rcar_sysc_power_arm g hw pd tr) =
      readsOf (Reg.sysc SYSCSR) tr := by
  unfold rcar_sysc_power_arm
  refine ⟨?_, ?_, ?_⟩
  · intro a b
    split <;>
      simp [writesTo, iowrite32, ioread32, List.countP_append, Event.isWriteTo]
  · split <;>
      simp [readsOf, iowrite32, ioread32, List.countP_append, Event.isReadOf,
        SYSCISR, SYSCIMR, SYSCIER]
  · split <;>
      simp [readsOf, iowrite32, ioread32, List.countP_append, Event.isReadOf,
        SYSCSR, SYSCIMR, SYSCIER]

theorem out_counts (g : Sysc) (tr : Trace) :
    (∀ a b, writesTo (Reg.chan a b) (rcar_sysc_power_out g tr) =
      writesTo (Reg.chan a b) tr) ∧
    (∀ r, readsOf r (rcar_sysc_power_out g tr) = readsOf r tr) := by
  unfold rcar_sysc_power_out
  refine ⟨?_, ?_⟩
  · intro a b
    split <;> simp [writesTo, iowrite32, List.countP_append, Event.isWriteTo]
  · intro r
    split <;> simp [readsOf, iowrite32, List.countP_append, Event.isReadOf]

theorem request_brk (hw : Hw) (pd : rcar_sysc_pd) (on_ : Bool) (tr : Trace)
    (h : (pwrer_loop hw pd on_ (u32 (BIT pd.ch.chan_bit)) PWRER_RETRIES tr).1 = LoopExit.brk) :
    rcar_sysc_power_request hw pd on_ tr =
      ((if (syscisr_wait hw (u32 (BIT pd.ch.isr_bit)) SYSCISR_RETRIES
            (pwrer_loop hw pd on_ (u32 (BIT pd.ch.chan_bit)) PWRER_RETRIES tr).2).1 = false
        then - EIO else 0),
       iowrite32 (u32 (BIT pd.ch.isr_bit)) (Reg.sysc SYSCISCR)
        (syscisr_wait hw (u32 (BIT pd.ch.isr_bit)) SYSCISR_RETRIES
          (pwrer_loop hw pd on_ (u32 (BIT pd.ch.chan_bit)) PWRER_RETRIES tr).2).2) := by
  unfold rcar_sysc_power_request
  simp only [h]

theorem request_exhausted (hw : Hw) (pd : rcar_sysc_pd) (on_ : Bool) (tr : Trace)
    (h : (pwrer_loop hw pd on_ (u32 (BIT pd.ch.chan_bit)) PWRER_RETRIES tr).1 =
      LoopExit.exhausted) :
    rcar_sysc_power_request hw pd on_ tr =
      (- EIO, (pwrer_loop hw pd on_ (u32 (BIT pd.ch.chan_bit)) PWRER_RETRIES tr).2) := by
  unfold rcar_sysc_power_request
  simp only [h]

theorem request_out (hw : Hw) (pd : rcar_sysc_pd) (on_ : Bool) (tr : Trace) (ret : Int)
    (h : (pwrer_loop hw pd on_ (u32 (BIT pd.ch.chan_bit)) PWRER_RETRIES tr).1 =
      LoopExit.out ret) :
    rcar_sysc_power_request hw pd on_ tr =
      (ret, (pwrer_loop hw pd on_ (u32 (BIT pd.ch.chan_bit)) PWRER_RETRIES tr).2) := by
  unfold rcar_sysc_power_request
  simp only [h]

theorem ctrl_reg_eq (pd : rcar_sysc_pd) (on_ : Bool) :
    ctrl_reg pd on_ = Reg.chan pd.ch.chan_offs (if on_ then PWRONCR_OFFS else PWROFFCR_OFFS) :=
  rfl

/-- Acceptance after `N < 1000` rejections followed by completion at poll
`j + 1 ≤ 1000`: the handshake succeeds after `N + 1` submissions. -/
theorem power_accept_complete (g : Sysc) (hw : Hw) (pd : rcar_sysc_pd) (on_ : Bool)
    (N j : Nat) (hN : N < 1000) (hj : j < 1000)
    (hready : ∀ tr, reads_bit hw tr (Reg.sysc SYSCSR) (ready_bit on_) = true)
    (hrej : ∀ tr, 1 ≤ writesTo (ctrl_reg pd on_) tr → writesTo (ctrl_reg pd on_) tr ≤ N →
      reads_bit hw tr (Reg.chan pd.ch.chan_offs PWRER_OFFS) pd.ch.chan_bit = true)
    (hacc : ∀ tr, writesTo (ctrl_reg pd on_) tr = N + 1 →
      reads_bit hw tr (Reg.chan pd.ch.chan_offs PWRER_OFFS) pd.ch.chan_bit = false)
    (hdone : ∀ tr, writesTo (ctrl_reg pd on_) tr = N + 1 →
      readsOf (Reg.sysc SYSCISR) tr = j →
      reads_bit hw tr (Reg.sysc SYSCISR) pd.ch.isr_bit = true) :
    (rcar_sysc_power g hw pd on_ []).1 = 0 ∧
    writesTo (ctrl_reg pd on_) (rcar_sysc_power g hw pd on_ []).2 = N + 1 := by
  obtain ⟨a1, a2, _⟩ := arm_counts g hw pd []
  have a1c : writesTo (ctrl_reg pd on_) (rcar_sysc_power_arm g hw pd []) = 0 := by
    rw [ctrl_reg_eq, a1]; rfl
  have a2c : readsOf (Reg.sysc SYSCISR) (rcar_sysc_power_arm g hw pd []) = 0 := by
    rw [a2]; rfl
  obtain ⟨l1, l2, l3⟩ := pwrer_loop_accept hw pd on_ N hready hrej hacc N PWRER_RETRIES
    (rcar_sysc_power_arm g hw pd []) (by simpa [PWRER_RETRIES] using hN) (by omega)
  have hw1 := syscisr_wait_done hw pd (ctrl_reg pd on_) (N + 1) j hdone SYSCISR_RETRIES
    _ l2 (by rw [l3, a2c]; omega) (by rw [l3, a2c]; simpa [SYSCISR_RETRIES] using hj)
  have hc := syscisr_wait_countP hw (u32 (BIT pd.ch.isr_bit))
    (Event.isWriteTo (ctrl_reg pd on_)) (fun _ => rfl) (fun _ => rfl) SYSCISR_RETRIES
    (pwrer_loop hw pd on_ (u32 (BIT pd.ch.chan_bit)) PWRER_RETRIES
      (rcar_sysc_power_arm g hw pd [])).2
  unfold rcar_sysc_power
  simp only [request_brk hw pd on_ _ l1, hw1]
  refine ⟨by simp, ?_⟩
  rw [ctrl_reg_eq, (out_counts g _).1, ← ctrl_reg_eq]
  simp only [iowrite32, writesTo, List.countP_append] at hc l2 ⊢
  rw [hc, l2]
  simp [Event.isWriteTo, ctrl_reg]

/-- Persistent rejection: the handshake gives up with `- EIO` after 1000
submissions and never reads the interrupt status register. -/
theorem power_rejected (g : Sysc) (hw : Hw) (pd : rcar_sysc_pd) (on_ : Bool)
    (hready : ∀ tr, reads_bit hw tr (Reg.sysc SYSCSR) (ready_bit on_) = true)
    (hrej : ∀ tr, reads_bit hw tr (Reg.chan pd.ch.chan_offs PWRER_OFFS) pd.ch.chan_bit = true) :
    (rcar_sysc_power g hw pd on_ []).1 = - EIO ∧
    writesTo (ctrl_reg pd on_) (rcar_sysc_power g hw pd on_ []).2 = 1000 ∧
    readsOf (Reg.sysc SYSCISR) (rcar_sysc_power g hw pd on_ []).2 = 0 := by
  obtain ⟨a1, a2, _⟩ := arm_counts g hw pd []
  have a1c : writesTo (ctrl_reg pd on_) (rcar_sysc_power_arm g hw pd []) = 0 := by
    rw [ctrl_reg_eq, a1]; rfl
  have a2c : readsOf (Reg.sysc SYSCISR) (rcar_sysc_power_arm g hw pd []) = 0 := by
    rw [a2]; rfl
  obtain ⟨l1, l2, l3⟩ := pwrer_loop_reject hw pd on_ hready hrej PWRER_RETRIES
    (rcar_sysc_power_arm g hw pd [])
  unfold rcar_sysc_power
  simp only [request_exhausted hw pd on_ _ l1]
  refine ⟨trivial, ?_, ?_⟩
  · rw [ctrl_reg_eq, (out_counts g _).1, ← ctrl_reg_eq, l2, a1c]
    rfl
  · rw [(out_counts g _).2, l3, a2c]

/-- The readiness bit never shows: the handshake fails with `-EAGAIN` after
1000 reads of the status register, without a write to any per-domain
register. -/
theorem power_never_ready (g : Sysc) (hw : Hw) (pd : rcar_sysc_pd) (on_ : Bool)
    (hnever : ∀ tr, reads_bit hw tr (Reg.sysc SYSCSR) (ready_bit on_) = false) :
    (rcar_sysc_power g hw pd on_ []).1 = -EAGAIN ∧
    readsOf (Reg.sysc SYSCSR) (rcar_sysc_power g hw pd on_ []).2 = 1000 ∧
    ∀ a b, writesTo (Reg.chan a b) (rcar_sysc_power g hw pd on_ []).2 = 0 := by
  obtain ⟨a1, _, a3⟩ := arm_counts g hw pd []
  have hR : PWRER_RETRIES = 999 + 1 := rfl
  obtain ⟨l1, l2, l3⟩ := pwrer_loop_never hw pd on_ (u32 (BIT pd.ch.chan_bit)) 999
    (rcar_sysc_power_arm g hw pd []) hnever
  rw [← hR] at l1 l2 l3
  unfold rcar_sysc_power
  simp only [request_out hw pd on_ _ _ l1]
  refine ⟨trivial, ?_, ?_⟩
  · rw [(out_counts g _).2, l2, a3]
    rfl
  · intro a b
    rw [(out_counts g _).1, l3, a1]
    rfl

/-- Acceptance after `N < 1000` rejections, but the interrupt status bit
never shows: the handshake fails with `- EIO` after 1000 polls. -/
theorem power_completion_timeout (g : Sysc) (hw : Hw) (pd : rcar_sysc_pd) (on_ : Bool)
    (N : Nat) (hN : N < 1000)
    (hready : ∀ tr, reads_bit hw tr (Reg.sysc SYSCSR) (ready_bit on_) = true)
    (hrej : ∀ tr, 1 ≤ writesTo (ctrl_reg pd on_) tr → writesTo (ctrl_reg pd on_) tr ≤ N →
      reads_bit hw tr (Reg.chan pd.ch.chan_offs PWRER_OFFS) pd.ch.chan_bit = true)
    (hacc : ∀ tr, writesTo (ctrl_reg pd on_) tr = N + 1 →
      reads_bit hw tr (Reg.chan pd.ch.chan_offs PWRER_OFFS) pd.ch.chan_bit = false)
    (hnever : ∀ tr, reads_bit hw tr (Reg.sysc SYSCISR) pd.ch.isr_bit = false) :
    (rcar_sysc_power g hw pd on_ []).1 = - EIO ∧
    (rcar_sysc_power g hw pd on_ []).1 ≠ -EAGAIN ∧
    readsOf (Reg.sysc SYSCISR) (rcar_sysc_power g hw pd on_ []).2 = 1000 := by
  obtain ⟨a1, a2, _⟩ := arm_counts g hw pd []
  have a1c : writesTo (ctrl_reg pd on_) (rcar_sysc_power_arm g hw pd []) = 0 := by
    rw [ctrl_reg_eq, a1]; rfl
  have a2c : readsOf (Reg.sysc SYSCISR) (rcar_sysc_power_arm g hw pd []) = 0 := by
    rw [a2]; rfl
  obtain ⟨l1, _, l3⟩ := pwrer_loop_accept hw pd on_ N hready hrej hacc N PWRER_RETRIES
    (rcar_sysc_power_arm g hw pd []) (by simpa [PWRER_RETRIES] using hN) (by omega)
  obtain ⟨w1, w2⟩ := syscisr_wait_never hw pd hnever SYSCISR_RETRIES
    (pwrer_loop hw pd on_ (u32 (BIT pd.ch.chan_bit)) PWRER_RETRIES
      (rcar_sysc_power_arm g hw pd [])).2
  have hret : (rcar_sysc_power g hw pd on_ []).1 = - EIO := by
    unfold rcar_sysc_power
    simp only [request_brk hw pd on_ _ l1, w1, if_true]
  refine ⟨hret, by rw [hret]; decide, ?_⟩
  unfold rcar_sysc_power
  simp only [request_brk hw pd on_ _ l1]
  rw [(out_counts g _).2]
  simp only [iowrite32, readsOf, List.countP_append] at w2 l3 a2c ⊢
  rw [w2, l3, a2c]
  simp [Event.isReadOf, SYSCISR_RETRIES]

/-! ## Traces only grow -/

theorem prefix_read {tr t : Trace} (hw : Hw) (r : Reg) (h : tr <+: t) :
    tr <+: (ioread32 hw r t).2 :=
  h.trans (List.prefix_append _ _)

theorem prefix_write {tr t : Trace} (v : Nat) (r : Reg) (h : tr <+: t) :
    tr <+: iowrite32 v r t :=
  h.trans (List.prefix_append _ _)

theorem prefix_delay {tr t : Trace} (us : Nat) (h : tr <+: t) : tr <+: udelay us t :=
  h.trans (List.prefix_append _ _)

theorem prefix_snoc {tr t : Trace} (e : Event) (h : tr <+: t) : tr <+: t ++ [e] :=
  h.trans (List.prefix_append _ _)

theorem syscsr_wait_grows (hw : Hw) (sr_bit : Nat) :
    ∀ n tr, tr <+: (syscsr_wait hw sr_bit n tr).2 := by
  intro n
  induction n with
  | zero => intro tr; exact List.prefix_rfl
  | succ n ih =>
    intro tr
    simp only [syscsr_wait]
    split
    · exact prefix_read hw _ List.prefix_rfl
    · exact (prefix_delay _ (prefix_read hw _ List.prefix_rfl)).trans (ih _)

theorem syscisr_wait_grows (hw : Hw) (isr_mask : Nat) :
    ∀ n tr, tr <+: (syscisr_wait hw isr_mask n tr).2 := by
  intro n
  induction n with
  | zero => intro tr; exact List.prefix_rfl
  | succ n ih =>
    intro tr
    simp only [syscisr_wait]
    split
    · exact prefix_read hw _ List.prefix_rfl
    · exact (prefix_delay _ (prefix_read hw _ List.prefix_rfl)).trans (ih _)

theorem pwr_on_off_grows (hw : Hw) (pd : rcar_sysc_pd) (on_ : Bool) (tr : Trace) :
    tr <+: (rcar_sysc_pwr_on_off hw pd on_ tr).2 := by
  unfold rcar_sysc_pwr_on_off
  simp only
  split_ifs
  all_goals
    repeat (first
      | exact syscsr_wait_grows hw _ _ _
      | apply prefix_write
      | apply prefix_delay)

theorem pwrer_loop_grows (hw : Hw) (pd : rcar_sysc_pd) (on_ : Bool) (cm : Nat) :
    ∀ n tr, tr <+: (pwrer_loop hw pd on_ cm n tr).2 := by
  intro n
  induction n with
  | zero => intro tr; exact List.prefix_rfl
  | succ n ih =>
    intro tr
    have h := pwr_on_off_grows hw pd on_ tr
    simp only [pwrer_loop]
    split_ifs
    · exact h
    · exact prefix_read hw _ h
    · exact (prefix_delay _ (prefix_read hw _ h)).trans (ih _)

theorem request_grows (hw : Hw) (pd : rcar_sysc_pd) (on_ : Bool) (tr : Trace) :
    tr <+: (rcar_sysc_power_request hw pd on_ tr).2 := by
  have h := pwrer_loop_grows hw pd on_ (u32 (BIT pd.ch.chan_bit)) PWRER_RETRIES tr
  unfold rcar_sysc_power_request
  simp only
  split
  · exact h
  · exact h
  · exact prefix_write _ _ (h.trans (syscisr_wait_grows hw _ _ _))

theorem out_grows (g : Sysc) (tr : Trace) : tr <+: rcar_sysc_power_out g tr := by
  unfold rcar_sysc_power_out
  simp only
  split_ifs
  · exact prefix_snoc _ (prefix_write _ _ List.prefix_rfl)
  · exact prefix_snoc _ List.prefix_rfl

theorem arm_writes (g : Sysc) (hw : Hw) (pd : rcar_sysc_pd) (tr : Trace) :
    writes tr + 3 ≤ writes (rcar_sysc_power_arm g hw pd tr) := by
  unfold rcar_sysc_power_arm
  simp only
  split_ifs <;>
    simp [writes, iowrite32, ioread32, List.countP_append, Event.isWrite]

/-- Every run of the handshake writes registers. -/
theorem power_writes (g : Sysc) (hw : Hw) (pd : rcar_sysc_pd) (on_ : Bool) (tr : Trace) :
    writes tr < writes (rcar_sysc_power g hw pd on_ tr).2 := by
  have h1 := arm_writes g hw pd tr
  have h2 := (request_grows hw pd on_ (rcar_sysc_power_arm g hw pd tr)).sublist.countP_le
    Event.isWrite
  have h3 := (out_grows g
    (rcar_sysc_power_request hw pd on_ (rcar_sysc_power_arm g hw pd tr)).2).sublist.countP_le
    Event.isWrite
  unfold rcar_sysc_power
  simp only [writes] at h1 ⊢
  omega

theorem a3ir_clk_wait_grows (hw : Hw) (clk_en : Bool) :
    ∀ fuel timeout tr, tr <+: (a3ir_clk_wait hw clk_en fuel timeout tr).2 := by
  intro fuel
  induction fuel with
  | zero => intro timeout tr; exact List.prefix_rfl
  | succ n ih =>
    intro timeout tr
    have h0 : tr <+: (ioread32 hw (Reg.phys MSTPSR8_ADDR)
        (ioread32 hw (Reg.phys MSTPSR5_ADDR) tr).2).2 :=
      prefix_read hw _ (prefix_read hw _ List.prefix_rfl)
    rw [a3ir_clk_wait]
    simp only
    split_ifs
    all_goals
      first
        | exact h0
        | exact prefix_delay _ h0
        | exact (prefix_delay _ h0).trans (ih _ _)

theorem a3ir_clk_ctrl_grows (hw : Hw) (clk_en : Bool) (tr : Trace) :
    tr <+: (rcar_sysc_a3ir_clk_ctrl hw clk_en tr).2 := by
  unfold rcar_sysc_a3ir_clk_ctrl
  simp only
  split_ifs
  all_goals
    refine List.IsPrefix.trans ?_ (a3ir_clk_wait_grows hw _ _ _ _)
    exact prefix_write _ _ (prefix_read hw _ (prefix_write _ _ (prefix_read hw _
      List.prefix_rfl)))

/-! ## Classes of appended events -/

theorem Extends.rfl_ (q : Event → Bool) (tr : Trace) : Extends q tr tr :=
  ⟨[], by simp, by simp⟩

theorem Extends.trans_ {q : Event → Bool} {a b c : Trace} (h1 : Extends q a b)
    (h2 : Extends q b c) : Extends q a c := by
  obtain ⟨e1, rfl, k1⟩ := h1
  obtain ⟨e2, rfl, k2⟩ := h2
  refine ⟨e1 ++ e2, by simp, ?_⟩
  intro e he
  rcases List.mem_append.mp he with h | h
  · exact k1 e h
  · exact k2 e h

theorem Extends.mono_ {q q2 : Event → Bool} {a b : Trace} (h : Extends q a b)
    (hq : ∀ e, q e = true → q2 e = true) : Extends q2 a b := by
  obtain ⟨e1, rfl, k1⟩ := h
  exact ⟨e1, rfl, fun e he => hq e (k1 e he)⟩

theorem Extends.snoc_ {q : Event → Bool} {a b : Trace} (e : Event) (hq : q e = true)
    (h : Extends q a b) : Extends q a (b ++ [e]) :=
  h.trans_ ⟨[e], rfl, by simpa using hq⟩

theorem Extends.countP_eq {q : Event → Bool} {a b : Trace} (h : Extends q a b)
    (p : Event → Bool) (hp : ∀ e, q e = true → p e = false) :
    List.countP p b = List.countP p a := by
  obtain ⟨e1, rfl, k1⟩ := h
  have h0 : List.countP p e1 = 0 := by
    rw [List.countP_eq_zero]
    intro e he
    simp [hp e (k1 e he)]
  rw [List.countP_append, h0, Nat.add_zero]

theorem ext_read {q : Event → Bool} {tr t : Trace} (hw : Hw) (r : Reg)
    (hq : ∀ v, q (Event.read r v) = true) (h : Extends q tr t) :
    Extends q tr (ioread32 hw r t).2 :=
  h.snoc_ _ (hq _)

theorem ext_write {q : Event → Bool} {tr t : Trace} (v : Nat) (r : Reg)
    (hq : ∀ v, q (Event.write r v) = true) (h : Extends q tr t) :
    Extends q tr (iowrite32 v r t) :=
  h.snoc_ _ (hq _)

theorem ext_delay {q : Event → Bool} {tr t : Trace} (us : Nat)
    (hq : q (Event.delay us) = true) (h : Extends q tr t) :
    Extends q tr (udelay us t) :=
  h.snoc_ _ hq

theorem syscsr_wait_ext (hw : Hw) (sr_bit : Nat) :
    ∀ n tr, Extends Event.inRequest tr (syscsr_wait hw sr_bit n tr).2 := by
  intro n
  induction n with
  | zero => intro tr; exact Extends.rfl_ _ _
  | succ n ih =>
    intro tr
    simp only [syscsr_wait]
    split
    · exact ext_read hw _ (fun _ => rfl) (Extends.rfl_ _ _)
    · exact (ext_delay _ rfl (ext_read hw _ (fun _ => rfl) (Extends.rfl_ _ _))).trans_ (ih _)

theorem syscisr_wait_ext (hw : Hw) (isr_mask : Nat) :
    ∀ n tr, Extends Event.inRequest tr (syscisr_wait hw isr_mask n tr).2 := by
  intro n
  induction n with
  | zero => intro tr; exact Extends.rfl_ _ _
  | succ n ih =>
    intro tr
    simp only [syscisr_wait]
    split
    · exact ext_read hw _ (fun _ => rfl) (Extends.rfl_ _ _)
    · exact (ext_delay _ rfl (ext_read hw _ (fun _ => rfl) (Extends.rfl_ _ _))).trans_ (ih _)

theorem pwr_on_off_ext (hw : Hw) (pd : rcar_sysc_pd) (on_ : Bool) (tr : Trace) :
    Extends Event.inRequest tr (rcar_sysc_pwr_on_off hw pd on_ tr).2 := by
  unfold rcar_sysc_pwr_on_off
  simp only
  split_ifs
  all_goals
    repeat (first
      | exact syscsr_wait_ext hw _ _ _
      | refine ext_write _ _ (fun _ => rfl) ?_
      | refine ext_delay _ rfl ?_)

theorem pwrer_loop_ext (hw : Hw) (pd : rcar_sysc_pd) (on_ : Bool) (cm : Nat) :
    ∀ n tr, Extends Event.inRequest tr (pwrer_loop hw pd on_ cm n tr).2 := by
  intro n
  induction n with
  | zero => intro tr; exact Extends.rfl_ _ _
  | succ n ih =>
    intro tr
    have h := pwr_on_off_ext hw pd on_ tr
    simp only [pwrer_loop]
    split_ifs
    · exact h
    · exact ext_read hw _ (fun _ => rfl) h
    · exact (ext_delay _ rfl (ext_read hw _ (fun _ => rfl) h)).trans_ (ih _)

theorem request_ext (hw : Hw) (pd : rcar_sysc_pd) (on_ : Bool) (tr : Trace) :
    Extends Event.inRequest tr (rcar_sysc_power_request hw pd on_ tr).2 := by
  have h := pwrer_loop_ext hw pd on_ (u32 (BIT pd.ch.chan_bit)) PWRER_RETRIES tr
  unfold rcar_sysc_power_request
  simp only
  split
  · exact h
  · exact h
  · exact ext_write _ _ (fun _ => rfl) (h.trans_ (syscisr_wait_ext hw _ _ _))

/-- The handshake never touches an `ioremap`ped register. -/
theorem power_ext (g : Sysc) (hw : Hw) (pd : rcar_sysc_pd) (on_ : Bool) (tr : Trace) :
    Extends (fun e => !e.onPhys) tr (rcar_sysc_power g hw pd on_ tr).2 := by
  have harm : Extends (fun e => !e.onPhys) tr (rcar_sysc_power_arm g hw pd tr) := by
    unfold rcar_sysc_power_arm
    simp only
    split_ifs
    all_goals
      repeat (first
        | exact (Extends.rfl_ _ _).snoc_ Event.lock rfl
        | refine ext_write _ _ (fun _ => rfl) ?_
        | refine ext_read hw _ (fun _ => rfl) ?_)
  have hreq := @Extends.mono_ _ (fun e => !e.onPhys) _ _
    (request_ext hw pd on_ (rcar_sysc_power_arm g hw pd tr)) (by
      intro e he
      cases e with
      | read r v => cases r <;> simp_all [Event.inRequest, Event.onPhys]
      | write r v => cases r <;> simp_all [Event.inRequest, Event.onPhys]
      | delay us => rfl
      | lock => rfl
      | unlock => rfl)
  unfold rcar_sysc_power rcar_sysc_power_out
  simp only
  split_ifs
  · exact (ext_write 0 (Reg.extmask g.rcar_sysc_extmask_offs) (fun _ => rfl)
      (harm.trans_ hreq)).snoc_ Event.unlock rfl
  · exact (harm.trans_ hreq).snoc_ Event.unlock rfl

/-- Every run of the handshake takes the lock exactly once. -/
theorem power_locks (g : Sysc) (hw : Hw) (pd : rcar_sysc_pd) (on_ : Bool) (tr : Trace) :
    locks (rcar_sysc_power g hw pd on_ tr).2 = locks tr + 1 := by
  have harm : locks (rcar_sysc_power_arm g hw pd tr) = locks tr + 1 := by
    unfold rcar_sysc_power_arm
    simp only
    split_ifs <;>
      simp [locks, iowrite32, ioread32, List.countP_append, Event.isLock]
  have hreq := (request_ext hw pd on_ (rcar_sysc_power_arm g hw pd tr)).countP_eq
    Event.isLock (by
      intro e he
      cases e <;> simp_all [Event.inRequest, Event.isLock])
  unfold rcar_sysc_power rcar_sysc_power_out
  simp only [locks] at harm ⊢
  split_ifs <;>
    simp [iowrite32, List.countP_append, Event.isLock, hreq, harm]

theorem a3ir_clk_wait_ext (hw : Hw) (clk_en : Bool) :
    ∀ fuel timeout tr,
      Extends Event.inClkCtrl tr (a3ir_clk_wait hw clk_en fuel timeout tr).2 := by
  intro fuel
  induction fuel with
  | zero => intro timeout tr; exact Extends.rfl_ _ _
  | succ n ih =>
    intro timeout tr
    have h0 : Extends Event.inClkCtrl tr (ioread32 hw (Reg.phys MSTPSR8_ADDR)
        (ioread32 hw (Reg.phys MSTPSR5_ADDR) tr).2).2 :=
      ext_read hw _ (fun _ => rfl) (ext_read hw _ (fun _ => rfl) (Extends.rfl_ _ _))
    rw [a3ir_clk_wait]
    simp only
    split_ifs
    all_goals
      first
        | exact h0
        | exact ext_delay _ rfl h0
        | exact (ext_delay _ rfl h0).trans_ (ih _ _)

/-- The clock-gate control touches `ioremap`ped registers only. -/
theorem a3ir_clk_ctrl_ext (hw : Hw) (clk_en : Bool) (tr : Trace) :
    Extends Event.inClkCtrl tr (rcar_sysc_a3ir_clk_ctrl hw clk_en tr).2 := by
  unfold rcar_sysc_a3ir_clk_ctrl
  simp only
  split_ifs
  all_goals
    refine Extends.trans_ ?_ (a3ir_clk_wait_ext hw _ _ _ _)
    exact ext_write _ _ (fun _ => rfl) (ext_read hw _ (fun _ => rfl)
      (ext_write _ _ (fun _ => rfl) (ext_read hw _ (fun _ => rfl) (Extends.rfl_ _ _))))

/-! ## Writes of one run of the engine -/

theorem syscsr_wait_ext_gen (hw : Hw) (sr_bit : Nat) (q : Event → Bool)
    (hr : ∀ v, q (Event.read (Reg.sysc SYSCSR) v) = true)
    (hd : q (Event.delay SYSCSR_DELAY_US) = true) :
    ∀ n tr, Extends q tr (syscsr_wait hw sr_bit n tr).2 := by
  intro n
  induction n with
  | zero => intro tr; exact Extends.rfl_ _ _
  | succ n ih =>
    intro tr
    simp only [syscsr_wait]
    split
    · exact ext_read hw _ hr (Extends.rfl_ _ _)
    · exact (ext_delay _ hd (ext_read hw _ hr (Extends.rfl_ _ _))).trans_ (ih _)

theorem filter_eq_nil_of_all {p : Event → Bool} {evs : Trace}
    (h : ∀ e ∈ evs, (!p e) = true) : evs.filter p = [] := by
  rw [List.filter_eq_nil_iff]
  intro e he
  have := h e he
  simpa using this

/-- The writes of `rcar_sysc_pwr_on_off`: the one submission when it returns 0,
none otherwise. -/
theorem pwr_on_off_writes (hw : Hw) (pd : rcar_sysc_pd) (on_ : Bool) (tr : Trace) :
    ∃ evs, (rcar_sysc_pwr_on_off hw pd on_ tr).2 = tr ++ evs ∧
      evs.filter Event.isWrite =
        (if (rcar_sysc_pwr_on_off hw pd on_ tr).1 = 0
         then [Event.write (ctrl_reg pd on_) (u32 (BIT pd.ch.chan_bit))] else []) := by
  obtain ⟨ew, hw1, kw⟩ := syscsr_wait_ext_gen hw
    (if on_ = true then SYSCSR_PONENB else SYSCSR_POFFENB) (fun e => !e.isWrite)
    (fun _ => rfl) rfl SYSCSR_RETRIES tr
  have hnil := filter_eq_nil_of_all kw
  have hne : (-EAGAIN : Int) ≠ 0 := by decide
  have key : rcar_sysc_pwr_on_off hw pd on_ tr =
      if (syscsr_wait hw (if on_ = true then SYSCSR_PONENB else SYSCSR_POFFENB)
          SYSCSR_RETRIES tr).1 = false
      then (-EAGAIN, (syscsr_wait hw (if on_ = true then SYSCSR_PONENB else SYSCSR_POFFENB)
          SYSCSR_RETRIES tr).2)
      else (0, iowrite32 (BIT pd.ch.chan_bit) (ctrl_reg pd on_)
        (if on_ = false ∧ (pd.name = "a3vp" ∨ pd.name = "a3ir" ∨ pd.name = "a3vc")
         then udelay 1 (syscsr_wait hw (if on_ = true then SYSCSR_PONENB else SYSCSR_POFFENB)
           SYSCSR_RETRIES tr).2
         else (syscsr_wait hw (if on_ = true then SYSCSR_PONENB else SYSCSR_POFFENB)
           SYSCSR_RETRIES tr).2)) := rfl
  rw [key]
  cases hb : (syscsr_wait hw (if on_ = true then SYSCSR_PONENB else SYSCSR_POFFENB)
      SYSCSR_RETRIES tr).1
  · simp only [if_true]
    exact ⟨ew, hw1, by simp [hnil, hne]⟩
  · simp only [Bool.true_eq_false, if_false]
    by_cases hwa : on_ = false ∧ (pd.name = "a3vp" ∨ pd.name = "a3ir" ∨ pd.name = "a3vc")
    · rw [if_pos hwa]
      refine ⟨ew ++ [Event.delay 1,
        Event.write (ctrl_reg pd on_) (u32 (BIT pd.ch.chan_bit))], ?_, ?_⟩
      · rw [hw1]
        simp [iowrite32, udelay]
      · simp [List.filter_append, hnil, List.filter, Event.isWrite]
    · rw [if_neg hwa]
      refine ⟨ew ++ [Event.write (ctrl_reg pd on_) (u32 (BIT pd.ch.chan_bit))], ?_, ?_⟩
      · rw [hw1]
        simp [iowrite32]
      · simp [List.filter_append, hnil, List.filter, Event.isWrite]

/-- One iteration of the submission loop after a submission that went out. -/
theorem pwrer_loop_check (hw : Hw) (pd : rcar_sysc_pd) (on_ : Bool) (n : Nat) (tr : Trace)
    (h0 : (rcar_sysc_pwr_on_off hw pd on_ tr).1 = 0) :
    pwrer_loop hw pd on_ (u32 (BIT pd.ch.chan_bit)) (n + 1) tr =
      if reads_bit hw (rcar_sysc_pwr_on_off hw pd on_ tr).2
          (Reg.chan pd.ch.chan_offs PWRER_OFFS) pd.ch.chan_bit = true
      then pwrer_loop hw pd on_ (u32 (BIT pd.ch.chan_bit)) n
        ((rcar_sysc_pwr_on_off hw pd on_ tr).2 ++
          [Event.read (Reg.chan pd.ch.chan_offs PWRER_OFFS)
            (u32 (hw (rcar_sysc_pwr_on_off hw pd on_ tr).2
              (Reg.chan pd.ch.chan_offs PWRER_OFFS))),
           Event.delay PWRER_DELAY_US])
      else (LoopExit.brk,
        (rcar_sysc_pwr_on_off hw pd on_ tr).2 ++
          [Event.read (Reg.chan pd.ch.chan_offs PWRER_OFFS)
            (u32 (hw (rcar_sysc_pwr_on_off hw pd on_ tr).2
              (Reg.chan pd.ch.chan_offs PWRER_OFFS)))]) := by
  have hb := read_and_u32_BIT hw (rcar_sysc_pwr_on_off hw pd on_ tr).2
    (Reg.chan pd.ch.chan_offs PWRER_OFFS) pd.ch.chan_bit
  rw [pwrer_loop]
  simp only [h0, ne_eq, not_true_eq_false, if_false]
  by_cases hc : reads_bit hw (rcar_sysc_pwr_on_off hw pd on_ tr).2
      (Reg.chan pd.ch.chan_offs PWRER_OFFS) pd.ch.chan_bit = true
  · have h1 := hb.mpr hc
    rw [if_pos hc, if_neg (by simpa [ioread32] using h1)]
    simp [ioread32, udelay]
  · have h1 : ¬ (u32 (hw (rcar_sysc_pwr_on_off hw pd on_ tr).2
        (Reg.chan pd.ch.chan_offs PWRER_OFFS)) &&& u32 (BIT pd.ch.chan_bit) ≠ 0) :=
      fun hx => hc (hb.mp hx)
    rw [if_neg hc, if_pos (by simpa [ioread32] using h1)]
    simp [ioread32]

theorem u32_BIT_of_lt (n : Nat) (h : n < 32) : u32 (BIT n) = 2 ^ n := by
  unfold u32 BIT
  rw [Nat.one_shiftLeft]
  exact Nat.mod_eq_of_lt (Nat.pow_lt_pow_right (by norm_num) h)

/-- With an external request mask configured, the writes of one run of
`rcar_sysc_power` start with the mask value and end with 0, both to the mask
register. -/
theorem power_extmask_bracket (g : Sysc) (hw : Hw) (pd : rcar_sysc_pd) (on_ : Bool)
    (tr : Trace) (hval : g.rcar_sysc_extmask_val ≠ 0) :
    ∃ evs, (rcar_sysc_power g hw pd on_ tr).2 = tr ++ evs ∧
      (evs.filter Event.isWrite).head? =
        some (Event.write (Reg.extmask g.rcar_sysc_extmask_offs)
          (u32 g.rcar_sysc_extmask_val)) ∧
      (evs.filter Event.isWrite).getLast? =
        some (Event.write (Reg.extmask g.rcar_sysc_extmask_offs) 0) := by
  have harm : ∃ A, rcar_sysc_power_arm g hw pd tr =
      tr ++ (Event.lock :: Event.write (Reg.extmask g.rcar_sysc_extmask_offs)
        (u32 g.rcar_sysc_extmask_val) :: A) := by
    unfold rcar_sysc_power_arm
    simp only [hval, ne_eq, not_false_eq_true, if_true, iowrite32, ioread32]
    exact ⟨_, by simp only [List.append_assoc, List.singleton_append]; rfl⟩
  obtain ⟨A, hA⟩ := harm
  obtain ⟨er, hr, _⟩ := request_ext hw pd on_ (rcar_sysc_power_arm g hw pd tr)
  refine ⟨(Event.lock :: Event.write (Reg.extmask g.rcar_sysc_extmask_offs)
      (u32 g.rcar_sysc_extmask_val) :: A) ++ er ++
      [Event.write (Reg.extmask g.rcar_sysc_extmask_offs) 0, Event.unlock], ?_, ?_, ?_⟩
  · unfold rcar_sysc_power rcar_sysc_power_out
    simp only [hval, ne_eq, not_false_eq_true, if_true, iowrite32]
    rw [hr, hA]
    simp [u32]
  · simp [List.filter, Event.isWrite]
  · have hl : List.filter Event.isWrite
        [Event.write (Reg.extmask g.rcar_sysc_extmask_offs) 0, Event.unlock] =
        [Event.write (Reg.extmask g.rcar_sysc_extmask_offs) 0] := rfl
    rw [List.filter_append, hl, List.getLast?_concat]

theorem power_extmask_none (g : Sysc) (hw : Hw) (pd : rcar_sysc_pd) (on_ : Bool)
    (tr : Trace) (hval : g.rcar_sysc_extmask_val = 0) (o : Nat) :
    writesTo (Reg.extmask o) (rcar_sysc_power g hw pd on_ tr).2 =
      writesTo (Reg.extmask o) tr := by
  have harm : writesTo (Reg.extmask o) (rcar_sysc_power_arm g hw pd tr) =
      writesTo (Reg.extmask o) tr := by
    unfold rcar_sysc_power_arm
    simp [hval, writesTo, iowrite32, ioread32, List.countP_append, Event.isWriteTo]
  have hreq := (request_ext hw pd on_ (rcar_sysc_power_arm g hw pd tr)).countP_eq
    (Event.isWriteTo (Reg.extmask o)) (by
      intro e he
      cases e with
      | read r v => rfl
      | write r v => cases r <;> simp_all [Event.inRequest, Event.isWriteTo]
      | delay us => rfl
      | lock => rfl
      | unlock => rfl)
  unfold rcar_sysc_power rcar_sysc_power_out
  simp only [writesTo] at harm ⊢
  simp [hval, List.countP_append, Event.isWriteTo, hreq, harm]

/-! ## PDMODE fix-up -/

theorem fixup_row_keeps (row : List rcar_sysc_area) :
    ∀ pd pd1, fixup_row row pd = Except.ok pd1 →
      pd1.name = pd.name ∧ pd1.flags = pd.flags ∧ pd1.genpd_flags = pd.genpd_flags ∧
      pd1.attach_dev = pd.attach_dev := by
  induction row with
  | nil =>
    intro pd pd1 h
    simp only [fixup_row, Except.ok.injEq] at h
    subst h
    exact ⟨rfl, rfl, rfl, rfl⟩
  | cons a rest ih =>
    intro pd pd1 h
    rw [fixup_row] at h
    split at h
    · cases h
    · have k := ih _ _ h
      exact k
    · exact ih _ _ h

theorem fixup_row_no_match (row : List rcar_sysc_area) (pd : rcar_sysc_pd)
    (h : ∀ a ∈ row, ∃ n, a.name = some n ∧ pd.name ≠ n) :
    fixup_row row pd = Except.ok pd := by
  induction row with
  | nil => rfl
  | cons a rest ih =>
    obtain ⟨n, hn, hne⟩ := h a (List.mem_cons_self _ _)
    rw [fixup_row, hn]
    simp only [strcmp_eq, hne, decide_False]
    exact ih (fun b hb => h b (List.mem_cons_of_mem _ hb))

/-- The row `rcar_sysc_fixup_area` walks for each of the three defined modes. -/
theorem fixup_area_rows (K : Hdr) (pd : rcar_sysc_pd) :
    rcar_sysc_fixup_area K pd 1 = fixup_row (fixup_areas_pdmode1 K) pd ∧
    rcar_sysc_fixup_area K pd 2 = fixup_row fixup_areas_pdmode2 pd ∧
    rcar_sysc_fixup_area K pd 3 = fixup_row (fixup_areas_pdmode3 K) pd :=
  ⟨rfl, rfl, rfl⟩

theorem fixup_area_keeps (K : Hdr) (pd pd1 : rcar_sysc_pd) (mode : Nat)
    (h : rcar_sysc_fixup_area K pd mode = Except.ok pd1) :
    pd1.name = pd.name ∧ pd1.flags = pd.flags := by
  unfold rcar_sysc_fixup_area at h
  generalize (r8a77980_fixup_areas K)[u32_dec mode]? = o at h
  cases o with
  | none => cases h
  | some row =>
    exact ⟨(fixup_row_keeps _ _ _ h).1, (fixup_row_keeps _ _ _ h).2.1⟩

theorem fixup_area_mode1_a2sc2 (K : Hdr) (pd : rcar_sysc_pd) (h : pd.name = "a2sc2") :
    rcar_sysc_fixup_area K pd 1 =
      Except.ok { pd with ch := { chan_offs := 0x400, chan_bit := 6,
                                  isr_bit := K.R8A77980_PD_A2SC0 } } := by
  rw [(fixup_area_rows K pd).1]
  simp [fixup_areas_pdmode1, fixup_row, strcmp_eq, fixup_entry, h]

theorem fixup_area_mode1_a2sc_group (K : Hdr) (pd : rcar_sysc_pd)
    (h : pd.name ∈ ["a2sc0", "a2sc1", "a2sc2", "a2sc3", "a2sc4"]) :
    ∃ pd1, rcar_sysc_fixup_area K pd 1 = Except.ok pd1 ∧
      pd1.ch.isr_bit = K.R8A77980_PD_A2SC0 := by
  rw [(fixup_area_rows K pd).1]
  simp only [List.mem_cons, List.mem_singleton, List.not_mem_nil, or_false] at h
  rcases h with h | h | h | h | h <;>
    simp [fixup_areas_pdmode1, fixup_row, strcmp_eq, fixup_entry, h]

theorem fixup_area_unlisted (K : Hdr) (pd : rcar_sysc_pd) (mode : Nat)
    (hm : mode = 1 ∨ mode = 3)
    (h : pd.name ∉ ["a2ir0", "a2ir1", "a2ir2", "a2ir3", "a2ir4", "a2ir5", "a2sc0", "a2sc1",
      "a2sc2", "a2sc3", "a2sc4", "a2dp0", "a2dp1", "a2cn"]) :
    rcar_sysc_fixup_area K pd mode = Except.ok pd := by
  simp only [List.mem_cons, List.mem_singleton, List.not_mem_nil, or_false, not_or] at h
  obtain ⟨h0, h1, h2, h3, h4, h5, h6, h7, h8, h9, h10, h11, h12, h13⟩ := h
  rcases hm with rfl | rfl
  · rw [(fixup_area_rows K pd).1]
    apply fixup_row_no_match
    intro a ha
    simp only [fixup_areas_pdmode1, List.mem_cons, List.mem_singleton, List.not_mem_nil,
      or_false] at ha
    rcases ha with r | r | r | r | r | r | r | r | r | r | r | r | r | r <;>
      subst r <;> exact ⟨_, rfl, by assumption⟩
  · rw [(fixup_area_rows K pd).2.2]
    apply fixup_row_no_match
    intro a ha
    simp only [fixup_areas_pdmode3, List.mem_cons, List.mem_singleton, List.not_mem_nil,
      or_false] at ha
    rcases ha with r | r | r | r | r | r | r | r | r | r | r | r | r | r <;>
      subst r <;> exact ⟨_, rfl, by assumption⟩

theorem fixup_area_mode2 (K : Hdr) (pd : rcar_sysc_pd) :
    rcar_sysc_fixup_area K pd 2 = Except.error Fault.null_deref := by
  rw [(fixup_area_rows K pd).2.1]
  rfl

theorem fixup_area_mode_above (K : Hdr) (pd : rcar_sysc_pd) (mode : Nat) (h3 : 3 < mode) :
    rcar_sysc_fixup_area K pd mode = Except.error Fault.out_of_bounds := by
  have hm : u32_dec mode = mode - 1 := by
    unfold u32_dec
    rw [if_neg (by omega)]
  have hlen : (r8a77980_fixup_areas K).length = 3 := rfl
  have hnone : (r8a77980_fixup_areas K)[mode - 1]? = none :=
    List.getElem?_eq_none (by rw [hlen]; omega)
  unfold rcar_sysc_fixup_area
  rw [hm, hnone]

/-! ## Domain setup and init -/

theorem or_and_self_right (a m : Nat) : (a ||| m) &&& m = m := by
  apply Nat.eq_of_testBit_eq
  intro i
  rw [Nat.testBit_and, Nat.testBit_or]
  cases a.testBit i <;> cases m.testBit i <;> rfl

theorem pd_setup_keeps (K : Hdr) (g : Sysc) (hw : Hw) (e : Int) (pd : rcar_sysc_pd)
    (tr : Trace) :
    (rcar_sysc_pd_setup K g hw e pd tr).2.1.name = pd.name ∧
    (rcar_sysc_pd_setup K g hw e pd tr).2.1.ch = pd.ch ∧
    (rcar_sysc_pd_setup K g hw e pd tr).2.1.flags = pd.flags := by
  unfold rcar_sysc_pd_setup
  simp only
  split_ifs <;> exact ⟨rfl, rfl, rfl⟩

theorem area_to_pd_spec (K : Hdr) (quirks mode : Nat) (area : rcar_sysc_area) (nm : String)
    (pd1 : rcar_sysc_pd) (h : area_to_pd K quirks mode area nm = Except.ok pd1) :
    pd1.name = nm ∧
    (quirks.testBit pd1.ch.isr_bit = true → pd1.flags &&& K.PD_NO_CR = K.PD_NO_CR) ∧
    (quirks.testBit pd1.ch.isr_bit = false → pd1.flags = area.flags) ∧
    (mode = 0 → pd1.ch = { chan_offs := area.chan_offs, chan_bit := area.chan_bit,
                           isr_bit := area.isr_bit }) := by
  unfold area_to_pd at h
  simp only at h
  split at h
  · cases h
  · rename_i pd2 hfix
    have hk : pd2.name = nm ∧ pd2.flags = area.flags ∧
        (mode = 0 → pd2.ch = { chan_offs := area.chan_offs, chan_bit := area.chan_bit,
                               isr_bit := area.isr_bit }) := by
      split_ifs at hfix with hm
      · obtain ⟨a, b⟩ := fixup_area_keeps K _ _ _ hfix
        exact ⟨a, b, fun h0 => absurd h0 hm⟩
      · simp only [Except.ok.injEq] at hfix
        subst hfix
        exact ⟨rfl, rfl, fun _ => rfl⟩
    obtain ⟨k1, k2, k3⟩ := hk
    split_ifs at h with hq
    · simp only [Except.ok.injEq] at h
      subst h
      have hb : quirks.testBit pd2.ch.isr_bit = true := (and_BIT_ne_zero _ _).mp hq
      refine ⟨k1, fun _ => or_and_self_right _ _, ?_, k3⟩
      intro hf
      simp only at hf
      rw [hb] at hf
      cases hf
    · simp only [Except.ok.injEq] at h
      subst h
      exact ⟨k1, fun hx => absurd ((and_BIT_ne_zero _ _).mpr hx) hq, fun _ => k2, k3⟩

theorem pd_init_area_domains (K : Hdr) (env : InitEnv) (hw : Hw) (mode i : Nat)
    (area : rcar_sysc_area) (g : Sysc) (tr : Trace) (o : Option Int) (g1 : Sysc)
    (tr1 : Trace)
    (h : pd_init_area K env hw mode i area g tr = Except.ok (o, g1, tr1)) :
    g1.rcar_sysc_quirks = g.rcar_sysc_quirks ∧
    (g1.rcar_domains = g.rcar_domains ∨
      ∃ nm pd1, area.name = some nm ∧
        area_to_pd K g.rcar_sysc_quirks mode area nm = Except.ok pd1 ∧
        g1.rcar_domains = slot_set g.rcar_domains i
          (rcar_sysc_pd_setup K g hw (env.genpd_init_err i) pd1 tr).2.1) := by
  unfold pd_init_area at h
  cases hn : area.name with
  | none =>
    simp only [hn, Except.ok.injEq, Prod.mk.injEq] at h
    obtain ⟨_, rfl, _⟩ := h
    exact ⟨rfl, Or.inl rfl⟩
  | some nm =>
    simp only [hn] at h
    cases ha : area_to_pd K g.rcar_sysc_quirks mode area nm with
    | error f =>
      simp only [ha] at h
      split_ifs at h
      simp only [Except.ok.injEq, Prod.mk.injEq] at h
      obtain ⟨_, rfl, _⟩ := h
      exact ⟨rfl, Or.inl rfl⟩
    | ok pd1 =>
      simp only [ha] at h
      split_ifs at h
      all_goals
        simp only [Except.ok.injEq, Prod.mk.injEq] at h
        obtain ⟨_, rfl, _⟩ := h
        first
          | exact ⟨rfl, Or.inl rfl⟩
          | exact ⟨rfl, Or.inr ⟨nm, pd1, rfl, ha, rfl⟩⟩

theorem pd_init_loop_domains (K : Hdr) (env : InitEnv) (hw : Hw) (mode : Nat) :
    ∀ (areas : List rcar_sysc_area) (i : Nat) (g : Sysc) (tr : Trace) (o : Option Int)
      (g1 : Sysc) (tr1 : Trace),
      pd_init_loop K env hw mode areas i g tr = Except.ok (o, g1, tr1) →
      g1.rcar_sysc_quirks = g.rcar_sysc_quirks ∧
      ∀ j pd, g1.rcar_domains j = some pd →
        g.rcar_domains j = some pd ∨
        (i ≤ j ∧ ∃ area nm pd1, areas[j - i]? = some area ∧ area.name = some nm ∧
          area_to_pd K g.rcar_sysc_quirks mode area nm = Except.ok pd1 ∧
          pd.name = pd1.name ∧ pd.ch = pd1.ch ∧ pd.flags = pd1.flags) := by
  intro areas
  induction areas with
  | nil =>
    intro i g tr o g1 tr1 h
    simp only [pd_init_loop, Except.ok.injEq, Prod.mk.injEq] at h
    obtain ⟨_, rfl, _⟩ := h
    exact ⟨rfl, fun j pd hj => Or.inl hj⟩
  | cons area rest ih =>
    intro i g tr o g1 tr1 h
    rw [pd_init_loop] at h
    have step : ∀ (o2 : Option Int) (g2 : Sysc) (tr2 : Trace),
        pd_init_area K env hw mode i area g tr = Except.ok (o2, g2, tr2) →
        ∀ j pd, g2.rcar_domains j = some pd →
          g.rcar_domains j = some pd ∨
          (i ≤ j ∧ ∃ a nm pd1, (area :: rest)[j - i]? = some a ∧ a.name = some nm ∧
            area_to_pd K g.rcar_sysc_quirks mode a nm = Except.ok pd1 ∧
            pd.name = pd1.name ∧ pd.ch = pd1.ch ∧ pd.flags = pd1.flags) := by
      intro o2 g2 tr2 h2 j pd hj
      obtain ⟨_, hd⟩ := pd_init_area_domains K env hw mode i area g tr o2 g2 tr2 h2
      rcases hd with hd | ⟨nm, pd1, hnm, hpd, hd⟩
      · rw [hd] at hj
        exact Or.inl hj
      · rw [hd] at hj
        unfold slot_set at hj
        split_ifs at hj with hji
        · subst hji
          simp only [Option.some.injEq] at hj
          subst hj
          obtain ⟨s1, s2, s3⟩ := pd_setup_keeps K g hw (env.genpd_init_err j) pd1 tr
          exact Or.inr ⟨le_refl _, area, nm, pd1, by simp, hnm, hpd, s1, s2, s3⟩
        · exact Or.inl hj
    split at h
    · cases h
    · rename_i err g2 tr2 h2
      simp only [Except.ok.injEq, Prod.mk.injEq] at h
      obtain ⟨_, rfl, _⟩ := h
      exact ⟨(pd_init_area_domains K env hw mode i area g tr _ _ _ h2).1, step _ _ _ h2⟩
    · rename_i g2 tr2 h2
      obtain ⟨q2, _⟩ := pd_init_area_domains K env hw mode i area g tr _ _ _ h2
      obtain ⟨q3, hrest⟩ := ih (i + 1) g2 tr2 o g1 tr1 h
      refine ⟨q3.trans q2, ?_⟩
      intro j pd hj
      rcases hrest j pd hj with h0 | ⟨hle, a, nm, pd1, ha, hnm, hpd, hk⟩
      · exact step _ _ _ h2 j pd h0
      · refine Or.inr ⟨by omega, a, nm, pd1, ?_, hnm, by rw [← q2]; exact hpd, hk⟩
        have hji : j - i = (j - (i + 1)) + 1 := by omega
        rw [hji, List.getElem?_cons_succ]
        exact ha

/-- Every domain that `rcar_sysc_pd_init` leaves in `rcar_domains[i]` was built
from `areas[i]` by `area_to_pd` under the quirk mask and mode in force. -/
theorem pd_init_domains (K : Hdr) (env : InitEnv) (hw : Hw) (info : rcar_sysc_info)
    (hinfo : env.info = some info) (r : Int × Sysc × Trace)
    (hr : rcar_sysc_pd_init K env hw Sysc.boot = Except.ok r) :
    ∀ j pd, r.2.1.rcar_domains j = some pd →
      r.2.1.rcar_sysc_quirks = (match env.quirks_data with
        | some data => u32 data
        | none => 0) ∧
      ∃ area nm pd1, info.areas[j]? = some area ∧ area.name = some nm ∧
        area_to_pd K r.2.1.rcar_sysc_quirks (info.mode.getD 0) area nm = Except.ok pd1 ∧
        pd.name = pd1.name ∧ pd.ch = pd1.ch ∧ pd.flags = pd1.flags := by
  intro j pd hj
  unfold rcar_sysc_pd_init at hr
  simp only [hinfo] at hr
  split_ifs at hr
  · simp only [Except.ok.injEq] at hr
    subst hr
    cases hj
  · simp only [Except.ok.injEq] at hr
    subst hr
    cases hj
  · simp only [Except.ok.injEq] at hr
    subst hr
    cases hj
  · split at hr
    · cases hr
    · rename_i err g5 tr5 hl
      simp only [Except.ok.injEq] at hr
      subst hr
      obtain ⟨q, hd⟩ := pd_init_loop_domains K env hw _ _ _ _ _ _ _ _ hl
      rcases hd j pd hj with h0 | ⟨_, a, nm, pd1, ha, hnm, hpd, hk⟩
      · cases h0
      · refine ⟨by rw [q]; rfl, a, nm, pd1, by simpa using ha, hnm, ?_, hk⟩
        rw [q]
        exact hpd
    · rename_i g5 tr5 hl
      simp only [Except.ok.injEq] at hr
      subst hr
      obtain ⟨q, hd⟩ := pd_init_loop_domains K env hw _ _ _ _ _ _ _ _ hl
      rcases hd j pd hj with h0 | ⟨_, a, nm, pd1, ha, hnm, hpd, hk⟩
      · cases h0
      · refine ⟨by rw [q]; rfl, a, nm, pd1, by simpa using ha, hnm, ?_, hk⟩
        rw [q]
        exact hpd

theorem except_ok_of_isOk {ε α : Type} (e : Except ε α) (d : α) (h : e.isOk = true) :
    e = Except.ok (e.toOption.getD d) := by
  cases e with
  | error f => cases h
  | ok a => rfl

/-! ## Domain setup -/

theorem or_eq_zero (x y : Nat) (h : x ||| y = 0) : x = 0 ∧ y = 0 := by
  constructor
  · apply Nat.eq_of_testBit_eq
    intro i
    have hi : (x ||| y).testBit i = false := by rw [h]; simp
    rw [Nat.testBit_or] at hi
    cases hx : x.testBit i <;> simp_all
  · apply Nat.eq_of_testBit_eq
    intro i
    have hi : (x ||| y).testBit i = false := by rw [h]; simp
    rw [Nat.testBit_or] at hi
    cases hx : y.testBit i <;> simp_all

theorem and_or_eq_zero (a b c : Nat) (h1 : a &&& b = 0) (h2 : a &&& c = 0) :
    a &&& (b ||| c) = 0 := by
  rw [Nat.and_or_distrib_left, h1, h2]
  rfl

theorem and_or_ne_zero (a b c : Nat) (h : a &&& b ≠ 0 ∨ a &&& c ≠ 0) :
    a &&& (b ||| c) ≠ 0 := by
  intro h0
  rw [Nat.and_or_distrib_left] at h0
  obtain ⟨k1, k2⟩ := or_eq_zero _ _ h0
  rcases h with h | h
  · exact h k1
  · exact h k2

/-- The register accesses of `rcar_sysc_pd_setup`. -/
theorem pd_setup_trace (K : Hdr) (g : Sysc) (hw : Hw) (e : Int) (pd : rcar_sysc_pd)
    (tr : Trace) :
    (rcar_sysc_pd_setup K g hw e pd tr).2.2 =
      if pd.flags &&& (K.PD_CPU ||| K.PD_NO_CR) ≠ 0 then tr
      else if reads_bit hw tr (Reg.chan pd.ch.chan_offs PWRSR_OFFS) pd.ch.chan_bit = false
      then tr ++ [Event.read (Reg.chan pd.ch.chan_offs PWRSR_OFFS)
        (u32 (hw tr (Reg.chan pd.ch.chan_offs PWRSR_OFFS)))]
      else (rcar_sysc_power g hw pd true
        (tr ++ [Event.read (Reg.chan pd.ch.chan_offs PWRSR_OFFS)
          (u32 (hw tr (Reg.chan pd.ch.chan_offs PWRSR_OFFS)))])).2 := by
  unfold rcar_sysc_pd_setup
  simp only [power_is_off_eq]
  split_ifs <;> rfl

theorem pd_setup_always_on (K : Hdr) (g : Sysc) (hw : Hw) (e : Int) (pd : rcar_sysc_pd)
    (tr : Trace) (h : pd.flags &&& K.PD_CPU ≠ 0 ∨ pd.flags &&& K.PD_SCU ≠ 0) :
    (rcar_sysc_pd_setup K g hw e pd tr).2.1.genpd_flags &&& K.GENPD_FLAG_ALWAYS_ON =
      K.GENPD_FLAG_ALWAYS_ON := by
  have h2 : ¬ (pd.flags &&& (K.PD_CPU ||| K.PD_SCU) = 0) := and_or_ne_zero _ _ _ h
  unfold rcar_sysc_pd_setup
  simp only [h2, if_false]
  rcases h with h | h
  · simp only [h, ne_eq, not_false_eq_true, if_true]
    split_ifs <;> exact or_and_self_right _ _
  · by_cases hc : pd.flags &&& K.PD_CPU ≠ 0
    · simp only [hc, ne_eq, not_false_eq_true, if_true]
      split_ifs <;> exact or_and_self_right _ _
    · simp only [hc, h, ne_eq, not_false_eq_true, if_true, if_false]
      split_ifs <;> exact or_and_self_right _ _

/-- The same facts for the concrete full table. -/
theorem sysc_full_slot32 :
    (sysc_full.rcar_domains 32).map (fun pd => (pd.name, pd.ch)) =
      some ("pd31", { chan_offs := 0x800, chan_bit := 0, isr_bit := 31 }) := by
  decide

/-! ## Resolved descriptors under a boot mode -/

theorem fixup_area_mode3_listed (K : Hdr) (pd : rcar_sysc_pd)
    (h : pd.name ∈ ["a2ir0", "a2ir1", "a2ir2", "a2ir3", "a2ir4", "a2ir5", "a2sc0", "a2sc1",
      "a2sc2", "a2sc3", "a2sc4", "a2dp0", "a2dp1", "a2cn"]) :
    ∃ pd1, rcar_sysc_fixup_area K pd 3 = Except.ok pd1 ∧
      pd1.ch.isr_bit = K.R8A77980_PD_A2IR0 := by
  rw [(fixup_area_rows K pd).2.2]
  simp only [List.mem_cons, List.mem_singleton, List.not_mem_nil, or_false] at h
  rcases h with h | h | h | h | h | h | h | h | h | h | h | h | h | h <;>
    simp [fixup_areas_pdmode3, fixup_row, strcmp_eq, fixup_entry, h]

theorem area_to_pd_fixup (K : Hdr) (quirks mode : Nat) (area : rcar_sysc_area)
    (nm : String) (pd1 : rcar_sysc_pd)
    (h : area_to_pd K quirks mode area nm = Except.ok pd1) (hm : mode ≠ 0) :
    ∃ pd0 pd2, pd0.name = nm ∧ rcar_sysc_fixup_area K pd0 mode = Except.ok pd2 ∧
      pd1.ch = pd2.ch := by
  unfold area_to_pd at h
  simp only [hm, ne_eq, not_false_eq_true, if_true] at h
  split at h
  · cases h
  · rename_i pd2 hfix
    refine ⟨_, pd2, rfl, hfix, ?_⟩
    split_ifs at h
    · simp only [Except.ok.injEq] at h
      rw [← h]
    · simp only [Except.ok.injEq] at h
      rw [← h]

theorem pd_init_fixup_ch (K : Hdr) (env : InitEnv) (hw : Hw) (info : rcar_sysc_info)
    (hinfo : env.info = some info) (m : Nat) (hmode : info.mode = some m) (hm : m ≠ 0)
    (r : Int × Sysc × Trace)
    (hr : rcar_sysc_pd_init K env hw Sysc.boot = Except.ok r) :
    ∀ i pd, r.2.1.rcar_domains i = some pd →
      ∃ pd0 pd2, pd0.name = pd.name ∧ rcar_sysc_fixup_area K pd0 m = Except.ok pd2 ∧
        pd.ch = pd2.ch := by
  intro i pd hi
  obtain ⟨_, area, nm, pd1, _, _, hpd, k1, k2, _⟩ :=
    pd_init_domains K env hw info hinfo r hr i pd hi
  have hg : info.mode.getD 0 = m := by rw [hmode]; rfl
  rw [hg] at hpd
  obtain ⟨s1, _, _, _⟩ := area_to_pd_spec K _ _ area nm pd1 hpd
  obtain ⟨pd0, pd2, n0, hfix, hch⟩ := area_to_pd_fixup K _ m area nm pd1 hpd hm
  exact ⟨pd0, pd2, by rw [n0, k1, s1], hfix, by rw [k2, hch]⟩

set_option maxRecDepth 100000 in
theorem sysc_pdmode1_slots :
    (sysc_pdmode1.rcar_domains 0).map (fun pd => (pd.name, pd.ch.isr_bit)) =
      some ("a2sc0", 30) ∧
    (sysc_pdmode1.rcar_domains 1).map (fun pd => (pd.name, pd.ch.isr_bit)) =
      some ("a2sc1", 30) := by
  decide

set_option maxRecDepth 100000 in
theorem init_pdmode1_ret :
    (rcar_sysc_pd_init hdr_sample env_pdmode1 hw_zero Sysc.boot).toOption.map
      (fun r => r.1) = some 0 := by
  decide

set_option maxRecDepth 100000 in
theorem init_pdmode1_ok :
    rcar_sysc_pd_init hdr_sample env_pdmode1 hw_zero Sysc.boot =
      Except.ok ((rcar_sysc_pd_init hdr_sample env_pdmode1 hw_zero Sysc.boot).toOption.getD
        (0, Sysc.boot, [])) :=
  except_ok_of_isOk _ _ (by decide)

/-! ## CPU power entry points -/

theorem power_cpu_loop_miss (K : Hdr) (g : Sysc) (hw : Hw) (d : Nat → Option rcar_sysc_pd)
    (idx : Nat) (on_ : Bool) :
    ∀ n i tr,
      (∀ j, i ≤ j → j < i + n → ∀ pd, d j = some pd →
        pd.flags &&& K.PD_CPU = 0 ∨ pd.ch.chan_bit ≠ idx) →
      power_cpu_loop K g hw d idx on_ n i tr = (-ENOENT, tr) := by
  intro n
  induction n with
  | zero => intro i tr _; rfl
  | succ n ih =>
    intro i tr h
    rw [power_cpu_loop]
    have hrest := ih (i + 1) tr (fun j h1 h2 => h j (by omega) (by omega))
    cases hd : d i with
    | none => exact hrest
    | some pd =>
      simp only
      rw [if_pos (h i (le_refl _) (by omega) pd hd)]
      exact hrest

theorem power_cpu_loop_hit (K : Hdr) (g : Sysc) (hw : Hw) (d : Nat → Option rcar_sysc_pd)
    (idx : Nat) (on_ : Bool) (i : Nat) (pd : rcar_sysc_pd) (hd : d i = some pd)
    (hcpu : pd.flags &&& K.PD_CPU ≠ 0) (hbit : pd.ch.chan_bit = idx) :
    ∀ n i0 tr, i0 ≤ i → i < i0 + n →
      (∀ j, i0 ≤ j → j < i → ∀ pj, d j = some pj →
        pj.flags &&& K.PD_CPU = 0 ∨ pj.ch.chan_bit ≠ idx) →
      power_cpu_loop K g hw d idx on_ n i0 tr = rcar_sysc_power g hw pd on_ tr := by
  intro n
  induction n with
  | zero => intro i0 tr h1 h2 _; omega
  | succ n ih =>
    intro i0 tr h1 h2 hmiss
    rw [power_cpu_loop]
    by_cases he : i0 = i
    · subst he
      simp only [hd]
      rw [if_neg]
      intro hc
      rcases hc with hc | hc
      · exact hcpu hc
      · exact hc hbit
    · have hrest := ih (i0 + 1) tr (by omega) (by omega)
        (fun j k1 k2 => hmiss j (by omega) k2)
      cases hd0 : d i0 with
      | none => exact hrest
      | some p0 =>
        simp only
        rw [if_pos (hmiss i0 (le_refl _) (by omega) p0 hd0)]
        exact hrest

/-! ## The callbacks -/

theorem pd_power_off_noop (g : Sysc) (hw : Hw) (pd : rcar_sysc_pd) (tr : Trace)
    (h : reads_bit hw tr (Reg.chan pd.ch.chan_offs PWRSR_OFFS) pd.ch.chan_bit = true) :
    rcar_sysc_pd_power_off g hw pd tr =
      (0, tr ++ [Event.read (Reg.chan pd.ch.chan_offs PWRSR_OFFS)
        (u32 (hw tr (Reg.chan pd.ch.chan_offs PWRSR_OFFS)))]) := by
  unfold rcar_sysc_pd_power_off
  simp only [power_is_off_eq, h, if_true]

theorem pd_power_on_noop (g : Sysc) (hw : Hw) (pd : rcar_sysc_pd) (tr : Trace)
    (h : reads_bit hw tr (Reg.chan pd.ch.chan_offs PWRSR_OFFS) pd.ch.chan_bit = false) :
    rcar_sysc_pd_power_on g hw pd tr =
      (0, tr ++ [Event.read (Reg.chan pd.ch.chan_offs PWRSR_OFFS)
        (u32 (hw tr (Reg.chan pd.ch.chan_offs PWRSR_OFFS)))]) := by
  unfold rcar_sysc_pd_power_on
  simp only [power_is_off_eq, h, if_true]

/-- A power-on callback on a domain that reads off runs the handshake. -/
theorem pd_power_on_transition (g : Sysc) (hw : Hw) (pd : rcar_sysc_pd) (tr : Trace)
    (h : reads_bit hw tr (Reg.chan pd.ch.chan_offs PWRSR_OFFS) pd.ch.chan_bit = true) :
    writes tr < writes (rcar_sysc_pd_power_on g hw pd tr).2 := by
  unfold rcar_sysc_pd_power_on
  simp only [power_is_off_eq, h, Bool.true_eq_false, if_false]
  have h1 : ∀ t : Trace, tr <+: t →
      writes tr < writes (rcar_sysc_power g hw pd true t).2 := by
    intro t ht
    have := ht.sublist.countP_le Event.isWrite
    have := power_writes g hw pd true t
    simp only [writes] at *
    omega
  apply h1
  split_ifs
  · exact (List.prefix_append _ _).trans (a3ir_clk_ctrl_grows hw true _)
  · exact List.prefix_append _ _

/-- A power-off callback on a domain that reads on runs the handshake. -/
theorem pd_power_off_transition (g : Sysc) (hw : Hw) (pd : rcar_sysc_pd) (tr : Trace)
    (h : reads_bit hw tr (Reg.chan pd.ch.chan_offs PWRSR_OFFS) pd.ch.chan_bit = false) :
    writes tr < writes (rcar_sysc_pd_power_off g hw pd tr).2 := by
  unfold rcar_sysc_pd_power_off
  simp only [power_is_off_eq, h, Bool.false_eq_true, if_false]
  have h1 : ∀ t : Trace, tr <+: t →
      writes tr < writes (rcar_sysc_power g hw pd false t).2 := by
    intro t ht
    have := ht.sublist.countP_le Event.isWrite
    have := power_writes g hw pd false t
    simp only [writes] at *
    omega
  apply h1
  split_ifs
  · exact (List.prefix_append _ _).trans (a3ir_clk_ctrl_grows hw false _)
  · exact List.prefix_append _ _

/-! ## Callbacks and the clock gate -/

theorem pd_power_on_a3ir (g : Sysc) (hw : Hw) (pd : rcar_sysc_pd) (tr : Trace)
    (hclk : g.has_clk_crl = true) (hname : pd.name = "a3ir")
    (hoff : reads_bit hw tr (Reg.chan pd.ch.chan_offs PWRSR_OFFS) pd.ch.chan_bit = true) :
    rcar_sysc_pd_power_on g hw pd tr =
      rcar_sysc_power g hw pd true
        (rcar_sysc_a3ir_clk_ctrl hw true
          (tr ++ [Event.read (Reg.chan pd.ch.chan_offs PWRSR_OFFS)
            (u32 (hw tr (Reg.chan pd.ch.chan_offs PWRSR_OFFS)))])).2 := by
  unfold rcar_sysc_pd_power_on
  simp only [power_is_off_eq, hoff, hclk, hname, and_self, if_true, Bool.true_eq_false,
    if_false]

theorem pd_power_off_a3ir (g : Sysc) (hw : Hw) (pd : rcar_sysc_pd) (tr : Trace)
    (hclk : g.has_clk_crl = true) (hname : pd.name = "a3ir")
    (hon : reads_bit hw tr (Reg.chan pd.ch.chan_offs PWRSR_OFFS) pd.ch.chan_bit = false) :
    rcar_sysc_pd_power_off g hw pd tr =
      rcar_sysc_power g hw pd false
        (rcar_sysc_a3ir_clk_ctrl hw false
          (tr ++ [Event.read (Reg.chan pd.ch.chan_offs PWRSR_OFFS)
            (u32 (hw tr (Reg.chan pd.ch.chan_offs PWRSR_OFFS)))])).2 := by
  unfold rcar_sysc_pd_power_off
  simp only [power_is_off_eq, hon, hclk, hname, and_self, if_true, Bool.false_eq_true,
    if_false]

theorem pd_power_on_plain (g : Sysc) (hw : Hw) (pd : rcar_sysc_pd) (tr : Trace)
    (hplain : ¬ (g.has_clk_crl = true ∧ pd.name = "a3ir"))
    (hoff : reads_bit hw tr (Reg.chan pd.ch.chan_offs PWRSR_OFFS) pd.ch.chan_bit = true) :
    rcar_sysc_pd_power_on g hw pd tr =
      rcar_sysc_power g hw pd true
        (tr ++ [Event.read (Reg.chan pd.ch.chan_offs PWRSR_OFFS)
          (u32 (hw tr (Reg.chan pd.ch.chan_offs PWRSR_OFFS)))]) := by
  unfold rcar_sysc_pd_power_on
  simp only [power_is_off_eq, hoff, hplain, if_false, Bool.true_eq_false]

theorem pd_power_off_plain (g : Sysc) (hw : Hw) (pd : rcar_sysc_pd) (tr : Trace)
    (hplain : ¬ (g.has_clk_crl = true ∧ pd.name = "a3ir"))
    (hon : reads_bit hw tr (Reg.chan pd.ch.chan_offs PWRSR_OFFS) pd.ch.chan_bit = false) :
    rcar_sysc_pd_power_off g hw pd tr =
      rcar_sysc_power g hw pd false
        (tr ++ [Event.read (Reg.chan pd.ch.chan_offs PWRSR_OFFS)
          (u32 (hw tr (Reg.chan pd.ch.chan_offs PWRSR_OFFS)))]) := by
  unfold rcar_sysc_pd_power_off
  simp only [power_is_off_eq, hon, hplain, if_false, Bool.false_eq_true]

/-- The clock-gate control starts with a read of SMSTPCR5. -/
theorem a3ir_clk_ctrl_ext_first (hw : Hw) (clk_en : Bool) (tr : Trace) :
    Extends Event.inClkCtrl (ioread32 hw (Reg.phys SMSTPCR5_ADDR) tr).2
      (rcar_sysc_a3ir_clk_ctrl hw clk_en tr).2 := by
  unfold rcar_sysc_a3ir_clk_ctrl
  simp only
  split_ifs
  all_goals
    refine Extends.trans_ ?_ (a3ir_clk_wait_ext hw _ _ _ _)
    exact ext_write _ _ (fun _ => rfl) (ext_read hw _ (fun _ => rfl)
      (ext_write _ _ (fun _ => rfl) (Extends.rfl_ _ _)))

/-- Shape of a run that goes through the clock-gate control and then the
handshake: the events of the former, which include an access to an
`ioremap`ped register, then the events of the latter, which include a
register write and no access to an `ioremap`ped register. -/
theorem clk_then_power_shape (g : Sysc) (hw : Hw) (pd : rcar_sysc_pd) (clk_en on_ : Bool)
    (t : Trace) :
    ∃ evs_clk evs_pw,
      (rcar_sysc_a3ir_clk_ctrl hw clk_en t).2 = t ++ evs_clk ∧
      (rcar_sysc_power g hw pd on_ (rcar_sysc_a3ir_clk_ctrl hw clk_en t).2).2 =
        t ++ evs_clk ++ evs_pw ∧
      (∀ e ∈ evs_clk, e.inClkCtrl = true) ∧ (∃ e ∈ evs_clk, e.onPhys = true) ∧
      (∀ e ∈ evs_pw, e.onPhys = false) ∧ (∃ e ∈ evs_pw, e.isWrite = true) := by
  obtain ⟨ec, hc, kc⟩ := a3ir_clk_ctrl_ext_first hw clk_en t
  obtain ⟨ep, hp, kp⟩ := power_ext g hw pd on_ (rcar_sysc_a3ir_clk_ctrl hw clk_en t).2
  have hw1 := power_writes g hw pd on_ (rcar_sysc_a3ir_clk_ctrl hw clk_en t).2
  refine ⟨Event.read (Reg.phys SMSTPCR5_ADDR) (u32 (hw t (Reg.phys SMSTPCR5_ADDR))) :: ec,
    ep, ?_, ?_, ?_, ?_, ?_, ?_⟩
  · rw [hc]
    simp [ioread32]
  · rw [hp, hc]
    simp [ioread32]
  · intro e he
    rcases List.mem_cons.mp he with h | h
    · rw [h]
      rfl
    · exact kc e h
  · exact ⟨_, List.mem_cons_self _ _, rfl⟩
  · intro e he
    have := kp e he
    simpa using this
  · rw [hp] at hw1
    simp only [writes, List.countP_append] at hw1
    have hpos : 0 < List.countP Event.isWrite ep := by omega
    obtain ⟨e, he, hq⟩ := List.countP_pos_iff.mp hpos
    exact ⟨e, he, hq⟩

theorem occursBefore_of_shape (p q : Event → Bool) (a evs1 evs2 : Trace)
    (h1 : ∃ e ∈ evs1, p e = true) (h2 : ∃ e ∈ evs2, q e = true) :
    OccursBefore p q (a ++ evs1 ++ evs2) := by
  obtain ⟨e1, m1, p1⟩ := h1
  obtain ⟨e2, m2, p2⟩ := h2
  obtain ⟨s1, t1, rfl⟩ := List.append_of_mem m1
  obtain ⟨s2, t2, rfl⟩ := List.append_of_mem m2
  exact ⟨a ++ s1, e1, t1 ++ s2, e2, t2, by simp, p1, p2⟩

theorem a3ir_clk_wait_busy (hw : Hw) (clk_en : Bool)
    (hbusy : ∀ tr, (if clk_en = true
      then decide (((ioread32 hw (Reg.phys MSTPSR5_ADDR) tr).1 &&& IMPx5_MASK) |||
        ((ioread32 hw (Reg.phys MSTPSR8_ADDR)
          (ioread32 hw (Reg.phys MSTPSR5_ADDR) tr).2).1 &&& IMPx8_MASK) ≠ 0)
      else decide (((ioread32 hw (Reg.phys MSTPSR5_ADDR) tr).1 &&& IMPx5_MASK) &&&
        ((ioread32 hw (Reg.phys MSTPSR8_ADDR)
          (ioread32 hw (Reg.phys MSTPSR5_ADDR) tr).2).1 &&& IMPx8_MASK) = 0)) = true) :
    ∀ fuel timeout tr, timeout ≤ 100 → 101 ≤ timeout + fuel →
      (a3ir_clk_wait hw clk_en fuel timeout tr).1 = 101 := by
  intro fuel
  induction fuel with
  | zero => intro timeout tr h1 h2; omega
  | succ n ih =>
    intro timeout tr h1 h2
    rw [a3ir_clk_wait]
    simp only [hbusy tr, if_true]
    split_ifs with h
    · show timeout + 1 = 101
      omega
    · exact ih _ _ (by omega) (by omega)

/-- When the awaited state never shows, the clock-gate control gives up with
`-EBUSY`. -/
theorem a3ir_clk_ctrl_busy (hw : Hw) (clk_en : Bool)
    (hbusy : ∀ tr, (if clk_en = true
      then decide (((ioread32 hw (Reg.phys MSTPSR5_ADDR) tr).1 &&& IMPx5_MASK) |||
        ((ioread32 hw (Reg.phys MSTPSR8_ADDR)
          (ioread32 hw (Reg.phys MSTPSR5_ADDR) tr).2).1 &&& IMPx8_MASK) ≠ 0)
      else decide (((ioread32 hw (Reg.phys MSTPSR5_ADDR) tr).1 &&& IMPx5_MASK) &&&
        ((ioread32 hw (Reg.phys MSTPSR8_ADDR)
          (ioread32 hw (Reg.phys MSTPSR5_ADDR) tr).2).1 &&& IMPx8_MASK) = 0)) = true)
    (tr : Trace) :
    (rcar_sysc_a3ir_clk_ctrl hw clk_en tr).1 = -EBUSY := by
  have hw1 := fun t => a3ir_clk_wait_busy hw clk_en hbusy 102 0 t (by omega) (by omega)
  have hgt : (101 : Nat) > 100 := by omega
  unfold rcar_sysc_a3ir_clk_ctrl
  simp only [hw1, hgt, if_true]

theorem hw_ones_clk_enable_busy (tr : Trace) :
    (rcar_sysc_a3ir_clk_ctrl hw_ones true tr).1 = -EBUSY :=
  a3ir_clk_ctrl_busy hw_ones true (by
    intro t
    simp [ioread32, hw_ones, u32, IMPx5_MASK, IMPx8_MASK]) tr

theorem hw_zero_clk_disable_busy (tr : Trace) :
    (rcar_sysc_a3ir_clk_ctrl hw_zero false tr).1 = -EBUSY :=
  a3ir_clk_ctrl_busy hw_zero false (by
    intro t
    simp [ioread32, hw_zero, u32]) tr

/-! ## Behaviour of the concrete hardware models -/

theorem hw_zero_bit (tr : Trace) (r : Reg) (n : Nat) : reads_bit hw_zero tr r n = false := by
  simp [reads_bit, hw_zero, u32]

theorem hw_ones_bit (tr : Trace) (r : Reg) : reads_bit hw_ones tr r 0 = true := by
  simp [reads_bit, hw_ones, u32]

theorem hw_no_irq_ready (tr : Trace) (on_ : Bool) :
    reads_bit hw_no_irq tr (Reg.sysc 0x00) (ready_bit on_) = true := by
  cases on_
  · simp [reads_bit, hw_no_irq, u32, ready_bit, SYSCSR_POFFENB]
  · simp [reads_bit, hw_no_irq, u32, ready_bit, SYSCSR_PONENB]
    decide

theorem hw_no_irq_other (tr : Trace) (r : Reg) (n : Nat) (h : r ≠ Reg.sysc 0x00) :
    reads_bit hw_no_irq tr r n = false := by
  simp [reads_bit, hw_no_irq, u32, h]

theorem hw_reject_once_ready (tr : Trace) :
    reads_bit hw_reject_once tr (Reg.sysc 0x00) (ready_bit true) = true := by
  simp [reads_bit, hw_reject_once, u32, ready_bit, SYSCSR_PONENB]
  decide

theorem hw_reject_once_isr (tr : Trace) :
    reads_bit hw_reject_once tr (Reg.sysc 0x04) pd_sample.ch.isr_bit = true := by
  simp [reads_bit, hw_reject_once, u32, pd_sample]
  decide

theorem hw_reject_once_rejects (tr : Trace)
    (h : writesTo (ctrl_reg pd_sample true) tr ≤ 1) :
    reads_bit hw_reject_once tr (Reg.chan pd_sample.ch.chan_offs 0x14)
      pd_sample.ch.chan_bit = true := by
  have h3 : writesTo (Reg.chan 0x140 0x0c) tr ≤ 1 := h
  simp [reads_bit, hw_reject_once, pd_sample, h3, u32]

theorem hw_reject_once_accepts (tr : Trace)
    (h : writesTo (ctrl_reg pd_sample true) tr = 1 + 1) :
    reads_bit hw_reject_once tr (Reg.chan pd_sample.ch.chan_offs 0x14)
      pd_sample.ch.chan_bit = false := by
  have h3 : writesTo (Reg.chan 0x140 0x0c) tr = 1 + 1 := h
  simp [reads_bit, hw_reject_once, pd_sample, h3, u32]

/-! ## The concrete init run -/

set_option maxRecDepth 100000 in
theorem init_sample_ok :
    rcar_sysc_pd_init hdr_sample env_sample hw_zero Sysc.boot = Except.ok init_sample :=
  except_ok_of_isOk _ _ (by decide)

set_option maxRecDepth 100000 in
theorem init_sample_slot1 : init_sample.2.1.rcar_domains 1 = some pd_a3vp_init_sample := by
  decide

set_option maxRecDepth 100000 in
theorem init_sample_slot2 : init_sample.2.1.rcar_domains 2 = some pd_a2sc2_init_sample := by
  decide

/-- With boot mode 0 every domain in `rcar_domains[i]` carries the channel
descriptor of `areas[i]`. -/
theorem pd_init_mode0_ch (K : Hdr) (env : InitEnv) (hw : Hw) (info : rcar_sysc_info)
    (hinfo : env.info = some info) (hmode : info.mode.getD 0 = 0)
    (r : Int × Sysc × Trace)
    (hr : rcar_sysc_pd_init K env hw Sysc.boot = Except.ok r) :
    ∀ i pd, r.2.1.rcar_domains i = some pd →
      ∃ area, info.areas[i]? = some area ∧ area.name = some pd.name ∧
        pd.ch = { chan_offs := area.chan_offs, chan_bit := area.chan_bit,
                  isr_bit := area.isr_bit } := by
  intro i pd hi
  obtain ⟨_, area, nm, pd1, ha, hnm, hpd, k1, k2, _⟩ :=
    pd_init_domains K env hw info hinfo r hr i pd hi
  obtain ⟨s1, _, _, s4⟩ := area_to_pd_spec K _ _ area nm pd1 hpd
  refine ⟨area, ha, ?_, ?_⟩
  · rw [hnm, k1, s1]
  · rw [k2]
    exact s4 hmode

/-! # The claims -/

/-- C1: when the power status register (chan_offs+0x00) reads chan_bit set,
rcar_sysc_pd_power_off returns 0 and its only action is that one register
read (no write); when the bit reads clear, the same holds of
rcar_sysc_pd_power_on. -/
theorem C1_callbacks_idempotent (g : Sysc) (hw : Hw) (pd : rcar_sysc_pd) (tr : Trace) :
    (reads_bit hw tr (Reg.chan pd.ch.chan_offs 0x00) pd.ch.chan_bit = true →
      (rcar_sysc_pd_power_off g hw pd tr).1 = 0 ∧
      ∃ evs, (rcar_sysc_pd_power_off g hw pd tr).2 = tr ++ evs ∧
        ∀ e ∈ evs, e.isWrite = false) ∧
    (reads_bit hw tr (Reg.chan pd.ch.chan_offs 0x00) pd.ch.chan_bit = false →
      (rcar_sysc_pd_power_on g hw pd tr).1 = 0 ∧
      ∃ evs, (rcar_sysc_pd_power_on g hw pd tr).2 = tr ++ evs ∧
        ∀ e ∈ evs, e.isWrite = false) := by
  have hq := power_is_off_eq hw pd.ch tr
  have hz : PWRSR_OFFS = 0x00 := rfl
  rw [hz] at hq
  constructor
  · intro h
    unfold rcar_sysc_pd_power_off
    simp only [hq, h, if_true]
    exact ⟨trivial, _, rfl, by simp [Event.isWrite]⟩
  · intro h
    unfold rcar_sysc_pd_power_on
    simp only [hq, h, if_true]
    exact ⟨trivial, _, rfl, by simp [Event.isWrite]⟩

/-- Witness of C1: a domain reading off under all-ones hardware, and reading
on under all-zero hardware. -/
theorem C1_callbacks_idempotent_witness :
    ((rcar_sysc_pd_power_off Sysc.boot hw_ones pd_sample []).1 = 0 ∧
      ∃ evs, (rcar_sysc_pd_power_off Sysc.boot hw_ones pd_sample []).2 = [] ++ evs ∧
        ∀ e ∈ evs, e.isWrite = false) ∧
    ((rcar_sysc_pd_power_on Sysc.boot hw_zero pd_sample []).1 = 0 ∧
      ∃ evs, (rcar_sysc_pd_power_on Sysc.boot hw_zero pd_sample []).2 = [] ++ evs ∧
        ∀ e ∈ evs, e.isWrite = false) :=
  ⟨(C1_callbacks_idempotent Sysc.boot hw_ones pd_sample []).1 (by decide),
   (C1_callbacks_idempotent Sysc.boot hw_zero pd_sample []).2 (by decide)⟩

/-- C2 (counterexample): a domain flagged PD_NO_CR whose status register reads
off; rcar_sysc_pd_power_on does not return success without a register write:
it runs the handshake and writes registers. -/
theorem C2_counterexample :
    pd_nocr_sample.flags &&& hdr_sample.PD_NO_CR ≠ 0 ∧
    ¬ ((rcar_sysc_pd_power_on Sysc.boot hw_ones pd_nocr_sample []).1 = 0 ∧
       writes (rcar_sysc_pd_power_on Sysc.boot hw_ones pd_nocr_sample []).2 = 0) := by
  refine ⟨by decide, ?_⟩
  intro h
  have h1 := pd_power_on_transition Sysc.boot hw_ones pd_nocr_sample [] (by decide)
  omega

/-- C2 (amended): the callbacks do not consult the domain flags.  For a domain
flagged PD_CPU, PD_SCU or PD_NO_CR, rcar_sysc_pd_power_on returns 0 without a
register write when the status register reads on, and rcar_sysc_pd_power_off
when it reads off; when the status register reads the opposite state the
callback runs the handshake and writes registers. -/
theorem C2_flagged_callbacks (K : Hdr) (g : Sysc) (hw : Hw) (pd : rcar_sysc_pd) (tr : Trace)
    (_hflag : pd.flags &&& K.PD_CPU ≠ 0 ∨ pd.flags &&& K.PD_SCU ≠ 0 ∨
      pd.flags &&& K.PD_NO_CR ≠ 0) :
    (reads_bit hw tr (Reg.chan pd.ch.chan_offs 0x00) pd.ch.chan_bit = false →
      (rcar_sysc_pd_power_on g hw pd tr).1 = 0 ∧
      writes (rcar_sysc_pd_power_on g hw pd tr).2 = writes tr) ∧
    (reads_bit hw tr (Reg.chan pd.ch.chan_offs 0x00) pd.ch.chan_bit = true →
      (rcar_sysc_pd_power_off g hw pd tr).1 = 0 ∧
      writes (rcar_sysc_pd_power_off g hw pd tr).2 = writes tr) ∧
    (reads_bit hw tr (Reg.chan pd.ch.chan_offs 0x00) pd.ch.chan_bit = true →
      writes tr < writes (rcar_sysc_pd_power_on g hw pd tr).2) ∧
    (reads_bit hw tr (Reg.chan pd.ch.chan_offs 0x00) pd.ch.chan_bit = false →
      writes tr < writes (rcar_sysc_pd_power_off g hw pd tr).2) := by
  refine ⟨?_, ?_, ?_, ?_⟩
  · intro h
    rw [pd_power_on_noop g hw pd tr h]
    simp [writes, List.countP_append, Event.isWrite]
  · intro h
    rw [pd_power_off_noop g hw pd tr h]
    simp [writes, List.countP_append, Event.isWrite]
  · exact pd_power_on_transition g hw pd tr
  · exact pd_power_off_transition g hw pd tr

/-- Witness of C2 (amended): the PD_NO_CR domain under all-zero hardware
(reads on) and under all-ones hardware (reads off). -/
theorem C2_flagged_callbacks_witness :
    ((rcar_sysc_pd_power_on Sysc.boot hw_zero pd_nocr_sample []).1 = 0 ∧
      writes (rcar_sysc_pd_power_on Sysc.boot hw_zero pd_nocr_sample []).2 = writes []) ∧
    ((rcar_sysc_pd_power_off Sysc.boot hw_ones pd_nocr_sample []).1 = 0 ∧
      writes (rcar_sysc_pd_power_off Sysc.boot hw_ones pd_nocr_sample []).2 = writes []) ∧
    writes [] < writes (rcar_sysc_pd_power_on Sysc.boot hw_ones pd_nocr_sample []).2 ∧
    writes [] < writes (rcar_sysc_pd_power_off Sysc.boot hw_zero pd_nocr_sample []).2 :=
  ⟨(C2_flagged_callbacks hdr_sample Sysc.boot hw_zero pd_nocr_sample []
      (Or.inr (Or.inr (by decide)))).1 (by decide),
   (C2_flagged_callbacks hdr_sample Sysc.boot hw_ones pd_nocr_sample []
      (Or.inr (Or.inr (by decide)))).2.1 (by decide),
   (C2_flagged_callbacks hdr_sample Sysc.boot hw_ones pd_nocr_sample []
      (Or.inr (Or.inr (by decide)))).2.2.1 (by decide),
   (C2_flagged_callbacks hdr_sample Sysc.boot hw_zero pd_nocr_sample []
      (Or.inr (Or.inr (by decide)))).2.2.2 (by decide)⟩

/-- C3: if the hardware always reports ready, shows chan_bit in the error
status register (chan_offs+0x14) after each of the first N < 1000 submissions
and clear after submission N+1, and shows isr_bit in the interrupt status
register at one of the first 1000 polls (poll j+1), then rcar_sysc_power
returns 0 and has written the power control register exactly N+1 times. -/
theorem C3_accepted_after_rejections (g : Sysc) (hw : Hw) (pd : rcar_sysc_pd) (on_ : Bool)
    (N j : Nat) (hN : N < 1000) (hj : j < 1000)
    (hready : ∀ tr, reads_bit hw tr (Reg.sysc 0x00) (ready_bit on_) = true)
    (hrej : ∀ tr, 1 ≤ writesTo (ctrl_reg pd on_) tr → writesTo (ctrl_reg pd on_) tr ≤ N →
      reads_bit hw tr (Reg.chan pd.ch.chan_offs 0x14) pd.ch.chan_bit = true)
    (hacc : ∀ tr, writesTo (ctrl_reg pd on_) tr = N + 1 →
      reads_bit hw tr (Reg.chan pd.ch.chan_offs 0x14) pd.ch.chan_bit = false)
    (hdone : ∀ tr, writesTo (ctrl_reg pd on_) tr = N + 1 →
      readsOf (Reg.sysc 0x04) tr = j →
      reads_bit hw tr (Reg.sysc 0x04) pd.ch.isr_bit = true) :
    (rcar_sysc_power g hw pd on_ []).1 = 0 ∧
    writesTo (ctrl_reg pd on_) (rcar_sysc_power g hw pd on_ []).2 = N + 1 :=
  power_accept_complete g hw pd on_ N j hN hj hready hrej hacc hdone

/-- Witness of C3: one rejection, then acceptance, completion at the first poll. -/
theorem C3_accepted_after_rejections_witness :
    (rcar_sysc_power Sysc.boot hw_reject_once pd_sample true []).1 = 0 ∧
    writesTo (ctrl_reg pd_sample true)
      (rcar_sysc_power Sysc.boot hw_reject_once pd_sample true []).2 = 1 + 1 :=
  C3_accepted_after_rejections Sysc.boot hw_reject_once pd_sample true 1 0
    (by decide) (by decide)
    (fun tr => hw_reject_once_ready tr)
    (fun tr _ h2 => hw_reject_once_rejects tr h2)
    (fun tr h2 => hw_reject_once_accepts tr h2)
    (fun tr _ _ => hw_reject_once_isr tr)

/-- C4: if the readiness bit of the status register (bit 1 for power-on, bit 0
for power-off) never reads set, rcar_sysc_power returns -EAGAIN (-11) after
exactly 1000 reads of that register and without a write to the power-on
(chan_offs+0x0c) or power-off (chan_offs+0x04) control register. -/
theorem C4_never_ready (g : Sysc) (hw : Hw) (pd : rcar_sysc_pd) (on_ : Bool)
    (hnever : ∀ tr, reads_bit hw tr (Reg.sysc 0x00) (if on_ then 1 else 0) = false) :
    (rcar_sysc_power g hw pd on_ []).1 = -EAGAIN ∧
    (rcar_sysc_power g hw pd on_ []).1 = -11 ∧
    readsOf (Reg.sysc 0x00) (rcar_sysc_power g hw pd on_ []).2 = 1000 ∧
    writesTo (Reg.chan pd.ch.chan_offs 0x0c) (rcar_sysc_power g hw pd on_ []).2 = 0 ∧
    writesTo (Reg.chan pd.ch.chan_offs 0x04) (rcar_sysc_power g hw pd on_ []).2 = 0 := by
  obtain ⟨h1, h2, h3⟩ := power_never_ready g hw pd on_ hnever
  exact ⟨h1, by rw [h1]; rfl, h2, h3 _ _, h3 _ _⟩

/-- Witness of C4: all-zero hardware, power-on. -/
theorem C4_never_ready_witness :
    (rcar_sysc_power Sysc.boot hw_zero pd_sample true []).1 = -EAGAIN ∧
    (rcar_sysc_power Sysc.boot hw_zero pd_sample true []).1 = -11 ∧
    readsOf (Reg.sysc 0x00) (rcar_sysc_power Sysc.boot hw_zero pd_sample true []).2 = 1000 ∧
    writesTo (Reg.chan pd_sample.ch.chan_offs 0x0c)
      (rcar_sysc_power Sysc.boot hw_zero pd_sample true []).2 = 0 ∧
    writesTo (Reg.chan pd_sample.ch.chan_offs 0x04)
      (rcar_sysc_power Sysc.boot hw_zero pd_sample true []).2 = 0 :=
  C4_never_ready Sysc.boot hw_zero pd_sample true (fun tr => hw_zero_bit tr _ _)

/-- C5: if the hardware always reports ready and shows chan_bit in the error
status register (chan_offs+0x14) after every submission, rcar_sysc_power
returns - EIO (-5) after exactly 1000 submissions, without a read of the
interrupt status register. -/
theorem C5_always_rejected (g : Sysc) (hw : Hw) (pd : rcar_sysc_pd) (on_ : Bool)
    (hready : ∀ tr, reads_bit hw tr (Reg.sysc 0x00) (ready_bit on_) = true)
    (hrej : ∀ tr, reads_bit hw tr (Reg.chan pd.ch.chan_offs 0x14) pd.ch.chan_bit = true) :
    (rcar_sysc_power g hw pd on_ []).1 = - EIO ∧
    (rcar_sysc_power g hw pd on_ []).1 = -5 ∧
    writesTo (ctrl_reg pd on_) (rcar_sysc_power g hw pd on_ []).2 = 1000 ∧
    readsOf (Reg.sysc 0x04) (rcar_sysc_power g hw pd on_ []).2 = 0 := by
  obtain ⟨h1, h2, h3⟩ := power_rejected g hw pd on_ hready hrej
  exact ⟨h1, by rw [h1]; rfl, h2, h3⟩

/-- Witness of C5: all-ones hardware, power-off. -/
theorem C5_always_rejected_witness :
    (rcar_sysc_power Sysc.boot hw_ones pd_sample false []).1 = - EIO ∧
    (rcar_sysc_power Sysc.boot hw_ones pd_sample false []).1 = -5 ∧
    writesTo (ctrl_reg pd_sample false)
      (rcar_sysc_power Sysc.boot hw_ones pd_sample false []).2 = 1000 ∧
    readsOf (Reg.sysc 0x04) (rcar_sysc_power Sysc.boot hw_ones pd_sample false []).2 = 0 :=
  C5_always_rejected Sysc.boot hw_ones pd_sample false (fun tr => hw_ones_bit tr _)
    (fun tr => hw_ones_bit tr _)

/-- C6 (counterexample): hardware that is always ready and accepts the first
submission but never shows the interrupt status bit; rcar_sysc_power does not
return -EAGAIN, the value of the acceptance-wait timeout: it returns - EIO. -/
theorem C6_counterexample :
    (∀ tr, reads_bit hw_no_irq tr (Reg.sysc 0x00) (ready_bit true) = true) ∧
    (∀ tr, reads_bit hw_no_irq tr (Reg.chan pd_sample.ch.chan_offs 0x14)
      pd_sample.ch.chan_bit = false) ∧
    (∀ tr, reads_bit hw_no_irq tr (Reg.sysc 0x04) pd_sample.ch.isr_bit = false) ∧
    (rcar_sysc_power Sysc.boot hw_no_irq pd_sample true []).1 ≠ -EAGAIN ∧
    (rcar_sysc_power Sysc.boot hw_no_irq pd_sample true []).1 = - EIO := by
  have h1 : ∀ tr, reads_bit hw_no_irq tr (Reg.sysc 0x00) (ready_bit true) = true :=
    fun tr => hw_no_irq_ready tr true
  have h2 : ∀ tr, reads_bit hw_no_irq tr (Reg.chan pd_sample.ch.chan_offs 0x14)
      pd_sample.ch.chan_bit = false :=
    fun tr => hw_no_irq_other tr _ _ (by simp)
  have h3 : ∀ tr, reads_bit hw_no_irq tr (Reg.sysc 0x04) pd_sample.ch.isr_bit = false :=
    fun tr => hw_no_irq_other tr _ _ (by simp)
  have h := power_completion_timeout Sysc.boot hw_no_irq pd_sample true 0 (by decide)
    h1 (fun _ h4 h5 => absurd h4 (by omega)) (fun tr _ => h2 tr) h3
  exact ⟨h1, h2, h3, h.2.1, h.1⟩

/-- C6 (amended): if a submission is accepted (after N < 1000 rejections the
error status bit reads clear) but isr_bit never shows in the interrupt status
register, rcar_sysc_power polls that register 1000 times and returns - EIO
(-5), the value it also returns for an exhausted rejection budget, not the
-EAGAIN of the acceptance-wait timeout. -/
theorem C6_completion_timeout (g : Sysc) (hw : Hw) (pd : rcar_sysc_pd) (on_ : Bool)
    (N : Nat) (hN : N < 1000)
    (hready : ∀ tr, reads_bit hw tr (Reg.sysc 0x00) (ready_bit on_) = true)
    (hrej : ∀ tr, 1 ≤ writesTo (ctrl_reg pd on_) tr → writesTo (ctrl_reg pd on_) tr ≤ N →
      reads_bit hw tr (Reg.chan pd.ch.chan_offs 0x14) pd.ch.chan_bit = true)
    (hacc : ∀ tr, writesTo (ctrl_reg pd on_) tr = N + 1 →
      reads_bit hw tr (Reg.chan pd.ch.chan_offs 0x14) pd.ch.chan_bit = false)
    (hnever : ∀ tr, reads_bit hw tr (Reg.sysc 0x04) pd.ch.isr_bit = false) :
    (rcar_sysc_power g hw pd on_ []).1 = - EIO ∧
    (rcar_sysc_power g hw pd on_ []).1 = -5 ∧
    (rcar_sysc_power g hw pd on_ []).1 ≠ -EAGAIN ∧
    readsOf (Reg.sysc 0x04) (rcar_sysc_power g hw pd on_ []).2 = 1000 := by
  obtain ⟨h1, h2, h3⟩ := power_completion_timeout g hw pd on_ N hN hready hrej hacc hnever
  exact ⟨h1, by rw [h1]; rfl, h2, h3⟩

/-- Witness of C6 (amended): first submission accepted, no interrupt ever. -/
theorem C6_completion_timeout_witness :
    (rcar_sysc_power Sysc.boot hw_no_irq pd_sample false []).1 = - EIO ∧
    (rcar_sysc_power Sysc.boot hw_no_irq pd_sample false []).1 = -5 ∧
    (rcar_sysc_power Sysc.boot hw_no_irq pd_sample false []).1 ≠ -EAGAIN ∧
    readsOf (Reg.sysc 0x04) (rcar_sysc_power Sysc.boot hw_no_irq pd_sample false []).2 = 1000 :=
  C6_completion_timeout Sysc.boot hw_no_irq pd_sample false 0 (by decide)
    (fun tr => hw_no_irq_ready tr false) (fun _ h1 h2 => absurd h1 (by omega))
    (fun tr _ => hw_no_irq_other tr _ _ (by simp))
    (fun tr => hw_no_irq_other tr _ _ (by simp))

/-- C7: after rcar_sysc_pd_init on a chip whose errata bitmask is B, every
domain in rcar_domains[i] whose isr_bit is in B has PD_NO_CR set in its flags,
whatever the flags of its descriptor areas[i], and every domain whose isr_bit
is not in B has exactly the flags of areas[i]; with boot mode 0 the isr_bit of
the domain is the isr_bit of areas[i]. -/
theorem C7_quirk_flags (K : Hdr) (env : InitEnv) (hw : Hw) (info : rcar_sysc_info) (B : Nat)
    (hB : B < 2 ^ 32) (hinfo : env.info = some info) (hq : env.quirks_data = some B)
    (r : Int × Sysc × Trace)
    (hr : rcar_sysc_pd_init K env hw Sysc.boot = Except.ok r) :
    ∀ i pd, r.2.1.rcar_domains i = some pd →
      ∃ area, info.areas[i]? = some area ∧
        (B.testBit pd.ch.isr_bit = true → pd.flags &&& K.PD_NO_CR = K.PD_NO_CR) ∧
        (B.testBit pd.ch.isr_bit = false → pd.flags = area.flags) ∧
        (info.mode.getD 0 = 0 → pd.ch.isr_bit = area.isr_bit) := by
  intro i pd hi
  obtain ⟨hquirks, area, nm, pd1, ha, _, hpd, _, k2, k3⟩ :=
    pd_init_domains K env hw info hinfo r hr i pd hi
  have hBq : r.2.1.rcar_sysc_quirks = B := by
    rw [hquirks, hq]
    exact Nat.mod_eq_of_lt hB
  rw [hBq] at hpd
  obtain ⟨_, s2, s3, s4⟩ := area_to_pd_spec K B _ area nm pd1 hpd
  rw [k2, k3]
  exact ⟨area, ha, s2, s3, fun h0 => by rw [s4 h0]⟩

/-- Witness of C7: `env_sample` (errata bitmask BIT(9)); slot 1 holds "a3vp"
with isr_bit 9 and flags PD_NO_CR although its descriptor has flags 0. -/
theorem C7_quirk_flags_witness :
    init_sample.2.1.rcar_domains 1 = some pd_a3vp_init_sample ∧
    ∃ area, info_sample.areas[1]? = some area ∧
      (Nat.testBit 0x200 pd_a3vp_init_sample.ch.isr_bit = true →
        pd_a3vp_init_sample.flags &&& hdr_sample.PD_NO_CR = hdr_sample.PD_NO_CR) ∧
      (Nat.testBit 0x200 pd_a3vp_init_sample.ch.isr_bit = false →
        pd_a3vp_init_sample.flags = area.flags) ∧
      (info_sample.mode.getD 0 = 0 → pd_a3vp_init_sample.ch.isr_bit = area.isr_bit) :=
  ⟨init_sample_slot1,
   C7_quirk_flags hdr_sample env_sample hw_zero info_sample 0x200 (by decide) rfl rfl
     init_sample init_sample_ok 1 pd_a3vp_init_sample init_sample_slot1⟩

/-- C8: rcar_sysc_fixup_area with mode 1 gives a domain named "a2sc2", whatever
its prior descriptor, chan_offs 0x400, chan_bit 6 and isr_bit
R8A77980_PD_A2SC0, the isr_bit every domain of the group a2sc0..a2sc4
receives; with boot mode 0 a domain "a2sc2" left in rcar_domains[i] by
rcar_sysc_pd_init has the channel descriptor of its table entry areas[i]. -/
theorem C8_fixup_a2sc2 (K : Hdr) :
    (∀ pd : rcar_sysc_pd, pd.name = "a2sc2" →
      rcar_sysc_fixup_area K pd 1 =
        Except.ok { pd with ch := { chan_offs := 0x400, chan_bit := 6,
                                    isr_bit := K.R8A77980_PD_A2SC0 } }) ∧
    (∀ pd : rcar_sysc_pd, pd.name ∈ ["a2sc0", "a2sc1", "a2sc2", "a2sc3", "a2sc4"] →
      ∃ pd1, rcar_sysc_fixup_area K pd 1 = Except.ok pd1 ∧
        pd1.ch.isr_bit = K.R8A77980_PD_A2SC0) ∧
    (∀ (env : InitEnv) (hw : Hw) (info : rcar_sysc_info) (r : Int × Sysc × Trace),
      env.info = some info → info.mode.getD 0 = 0 →
      rcar_sysc_pd_init K env hw Sysc.boot = Except.ok r →
      ∀ i pd, r.2.1.rcar_domains i = some pd → pd.name = "a2sc2" →
        ∃ area, info.areas[i]? = some area ∧ area.name = some "a2sc2" ∧
          pd.ch = { chan_offs := area.chan_offs, chan_bit := area.chan_bit,
                    isr_bit := area.isr_bit }) := by
  refine ⟨fixup_area_mode1_a2sc2 K, fixup_area_mode1_a2sc_group K, ?_⟩
  intro env hw info r hinfo hmode hr i pd hi hname
  obtain ⟨area, ha, hn, hch⟩ := pd_init_mode0_ch K env hw info hinfo hmode r hr i pd hi
  exact ⟨area, ha, by rw [hn, hname], hch⟩

/-- Witness of C8: the fix-up of a domain "a2sc2" with descriptor
(0x400, 8, 0), and slot 2 of the init run on `env_sample` (no mode selector). -/
theorem C8_fixup_a2sc2_witness :
    rcar_sysc_fixup_area hdr_sample pd_a2sc2_init_sample 1 =
      Except.ok { pd_a2sc2_init_sample with
        ch := { chan_offs := 0x400, chan_bit := 6,
                isr_bit := hdr_sample.R8A77980_PD_A2SC0 } } ∧
    (∃ pd1, rcar_sysc_fixup_area hdr_sample pd_a2sc2_init_sample 1 = Except.ok pd1 ∧
      pd1.ch.isr_bit = hdr_sample.R8A77980_PD_A2SC0) ∧
    ∃ area, info_sample.areas[2]? = some area ∧ area.name = some "a2sc2" ∧
      pd_a2sc2_init_sample.ch = { chan_offs := area.chan_offs, chan_bit := area.chan_bit,
                                  isr_bit := area.isr_bit } :=
  ⟨(C8_fixup_a2sc2 hdr_sample).1 pd_a2sc2_init_sample rfl,
   (C8_fixup_a2sc2 hdr_sample).2.1 pd_a2sc2_init_sample (by decide),
   (C8_fixup_a2sc2 hdr_sample).2.2 env_sample hw_zero info_sample init_sample rfl rfl
     init_sample_ok 2 pd_a2sc2_init_sample init_sample_slot2 rfl⟩

/-- C9: for mode 1 and mode 3, rcar_sysc_fixup_area returns unchanged every
domain whose name is none of the 14 names of the fix-up table; and with boot
mode 0 (no selector, or selector value 0) every domain rcar_sysc_pd_init
leaves in rcar_domains[i] has the channel descriptor of its table entry
areas[i]. -/
theorem C9_fixup_frame (K : Hdr) :
    (∀ (pd : rcar_sysc_pd) (mode : Nat), mode = 1 ∨ mode = 3 →
      pd.name ∉ ["a2ir0", "a2ir1", "a2ir2", "a2ir3", "a2ir4", "a2ir5", "a2sc0", "a2sc1",
        "a2sc2", "a2sc3", "a2sc4", "a2dp0", "a2dp1", "a2cn"] →
      rcar_sysc_fixup_area K pd mode = Except.ok pd) ∧
    (∀ (env : InitEnv) (hw : Hw) (info : rcar_sysc_info) (r : Int × Sysc × Trace),
      env.info = some info → (info.mode = none ∨ info.mode = some 0) →
      rcar_sysc_pd_init K env hw Sysc.boot = Except.ok r →
      ∀ i pd, r.2.1.rcar_domains i = some pd →
        ∃ area, info.areas[i]? = some area ∧
          pd.ch = { chan_offs := area.chan_offs, chan_bit := area.chan_bit,
                    isr_bit := area.isr_bit }) := by
  refine ⟨fun pd mode hm hn => fixup_area_unlisted K pd mode hm hn, ?_⟩
  intro env hw info r hinfo hmode hr i pd hi
  have hm0 : info.mode.getD 0 = 0 := by
    rcases hmode with h | h <;> rw [h] <;> rfl
  obtain ⟨area, ha, _, hch⟩ := pd_init_mode0_ch K env hw info hinfo hm0 r hr i pd hi
  exact ⟨area, ha, hch⟩

/-- Witness of C9: the domain "a3vp" under mode 1 and mode 3, and slot 1 of the
init run on `env_sample` (no mode selector). -/
theorem C9_fixup_frame_witness :
    rcar_sysc_fixup_area hdr_sample pd_sample 1 = Except.ok pd_sample ∧
    rcar_sysc_fixup_area hdr_sample pd_sample 3 = Except.ok pd_sample ∧
    ∃ area, info_sample.areas[1]? = some area ∧
      pd_a3vp_init_sample.ch = { chan_offs := area.chan_offs, chan_bit := area.chan_bit,
                                 isr_bit := area.isr_bit } :=
  ⟨(C9_fixup_frame hdr_sample).1 pd_sample 1 (Or.inl rfl) (by decide),
   (C9_fixup_frame hdr_sample).1 pd_sample 3 (Or.inr rfl) (by decide),
   (C9_fixup_frame hdr_sample).2 env_sample hw_zero info_sample init_sample rfl (Or.inl rfl)
     init_sample_ok 1 pd_a3vp_init_sample init_sample_slot1⟩

/-- C10 (the code at the failing input): with boot mode 2 rcar_sysc_fixup_area
compares the domain name with the null name of the empty table row and
faults, for every domain; with boot mode 4 it indexes the 3-row table out of
range. -/
theorem C10_unsupported_mode_faults (K : Hdr) (pd : rcar_sysc_pd) :
    rcar_sysc_fixup_area K pd 2 = Except.error Fault.null_deref ∧
    rcar_sysc_fixup_area K pd 4 = Except.error Fault.out_of_bounds :=
  ⟨fixup_area_mode2 K pd, fixup_area_mode_above K pd 4 (by decide)⟩

/-- C11 (the code at the failing input): after rcar_sysc_pd_init on a table of
33 named areas, rcar_domains[32] holds the domain "pd31", whose isr_bit 31 is
in the errata bitmask; with hardware that reads every domain off,
rcar_power_on_force performs no action at all: it never visits slot 32, so it
does not invoke rcar_sysc_power for that domain. -/
theorem C11_last_slot_not_forced :
    (sysc_full.rcar_domains 32).map (fun pd => (pd.name, pd.ch)) =
      some ("pd31", { chan_offs := 0x800, chan_bit := 0, isr_bit := 31 }) ∧
    sysc_full.rcar_sysc_quirks.testBit 31 = true ∧
    (∀ tr, reads_bit hw_ones tr (Reg.chan 0x800 0x00) 0 = true) ∧
    rcar_power_on_force sysc_full hw_ones [] = [] :=
  ⟨sysc_full_slot32, by decide, fun tr => hw_ones_bit tr _, by decide⟩

/-- C12: for a domain without PD_CPU, PD_SCU and PD_NO_CR, rcar_sysc_pd_setup
reads the status register once; when it reads off the remaining accesses are
those of one call rcar_sysc_power(on) (the lock is taken exactly once), and
when it reads on nothing else happens: no register write. -/
theorem C12_setup_controllable (K : Hdr) (g : Sysc) (hw : Hw) (e : Int)
    (pd : rcar_sysc_pd) (tr : Trace)
    (hcpu : pd.flags &&& K.PD_CPU = 0) (_hscu : pd.flags &&& K.PD_SCU = 0)
    (hnocr : pd.flags &&& K.PD_NO_CR = 0) :
    (reads_bit hw tr (Reg.chan pd.ch.chan_offs 0x00) pd.ch.chan_bit = true →
      (rcar_sysc_pd_setup K g hw e pd tr).2.2 =
        (rcar_sysc_power g hw pd true
          (tr ++ [Event.read (Reg.chan pd.ch.chan_offs 0x00)
            (u32 (hw tr (Reg.chan pd.ch.chan_offs 0x00)))])).2 ∧
      locks (rcar_sysc_pd_setup K g hw e pd tr).2.2 = locks tr + 1) ∧
    (reads_bit hw tr (Reg.chan pd.ch.chan_offs 0x00) pd.ch.chan_bit = false →
      (rcar_sysc_pd_setup K g hw e pd tr).2.2 =
        tr ++ [Event.read (Reg.chan pd.ch.chan_offs 0x00)
          (u32 (hw tr (Reg.chan pd.ch.chan_offs 0x00)))] ∧
      writes (rcar_sysc_pd_setup K g hw e pd tr).2.2 = writes tr ∧
      locks (rcar_sysc_pd_setup K g hw e pd tr).2.2 = locks tr) := by
  have hz : PWRSR_OFFS = 0x00 := rfl
  have h0 : ¬ (pd.flags &&& (K.PD_CPU ||| K.PD_NO_CR) ≠ 0) := by
    rw [and_or_eq_zero _ _ _ hcpu hnocr]
    simp
  have ht := pd_setup_trace K g hw e pd tr
  rw [if_neg h0, hz] at ht
  constructor
  · intro h
    rw [h] at ht
    simp only [Bool.true_eq_false, if_false] at ht
    refine ⟨ht, ?_⟩
    rw [ht, power_locks]
    simp [locks, List.countP_append, Event.isLock]
  · intro h
    rw [h] at ht
    simp only [if_true] at ht
    refine ⟨ht, ?_, ?_⟩
    · rw [ht]
      simp [writes, List.countP_append, Event.isWrite]
    · rw [ht]
      simp [locks, List.countP_append, Event.isLock]

/-- Witness of C12: the controllable domain `pd_sample` reading off (all-ones
hardware) and reading on (all-zero hardware). -/
theorem C12_setup_controllable_witness :
    ((rcar_sysc_pd_setup hdr_sample Sysc.boot hw_ones 0 pd_sample []).2.2 =
        (rcar_sysc_power Sysc.boot hw_ones pd_sample true
          ([] ++ [Event.read (Reg.chan pd_sample.ch.chan_offs 0x00)
            (u32 (hw_ones [] (Reg.chan pd_sample.ch.chan_offs 0x00)))])).2 ∧
      locks (rcar_sysc_pd_setup hdr_sample Sysc.boot hw_ones 0 pd_sample []).2.2 =
        locks [] + 1) ∧
    ((rcar_sysc_pd_setup hdr_sample Sysc.boot hw_zero 0 pd_sample []).2.2 =
        [] ++ [Event.read (Reg.chan pd_sample.ch.chan_offs 0x00)
          (u32 (hw_zero [] (Reg.chan pd_sample.ch.chan_offs 0x00)))] ∧
      writes (rcar_sysc_pd_setup hdr_sample Sysc.boot hw_zero 0 pd_sample []).2.2 =
        writes [] ∧
      locks (rcar_sysc_pd_setup hdr_sample Sysc.boot hw_zero 0 pd_sample []).2.2 =
        locks []) :=
  ⟨(C12_setup_controllable hdr_sample Sysc.boot hw_ones 0 pd_sample [] (by decide)
      (by decide) (by decide)).1 (by decide),
   (C12_setup_controllable hdr_sample Sysc.boot hw_zero 0 pd_sample [] (by decide)
      (by decide) (by decide)).2 (by decide)⟩

/-- C13 (counterexample): a domain flagged PD_SCU only whose status register
reads off; rcar_sysc_pd_setup does attempt a hardware transition: it takes the
lock for one rcar_sysc_power(on) and writes registers. -/
theorem C13_counterexample :
    pd_scu_sample.flags &&& hdr_sample.PD_SCU ≠ 0 ∧
    reads_bit hw_ones [] (Reg.chan pd_scu_sample.ch.chan_offs 0x00)
      pd_scu_sample.ch.chan_bit = true ∧
    0 < writes (rcar_sysc_pd_setup hdr_sample Sysc.boot hw_ones 0 pd_scu_sample []).2.2 ∧
    locks (rcar_sysc_pd_setup hdr_sample Sysc.boot hw_ones 0 pd_scu_sample []).2.2 = 1 := by
  have ht := pd_setup_trace hdr_sample Sysc.boot hw_ones 0 pd_scu_sample []
  have h0 : ¬ (pd_scu_sample.flags &&& (hdr_sample.PD_CPU ||| hdr_sample.PD_NO_CR) ≠ 0) := by
    decide
  have h1 : reads_bit hw_ones [] (Reg.chan pd_scu_sample.ch.chan_offs PWRSR_OFFS)
      pd_scu_sample.ch.chan_bit = true := by decide
  rw [if_neg h0, h1] at ht
  simp only [Bool.true_eq_false, if_false] at ht
  refine ⟨by decide, by decide, ?_, ?_⟩
  · rw [ht]
    exact Nat.lt_of_le_of_lt (Nat.zero_le _) (power_writes _ _ _ _ _)
  · rw [ht, power_locks]
    rfl

/-- C13 (amended): a domain flagged PD_CPU or PD_SCU is marked
GENPD_FLAG_ALWAYS_ON by rcar_sysc_pd_setup.  With PD_CPU (or PD_NO_CR) in the
flags the setup performs no register access at all.  A domain with PD_SCU but
neither PD_CPU nor PD_NO_CR is handled like a controllable domain: one status
read and no write when it reads on, one rcar_sysc_power(on) when it reads
off. -/
theorem C13_setup_cpu_scu (K : Hdr) (g : Sysc) (hw : Hw) (e : Int) (pd : rcar_sysc_pd)
    (tr : Trace) (hflag : pd.flags &&& K.PD_CPU ≠ 0 ∨ pd.flags &&& K.PD_SCU ≠ 0) :
    (rcar_sysc_pd_setup K g hw e pd tr).2.1.genpd_flags &&& K.GENPD_FLAG_ALWAYS_ON =
      K.GENPD_FLAG_ALWAYS_ON ∧
    ((pd.flags &&& K.PD_CPU ≠ 0 ∨ pd.flags &&& K.PD_NO_CR ≠ 0) →
      (rcar_sysc_pd_setup K g hw e pd tr).2.2 = tr) ∧
    (pd.flags &&& K.PD_CPU = 0 → pd.flags &&& K.PD_NO_CR = 0 →
      reads_bit hw tr (Reg.chan pd.ch.chan_offs 0x00) pd.ch.chan_bit = false →
      writes (rcar_sysc_pd_setup K g hw e pd tr).2.2 = writes tr ∧
      locks (rcar_sysc_pd_setup K g hw e pd tr).2.2 = locks tr) ∧
    (pd.flags &&& K.PD_CPU = 0 → pd.flags &&& K.PD_NO_CR = 0 →
      reads_bit hw tr (Reg.chan pd.ch.chan_offs 0x00) pd.ch.chan_bit = true →
      writes tr < writes (rcar_sysc_pd_setup K g hw e pd tr).2.2 ∧
      locks (rcar_sysc_pd_setup K g hw e pd tr).2.2 = locks tr + 1) := by
  have hz : PWRSR_OFFS = 0x00 := rfl
  have ht := pd_setup_trace K g hw e pd tr
  rw [hz] at ht
  refine ⟨pd_setup_always_on K g hw e pd tr hflag, ?_, ?_, ?_⟩
  · intro h
    rw [ht, if_pos (and_or_ne_zero _ _ _ h)]
  · intro hc hn hb
    have h0 : ¬ (pd.flags &&& (K.PD_CPU ||| K.PD_NO_CR) ≠ 0) := by
      rw [and_or_eq_zero _ _ _ hc hn]
      simp
    rw [if_neg h0, hb] at ht
    simp only [if_true] at ht
    rw [ht]
    constructor
    · simp [writes, List.countP_append, Event.isWrite]
    · simp [locks, List.countP_append, Event.isLock]
  · intro hc hn hb
    have h0 : ¬ (pd.flags &&& (K.PD_CPU ||| K.PD_NO_CR) ≠ 0) := by
      rw [and_or_eq_zero _ _ _ hc hn]
      simp
    rw [if_neg h0, hb] at ht
    simp only [Bool.true_eq_false, if_false] at ht
    rw [ht]
    constructor
    · have := power_writes g hw pd true
        (tr ++ [Event.read (Reg.chan pd.ch.chan_offs 0x00)
          (u32 (hw tr (Reg.chan pd.ch.chan_offs 0x00)))])
      simp only [writes, List.countP_append] at this ⊢
      omega
    · rw [power_locks]
      simp [locks, List.countP_append, Event.isLock]

/-- Witness of C13 (amended): a PD_CPU domain and a PD_SCU domain under
all-ones hardware (status reads off), the PD_SCU domain also under all-zero
hardware. -/
theorem C13_setup_cpu_scu_witness :
    (rcar_sysc_pd_setup hdr_sample Sysc.boot hw_ones 0 pd_cpu_sample []).2.1.genpd_flags &&&
        hdr_sample.GENPD_FLAG_ALWAYS_ON = hdr_sample.GENPD_FLAG_ALWAYS_ON ∧
    (rcar_sysc_pd_setup hdr_sample Sysc.boot hw_ones 0 pd_cpu_sample []).2.2 = [] ∧
    (writes (rcar_sysc_pd_setup hdr_sample Sysc.boot hw_zero 0 pd_scu_sample []).2.2 =
        writes [] ∧
      locks (rcar_sysc_pd_setup hdr_sample Sysc.boot hw_zero 0 pd_scu_sample []).2.2 =
        locks []) ∧
    (writes [] < writes (rcar_sysc_pd_setup hdr_sample Sysc.boot hw_ones 0 pd_scu_sample []).2.2 ∧
      locks (rcar_sysc_pd_setup hdr_sample Sysc.boot hw_ones 0 pd_scu_sample []).2.2 =
        locks [] + 1) :=
  ⟨(C13_setup_cpu_scu hdr_sample Sysc.boot hw_ones 0 pd_cpu_sample []
      (Or.inl (by decide))).1,
   (C13_setup_cpu_scu hdr_sample Sysc.boot hw_ones 0 pd_cpu_sample []
      (Or.inl (by decide))).2.1 (Or.inl (by decide)),
   (C13_setup_cpu_scu hdr_sample Sysc.boot hw_zero 0 pd_scu_sample []
      (Or.inr (by decide))).2.2.1 (by decide) (by decide) (by decide),
   (C13_setup_cpu_scu hdr_sample Sysc.boot hw_ones 0 pd_scu_sample []
      (Or.inr (by decide))).2.2.2 (by decide) (by decide) (by decide)⟩

/-- C14 (counterexample): on the chip with the clock-gate interaction, with
all-ones hardware (the domain "a3ir" reads off), the trace of
rcar_sysc_pd_power_on has an access to a clock-gate register standing before a
register write of the power-on handshake: the clock gate is not enabled after
the handshake. -/
theorem C14_counterexample :
    sysc_v3h.has_clk_crl = true ∧ pd_a3ir_sample.name = "a3ir" ∧
    reads_bit hw_ones [] (Reg.chan pd_a3ir_sample.ch.chan_offs 0x00)
      pd_a3ir_sample.ch.chan_bit = true ∧
    OccursBefore Event.onPhys (fun e => e.isWrite && !e.onPhys)
      (rcar_sysc_pd_power_on sysc_v3h hw_ones pd_a3ir_sample []).2 := by
  refine ⟨rfl, rfl, by decide, ?_⟩
  rw [pd_power_on_a3ir sysc_v3h hw_ones pd_a3ir_sample [] rfl rfl (by decide)]
  obtain ⟨ec, ep, _, hp, _, k2, k3, k4⟩ := clk_then_power_shape sysc_v3h hw_ones
    pd_a3ir_sample true true
    ([] ++ [Event.read (Reg.chan pd_a3ir_sample.ch.chan_offs PWRSR_OFFS)
      (u32 (hw_ones [] (Reg.chan pd_a3ir_sample.ch.chan_offs PWRSR_OFFS)))])
  rw [hp]
  apply occursBefore_of_shape _ _ _ _ _ k2
  obtain ⟨e, he, hq⟩ := k4
  exact ⟨e, he, by simp [hq, k3 e he]⟩

/-- C14 (amended): on the chip with the clock-gate interaction, for the domain
"a3ir" reading off, the actions of rcar_sysc_pd_power_on are, in this order:
the status read, all actions of rcar_sysc_a3ir_clk_ctrl(true), which touch
clock-gate registers only, then all actions of rcar_sysc_power(on), which
touch no clock-gate register.  The clock gate is enabled before the power-on
handshake, not after it. -/
theorem C14_clock_enable_precedes_power_on (g : Sysc) (hw : Hw) (pd : rcar_sysc_pd)
    (tr : Trace) (hclk : g.has_clk_crl = true) (hname : pd.name = "a3ir")
    (hoff : reads_bit hw tr (Reg.chan pd.ch.chan_offs 0x00) pd.ch.chan_bit = true) :
    ∃ evs_clk evs_pw,
      (rcar_sysc_a3ir_clk_ctrl hw true
        (tr ++ [Event.read (Reg.chan pd.ch.chan_offs 0x00)
          (u32 (hw tr (Reg.chan pd.ch.chan_offs 0x00)))])).2 =
        tr ++ [Event.read (Reg.chan pd.ch.chan_offs 0x00)
          (u32 (hw tr (Reg.chan pd.ch.chan_offs 0x00)))] ++ evs_clk ∧
      (rcar_sysc_pd_power_on g hw pd tr).2 =
        tr ++ [Event.read (Reg.chan pd.ch.chan_offs 0x00)
          (u32 (hw tr (Reg.chan pd.ch.chan_offs 0x00)))] ++ evs_clk ++ evs_pw ∧
      (∀ e ∈ evs_clk, e.inClkCtrl = true) ∧ (∃ e ∈ evs_clk, e.onPhys = true) ∧
      (∀ e ∈ evs_pw, e.onPhys = false) ∧ (∃ e ∈ evs_pw, e.isWrite = true) := by
  have hz : PWRSR_OFFS = 0x00 := rfl
  have hcb := pd_power_on_a3ir g hw pd tr hclk hname hoff
  rw [hz] at hcb
  obtain ⟨ec, ep, hc, hp, k1, k2, k3, k4⟩ := clk_then_power_shape g hw pd true true
    (tr ++ [Event.read (Reg.chan pd.ch.chan_offs 0x00)
      (u32 (hw tr (Reg.chan pd.ch.chan_offs 0x00)))])
  exact ⟨ec, ep, hc, by rw [hcb, hp], k1, k2, k3, k4⟩

/-- Witness of C14 (amended): the domain "a3ir" under all-ones hardware. -/
theorem C14_clock_enable_precedes_power_on_witness :
    ∃ evs_clk evs_pw,
      (rcar_sysc_a3ir_clk_ctrl hw_ones true
        ([] ++ [Event.read (Reg.chan pd_a3ir_sample.ch.chan_offs 0x00)
          (u32 (hw_ones [] (Reg.chan pd_a3ir_sample.ch.chan_offs 0x00)))])).2 =
        [] ++ [Event.read (Reg.chan pd_a3ir_sample.ch.chan_offs 0x00)
          (u32 (hw_ones [] (Reg.chan pd_a3ir_sample.ch.chan_offs 0x00)))] ++ evs_clk ∧
      (rcar_sysc_pd_power_on sysc_v3h hw_ones pd_a3ir_sample []).2 =
        [] ++ [Event.read (Reg.chan pd_a3ir_sample.ch.chan_offs 0x00)
          (u32 (hw_ones [] (Reg.chan pd_a3ir_sample.ch.chan_offs 0x00)))] ++ evs_clk ++
          evs_pw ∧
      (∀ e ∈ evs_clk, e.inClkCtrl = true) ∧ (∃ e ∈ evs_clk, e.onPhys = true) ∧
      (∀ e ∈ evs_pw, e.onPhys = false) ∧ (∃ e ∈ evs_pw, e.isWrite = true) :=
  C14_clock_enable_precedes_power_on sysc_v3h hw_ones pd_a3ir_sample [] rfl rfl (by decide)

/-- C15: on the chip with the clock-gate interaction, for the domain "a3ir"
reading on, the actions of rcar_sysc_pd_power_off are, in this order: the
status read, all actions of rcar_sysc_a3ir_clk_ctrl(false), which touch
clock-gate registers only, then all actions of rcar_sysc_power(off), which
touch no clock-gate register.  For every other domain name, or when
has_clk_crl is false, neither callback accesses a clock-gate register. -/
theorem C15_clock_disable_precedes_power_off (g : Sysc) (hw : Hw) (pd : rcar_sysc_pd)
    (tr : Trace) :
    (g.has_clk_crl = true → pd.name = "a3ir" →
      reads_bit hw tr (Reg.chan pd.ch.chan_offs 0x00) pd.ch.chan_bit = false →
      ∃ evs_clk evs_pw,
        (rcar_sysc_a3ir_clk_ctrl hw false
          (tr ++ [Event.read (Reg.chan pd.ch.chan_offs 0x00)
            (u32 (hw tr (Reg.chan pd.ch.chan_offs 0x00)))])).2 =
          tr ++ [Event.read (Reg.chan pd.ch.chan_offs 0x00)
            (u32 (hw tr (Reg.chan pd.ch.chan_offs 0x00)))] ++ evs_clk ∧
        (rcar_sysc_pd_power_off g hw pd tr).2 =
          tr ++ [Event.read (Reg.chan pd.ch.chan_offs 0x00)
            (u32 (hw tr (Reg.chan pd.ch.chan_offs 0x00)))] ++ evs_clk ++ evs_pw ∧
        (∀ e ∈ evs_clk, e.inClkCtrl = true) ∧ (∃ e ∈ evs_clk, e.onPhys = true) ∧
        (∀ e ∈ evs_pw, e.onPhys = false) ∧ (∃ e ∈ evs_pw, e.isWrite = true)) ∧
    (¬ (g.has_clk_crl = true ∧ pd.name = "a3ir") →
      List.countP Event.onPhys (rcar_sysc_pd_power_off g hw pd tr).2 =
        List.countP Event.onPhys tr ∧
      List.countP Event.onPhys (rcar_sysc_pd_power_on g hw pd tr).2 =
        List.countP Event.onPhys tr) := by
  have hz : PWRSR_OFFS = 0x00 := rfl
  constructor
  · intro hclk hname hon
    have hcb := pd_power_off_a3ir g hw pd tr hclk hname hon
    rw [hz] at hcb
    obtain ⟨ec, ep, hc, hp, k1, k2, k3, k4⟩ := clk_then_power_shape g hw pd false false
      (tr ++ [Event.read (Reg.chan pd.ch.chan_offs 0x00)
        (u32 (hw tr (Reg.chan pd.ch.chan_offs 0x00)))])
    exact ⟨ec, ep, hc, by rw [hcb, hp], k1, k2, k3, k4⟩
  · intro hplain
    have hpw : ∀ (on_ : Bool) (t : Trace),
        List.countP Event.onPhys (rcar_sysc_power g hw pd on_ t).2 =
          List.countP Event.onPhys t :=
      fun on_ t => (power_ext g hw pd on_ t).countP_eq Event.onPhys
        (fun e he => by simpa using he)
    cases hb : reads_bit hw tr (Reg.chan pd.ch.chan_offs PWRSR_OFFS) pd.ch.chan_bit
    · constructor
      · rw [pd_power_off_plain g hw pd tr hplain hb, hpw]
        simp [List.countP_append, Event.onPhys]
      · rw [pd_power_on_noop g hw pd tr hb]
        simp [List.countP_append, Event.onPhys]
    · constructor
      · rw [pd_power_off_noop g hw pd tr hb]
        simp [List.countP_append, Event.onPhys]
      · rw [pd_power_on_plain g hw pd tr hplain hb, hpw]
        simp [List.countP_append, Event.onPhys]

/-- Witness of C15: the domain "a3ir" under all-zero hardware (reads on) with
the clock-gate interaction, and the domain "a3vp" on the same chip. -/
theorem C15_clock_disable_precedes_power_off_witness :
    (∃ evs_clk evs_pw,
      (rcar_sysc_a3ir_clk_ctrl hw_zero false
        ([] ++ [Event.read (Reg.chan pd_a3ir_sample.ch.chan_offs 0x00)
          (u32 (hw_zero [] (Reg.chan pd_a3ir_sample.ch.chan_offs 0x00)))])).2 =
        [] ++ [Event.read (Reg.chan pd_a3ir_sample.ch.chan_offs 0x00)
          (u32 (hw_zero [] (Reg.chan pd_a3ir_sample.ch.chan_offs 0x00)))] ++ evs_clk ∧
      (rcar_sysc_pd_power_off sysc_v3h hw_zero pd_a3ir_sample []).2 =
        [] ++ [Event.read (Reg.chan pd_a3ir_sample.ch.chan_offs 0x00)
          (u32 (hw_zero [] (Reg.chan pd_a3ir_sample.ch.chan_offs 0x00)))] ++ evs_clk ++
          evs_pw ∧
      (∀ e ∈ evs_clk, e.inClkCtrl = true) ∧ (∃ e ∈ evs_clk, e.onPhys = true) ∧
      (∀ e ∈ evs_pw, e.onPhys = false) ∧ (∃ e ∈ evs_pw, e.isWrite = true)) ∧
    (List.countP Event.onPhys (rcar_sysc_pd_power_off sysc_v3h hw_zero pd_sample []).2 =
        List.countP Event.onPhys [] ∧
      List.countP Event.onPhys (rcar_sysc_pd_power_on sysc_v3h hw_zero pd_sample []).2 =
        List.countP Event.onPhys []) :=
  ⟨(C15_clock_disable_precedes_power_off sysc_v3h hw_zero pd_a3ir_sample []).1 rfl rfl
      (by decide),
   (C15_clock_disable_precedes_power_off sysc_v3h hw_zero pd_sample []).2 (by decide)⟩

/-- C16: for the domain "a3ir" with has_clk_crl true, when
rcar_sysc_a3ir_clk_ctrl returns -EBUSY the callbacks still run the handshake:
their result (return value and trace) is the result of rcar_sysc_power run
after the clock-gate accesses, exactly as when rcar_sysc_a3ir_clk_ctrl
returns 0. -/
theorem C16_clock_timeout_ignored (g : Sysc) (hw : Hw) (pd : rcar_sysc_pd) (tr : Trace)
    (hclk : g.has_clk_crl = true) (hname : pd.name = "a3ir") :
    (reads_bit hw tr (Reg.chan pd.ch.chan_offs 0x00) pd.ch.chan_bit = false →
      ((rcar_sysc_a3ir_clk_ctrl hw false
          (tr ++ [Event.read (Reg.chan pd.ch.chan_offs 0x00)
            (u32 (hw tr (Reg.chan pd.ch.chan_offs 0x00)))])).1 = -EBUSY ∨
        (rcar_sysc_a3ir_clk_ctrl hw false
          (tr ++ [Event.read (Reg.chan pd.ch.chan_offs 0x00)
            (u32 (hw tr (Reg.chan pd.ch.chan_offs 0x00)))])).1 = 0) →
      rcar_sysc_pd_power_off g hw pd tr =
        rcar_sysc_power g hw pd false
          (rcar_sysc_a3ir_clk_ctrl hw false
            (tr ++ [Event.read (Reg.chan pd.ch.chan_offs 0x00)
              (u32 (hw tr (Reg.chan pd.ch.chan_offs 0x00)))])).2) ∧
    (reads_bit hw tr (Reg.chan pd.ch.chan_offs 0x00) pd.ch.chan_bit = true →
      ((rcar_sysc_a3ir_clk_ctrl hw true
          (tr ++ [Event.read (Reg.chan pd.ch.chan_offs 0x00)
            (u32 (hw tr (Reg.chan pd.ch.chan_offs 0x00)))])).1 = -EBUSY ∨
        (rcar_sysc_a3ir_clk_ctrl hw true
          (tr ++ [Event.read (Reg.chan pd.ch.chan_offs 0x00)
            (u32 (hw tr (Reg.chan pd.ch.chan_offs 0x00)))])).1 = 0) →
      rcar_sysc_pd_power_on g hw pd tr =
        rcar_sysc_power g hw pd true
          (rcar_sysc_a3ir_clk_ctrl hw true
            (tr ++ [Event.read (Reg.chan pd.ch.chan_offs 0x00)
              (u32 (hw tr (Reg.chan pd.ch.chan_offs 0x00)))])).2) :=
  ⟨fun hon _ => pd_power_off_a3ir g hw pd tr hclk hname hon,
   fun hoff _ => pd_power_on_a3ir g hw pd tr hclk hname hoff⟩

/-- Witness of C16: the clock-gate disable times out under all-zero hardware,
the clock-gate enable under all-ones hardware. -/
theorem C16_clock_timeout_ignored_witness :
    rcar_sysc_pd_power_off sysc_v3h hw_zero pd_a3ir_sample [] =
      rcar_sysc_power sysc_v3h hw_zero pd_a3ir_sample false
        (rcar_sysc_a3ir_clk_ctrl hw_zero false
          ([] ++ [Event.read (Reg.chan pd_a3ir_sample.ch.chan_offs 0x00)
            (u32 (hw_zero [] (Reg.chan pd_a3ir_sample.ch.chan_offs 0x00)))])).2 ∧
    rcar_sysc_pd_power_on sysc_v3h hw_ones pd_a3ir_sample [] =
      rcar_sysc_power sysc_v3h hw_ones pd_a3ir_sample true
        (rcar_sysc_a3ir_clk_ctrl hw_ones true
          ([] ++ [Event.read (Reg.chan pd_a3ir_sample.ch.chan_offs 0x00)
            (u32 (hw_ones [] (Reg.chan pd_a3ir_sample.ch.chan_offs 0x00)))])).2 :=
  ⟨(C16_clock_timeout_ignored sysc_v3h hw_zero pd_a3ir_sample [] rfl rfl).1 (by decide)
      (Or.inl (hw_zero_clk_disable_busy _)),
   (C16_clock_timeout_ignored sysc_v3h hw_ones pd_a3ir_sample [] rfl rfl).2 (by decide)
      (Or.inl (hw_ones_clk_enable_busy _))⟩

/-- C17: on a chip with a non-zero external request mask value, among the
register writes of any run of rcar_sysc_power the first is the mask value,
written to the external request mask register, and the last is 0, written to
the same register, whatever the hardware does and hence on every return path;
on a chip whose mask value is 0, rcar_sysc_power writes no external request
mask register. -/
theorem C17_extmask_bracket (g : Sysc) (hw : Hw) (pd : rcar_sysc_pd) (on_ : Bool)
    (tr : Trace) :
    (g.rcar_sysc_extmask_val ≠ 0 →
      ∃ evs, (rcar_sysc_power g hw pd on_ tr).2 = tr ++ evs ∧
        (evs.filter Event.isWrite).head? =
          some (Event.write (Reg.extmask g.rcar_sysc_extmask_offs)
            (u32 g.rcar_sysc_extmask_val)) ∧
        (evs.filter Event.isWrite).getLast? =
          some (Event.write (Reg.extmask g.rcar_sysc_extmask_offs) 0)) ∧
    (g.rcar_sysc_extmask_val = 0 →
      ∀ o, writesTo (Reg.extmask o) (rcar_sysc_power g hw pd on_ tr).2 =
        writesTo (Reg.extmask o) tr) :=
  ⟨power_extmask_bracket g hw pd on_ tr, power_extmask_none g hw pd on_ tr⟩

/-- Witness of C17: a chip with mask value 1 at offset 0x2f8, and a chip
without mask, both with all-zero hardware (acceptance timeout). -/
theorem C17_extmask_bracket_witness :
    (∃ evs, (rcar_sysc_power sysc_extmask hw_zero pd_sample true []).2 = [] ++ evs ∧
      (evs.filter Event.isWrite).head? =
        some (Event.write (Reg.extmask sysc_extmask.rcar_sysc_extmask_offs)
          (u32 sysc_extmask.rcar_sysc_extmask_val)) ∧
      (evs.filter Event.isWrite).getLast? =
        some (Event.write (Reg.extmask sysc_extmask.rcar_sysc_extmask_offs) 0)) ∧
    (∀ o, writesTo (Reg.extmask o) (rcar_sysc_power Sysc.boot hw_zero pd_sample true []).2 =
      writesTo (Reg.extmask o) []) :=
  ⟨(C17_extmask_bracket sysc_extmask hw_zero pd_sample true []).1 (by decide),
   (C17_extmask_bracket Sysc.boot hw_zero pd_sample true []).2 rfl⟩

/-- C18: rcar_sysc_pwr_on_off writes nothing when it fails and, when it returns
0, exactly one register: the value BIT(chan_bit) (as a 32-bit value; 2^chan_bit
for chan_bit < 32) to chan_offs+0x0c for a power-on and to chan_offs+0x04 for a
power-off.  After such a submission the loop of rcar_sysc_power reads
chan_offs+0x14 and retries exactly when chan_bit is set there.
rcar_sysc_power_is_off reads chan_offs+0x00 and returns true exactly when
chan_bit is set there. -/
theorem C18_register_layout (hw : Hw) (pd : rcar_sysc_pd) (on_ : Bool) (tr : Trace) :
    (∃ evs, (rcar_sysc_pwr_on_off hw pd on_ tr).2 = tr ++ evs ∧
      evs.filter Event.isWrite =
        (if (rcar_sysc_pwr_on_off hw pd on_ tr).1 = 0
         then [Event.write (Reg.chan pd.ch.chan_offs (if on_ then 0x0c else 0x04))
                (u32 (BIT pd.ch.chan_bit))]
         else [])) ∧
    (pd.ch.chan_bit < 32 → u32 (BIT pd.ch.chan_bit) = 2 ^ pd.ch.chan_bit) ∧
    ((rcar_sysc_pwr_on_off hw pd on_ tr).1 = 0 → ∀ n,
      pwrer_loop hw pd on_ (u32 (BIT pd.ch.chan_bit)) (n + 1) tr =
        if reads_bit hw (rcar_sysc_pwr_on_off hw pd on_ tr).2
            (Reg.chan pd.ch.chan_offs 0x14) pd.ch.chan_bit = true
        then pwrer_loop hw pd on_ (u32 (BIT pd.ch.chan_bit)) n
          ((rcar_sysc_pwr_on_off hw pd on_ tr).2 ++
            [Event.read (Reg.chan pd.ch.chan_offs 0x14)
              (u32 (hw (rcar_sysc_pwr_on_off hw pd on_ tr).2
                (Reg.chan pd.ch.chan_offs 0x14))),
             Event.delay 10])
        else (LoopExit.brk,
          (rcar_sysc_pwr_on_off hw pd on_ tr).2 ++
            [Event.read (Reg.chan pd.ch.chan_offs 0x14)
              (u32 (hw (rcar_sysc_pwr_on_off hw pd on_ tr).2
                (Reg.chan pd.ch.chan_offs 0x14)))])) ∧
    rcar_sysc_power_is_off hw pd.ch tr =
      (reads_bit hw tr (Reg.chan pd.ch.chan_offs 0x00) pd.ch.chan_bit,
        tr ++ [Event.read (Reg.chan pd.ch.chan_offs 0x00)
          (u32 (hw tr (Reg.chan pd.ch.chan_offs 0x00)))]) :=
  ⟨pwr_on_off_writes hw pd on_ tr, u32_BIT_of_lt pd.ch.chan_bit,
   fun h0 n => pwrer_loop_check hw pd on_ n tr h0, power_is_off_eq hw pd.ch tr⟩

/-- Witness of C18: a power-on submission of `pd_sample` (chan_bit 0) under
hardware that is always ready and never raises an interrupt. -/
theorem C18_register_layout_witness :
    u32 (BIT pd_sample.ch.chan_bit) = 2 ^ pd_sample.ch.chan_bit ∧
    pwrer_loop hw_no_irq pd_sample true (u32 (BIT pd_sample.ch.chan_bit)) (0 + 1) [] =
      if reads_bit hw_no_irq (rcar_sysc_pwr_on_off hw_no_irq pd_sample true []).2
          (Reg.chan pd_sample.ch.chan_offs 0x14) pd_sample.ch.chan_bit = true
      then pwrer_loop hw_no_irq pd_sample true (u32 (BIT pd_sample.ch.chan_bit)) 0
        ((rcar_sysc_pwr_on_off hw_no_irq pd_sample true []).2 ++
          [Event.read (Reg.chan pd_sample.ch.chan_offs 0x14)
            (u32 (hw_no_irq (rcar_sysc_pwr_on_off hw_no_irq pd_sample true []).2
              (Reg.chan pd_sample.ch.chan_offs 0x14))),
           Event.delay 10])
      else (LoopExit.brk,
        (rcar_sysc_pwr_on_off hw_no_irq pd_sample true []).2 ++
          [Event.read (Reg.chan pd_sample.ch.chan_offs 0x14)
            (u32 (hw_no_irq (rcar_sysc_pwr_on_off hw_no_irq pd_sample true []).2
              (Reg.chan pd_sample.ch.chan_offs 0x14)))]) :=
  ⟨(C18_register_layout hw_no_irq pd_sample true []).2.1 (by decide),
   (C18_register_layout hw_no_irq pd_sample true []).2.2.1
     (pwr_on_off_ready_counts hw_no_irq pd_sample true [] (hw_no_irq_ready [] true)).1 0⟩

/-- C19 (counterexample): a table with the two areas "a2sc0" (isr_bit 30) and
"a2sc1" (isr_bit 31) and boot mode 1; after rcar_sysc_pd_init both domains
have isr_bit 30. -/
theorem C19_counterexample :
    info_pdmode1.mode = some 1 ∧
    info_pdmode1.areas.map (fun a => (a.name, a.isr_bit)) =
      [(some "a2sc0", 30), (some "a2sc1", 31)] ∧
    (rcar_sysc_pd_init hdr_sample env_pdmode1 hw_zero Sysc.boot).toOption.map
      (fun r => r.1) = some 0 ∧
    (sysc_pdmode1.rcar_domains 0).map (fun pd => (pd.name, pd.ch.isr_bit)) =
      some ("a2sc0", 30) ∧
    (sysc_pdmode1.rcar_domains 1).map (fun pd => (pd.name, pd.ch.isr_bit)) =
      some ("a2sc1", 30) :=
  ⟨rfl, rfl, init_pdmode1_ret, sysc_pdmode1_slots.1, sysc_pdmode1_slots.2⟩

/-- C19 (amended): with boot mode 0, a table with pairwise distinct isr_bit
values yields domains with pairwise distinct isr_bit values.  With boot mode 1
every domain named a2sc0..a2sc4 gets isr_bit R8A77980_PD_A2SC0, and with boot
mode 3 every domain named in the fix-up table gets isr_bit R8A77980_PD_A2IR0,
so the domains of one group share their isr_bit. -/
theorem C19_isr_bit_after_fixup (K : Hdr) (env : InitEnv) (hw : Hw) (info : rcar_sysc_info)
    (r : Int × Sysc × Trace) (hinfo : env.info = some info)
    (hr : rcar_sysc_pd_init K env hw Sysc.boot = Except.ok r) :
    ((info.mode = none ∨ info.mode = some 0) →
      (∀ (i j : Nat) (a b : rcar_sysc_area), info.areas[i]? = some a →
        info.areas[j]? = some b → i ≠ j → a.isr_bit ≠ b.isr_bit) →
      ∀ i j pi pj, r.2.1.rcar_domains i = some pi → r.2.1.rcar_domains j = some pj →
        i ≠ j → pi.ch.isr_bit ≠ pj.ch.isr_bit) ∧
    (info.mode = some 1 →
      ∀ i pd, r.2.1.rcar_domains i = some pd →
        pd.name ∈ ["a2sc0", "a2sc1", "a2sc2", "a2sc3", "a2sc4"] →
        pd.ch.isr_bit = K.R8A77980_PD_A2SC0) ∧
    (info.mode = some 3 →
      ∀ i pd, r.2.1.rcar_domains i = some pd →
        pd.name ∈ ["a2ir0", "a2ir1", "a2ir2", "a2ir3", "a2ir4", "a2ir5", "a2sc0", "a2sc1",
          "a2sc2", "a2sc3", "a2sc4", "a2dp0", "a2dp1", "a2cn"] →
        pd.ch.isr_bit = K.R8A77980_PD_A2IR0) := by
  refine ⟨?_, ?_, ?_⟩
  · intro hmode hdist i j pi pj hi hj hij
    have hm0 : info.mode.getD 0 = 0 := by
      rcases hmode with h | h <;> rw [h] <;> rfl
    obtain ⟨a, ha, _, hca⟩ := pd_init_mode0_ch K env hw info hinfo hm0 r hr i pi hi
    obtain ⟨b, hb, _, hcb⟩ := pd_init_mode0_ch K env hw info hinfo hm0 r hr j pj hj
    rw [hca, hcb]
    exact hdist i j a b ha hb hij
  · intro hmode i pd hi hname
    obtain ⟨pd0, pd2, n0, hfix, hch⟩ :=
      pd_init_fixup_ch K env hw info hinfo 1 hmode (by decide) r hr i pd hi
    obtain ⟨pd3, hfix3, h3⟩ := fixup_area_mode1_a2sc_group K pd0 (by rw [n0]; exact hname)
    rw [hfix] at hfix3
    simp only [Except.ok.injEq] at hfix3
    rw [hch, hfix3, h3]
  · intro hmode i pd hi hname
    obtain ⟨pd0, pd2, n0, hfix, hch⟩ :=
      pd_init_fixup_ch K env hw info hinfo 3 hmode (by decide) r hr i pd hi
    obtain ⟨pd3, hfix3, h3⟩ := fixup_area_mode3_listed K pd0 (by rw [n0]; exact hname)
    rw [hfix] at hfix3
    simp only [Except.ok.injEq] at hfix3
    rw [hch, hfix3, h3]

/-- Witness of C19 (amended): the init run on `env_sample` (no mode selector),
whose table has the distinct isr_bit values 32, 9, 0 and 5, and the init run on
`env_pdmode1` (boot mode 1). -/
theorem C19_isr_bit_after_fixup_witness :
    (∀ i pd, sysc_pdmode1.rcar_domains i = some pd →
      pd.name ∈ ["a2sc0", "a2sc1", "a2sc2", "a2sc3", "a2sc4"] →
      pd.ch.isr_bit = hdr_sample.R8A77980_PD_A2SC0) ∧
    ∀ i j pi pj, init_sample.2.1.rcar_domains i = some pi →
      init_sample.2.1.rcar_domains j = some pj → i ≠ j →
      pi.ch.isr_bit ≠ pj.ch.isr_bit :=
  ⟨(C19_isr_bit_after_fixup hdr_sample env_pdmode1 hw_zero info_pdmode1 _ rfl
    init_pdmode1_ok).2.1 rfl,
   (C19_isr_bit_after_fixup hdr_sample env_sample hw_zero info_sample init_sample rfl
    init_sample_ok).1 (Or.inl rfl) (by
      intro i j a b ha hb hij
      have hi : i < 4 := by
        by_contra hc
        rw [List.getElem?_eq_none (by simp [info_sample]; omega)] at ha
        cases ha
      have hj : j < 4 := by
        by_contra hc
        rw [List.getElem?_eq_none (by simp [info_sample]; omega)] at hb
        cases hb
      interval_cases i <;> interval_cases j <;>
        first
        | exact absurd rfl hij
        | (simp [info_sample] at ha hb
           subst ha
           subst hb
           decide))⟩

/-- C20: rcar_sysc_power_up_cpu and rcar_sysc_power_down_cpu are
rcar_sysc_power_cpu with on = true and on = false.  rcar_sysc_power_cpu returns
-ENODEV (-19) without any action while rcar_sysc_onecell_data is null;
otherwise it returns the result of rcar_sysc_power on the domain of the lowest
slot that has PD_CPU and chan_bit = idx, and -ENOENT (-2) without any action
when no slot of the 33 has one. -/
theorem C20_power_cpu (K : Hdr) (g : Sysc) (hw : Hw) (idx : Nat) (tr : Trace) :
    rcar_sysc_power_up_cpu K g hw idx tr = rcar_sysc_power_cpu K g hw idx true tr ∧
    rcar_sysc_power_down_cpu K g hw idx tr = rcar_sysc_power_cpu K g hw idx false tr ∧
    ∀ on_ : Bool,
      (g.rcar_sysc_onecell_data = none →
        rcar_sysc_power_cpu K g hw idx on_ tr = (-ENODEV, tr) ∧ (-ENODEV : Int) = -19) ∧
      (∀ d, g.rcar_sysc_onecell_data = some d →
        (∀ i pd, i < 33 → d i = some pd → pd.flags &&& K.PD_CPU ≠ 0 →
          pd.ch.chan_bit = idx →
          (∀ j, j < i → ∀ pj, d j = some pj →
            pj.flags &&& K.PD_CPU = 0 ∨ pj.ch.chan_bit ≠ idx) →
          rcar_sysc_power_cpu K g hw idx on_ tr = rcar_sysc_power g hw pd on_ tr) ∧
        ((∀ j, j < 33 → ∀ pj, d j = some pj →
            pj.flags &&& K.PD_CPU = 0 ∨ pj.ch.chan_bit ≠ idx) →
          rcar_sysc_power_cpu K g hw idx on_ tr = (-ENOENT, tr) ∧
            (-ENOENT : Int) = -2)) := by
  refine ⟨rfl, rfl, ?_⟩
  intro on_
  constructor
  · intro hnone
    unfold rcar_sysc_power_cpu
    rw [hnone]
    exact ⟨rfl, rfl⟩
  · intro d hd
    constructor
    · intro i pd hi hdi hcpu hbit hmiss
      unfold rcar_sysc_power_cpu
      rw [hd]
      exact power_cpu_loop_hit K g hw d idx on_ i pd hdi hcpu hbit _ 0 tr (Nat.zero_le _)
        (by simpa [RCAR_PD_ALWAYS_ON] using hi) (fun j _ h2 => hmiss j h2)
    · intro hmiss
      unfold rcar_sysc_power_cpu
      rw [hd]
      exact ⟨power_cpu_loop_miss K g hw d idx on_ _ 0 tr
        (fun j _ h2 => hmiss j (by simpa [RCAR_PD_ALWAYS_ON] using h2)), rfl⟩

/-- Witness of C20: before init, and with the CPU domain `pd_cpu_sample`
(chan_bit 0) registered in slot 5: CPU 0 is found, CPU 1 is not. -/
theorem C20_power_cpu_witness :
    rcar_sysc_power_cpu hdr_sample Sysc.boot hw_zero 0 true [] = (-ENODEV, []) ∧
    rcar_sysc_power_cpu hdr_sample sysc_cpu hw_zero 0 true [] =
      rcar_sysc_power sysc_cpu hw_zero pd_cpu_sample true [] ∧
    rcar_sysc_power_cpu hdr_sample sysc_cpu hw_zero 1 false [] = (-ENOENT, []) :=
  ⟨((C20_power_cpu hdr_sample Sysc.boot hw_zero 0 []).2.2 true).1 rfl |>.1,
   (((C20_power_cpu hdr_sample sysc_cpu hw_zero 0 []).2.2 true).2
      (slot_set (fun _ => none) 5 pd_cpu_sample) rfl).1 5 pd_cpu_sample (by decide)
      (by decide) (by decide) rfl (by
        intro j hj pj hpj
        have hne : j ≠ 5 := by omega
        simp [slot_set, hne] at hpj),
   ((((C20_power_cpu hdr_sample sysc_cpu hw_zero 1 []).2.2 false).2
      (slot_set (fun _ => none) 5 pd_cpu_sample) rfl).2 (by
        intro j _ pj hpj
        by_cases h5 : j = 5
        · subst h5
          have : pj = pd_cpu_sample := by
            simp [slot_set] at hpj
            exact hpj.symm
          subst this
          exact Or.inr (by decide)
        · simp [slot_set, h5] at hpj)).1⟩

/-! ## Bounds on the number of accesses of one run -/

theorem countP_snoc_le (p : Event → Bool) (tr : Trace) (e : Event) (c : Nat)
    (h : p e = true → 1 ≤ c) : List.countP p (tr ++ [e]) ≤ List.countP p tr + c := by
  rw [List.countP_append, List.countP_singleton]
  cases hp : p e
  · simp
  · have := h hp
    simp
    omega

theorem countP_le_of_grows (p : Event → Bool) {tr t : Trace} (h : tr <+: t) :
    List.countP p tr ≤ List.countP p t :=
  h.sublist.countP_le p

theorem syscsr_wait_adds (hw : Hw) (sr_bit : Nat) (p : Event → Bool) (c : Nat)
    (hd : ∀ us, p (Event.delay us) = false)
    (hc : ∀ v, p (Event.read (Reg.sysc SYSCSR) v) = true → 1 ≤ c) :
    ∀ n tr, List.countP p (syscsr_wait hw sr_bit n tr).2 ≤ List.countP p tr + n * c := by
  intro n
  induction n with
  | zero => intro tr; simp [syscsr_wait]
  | succ n ih =>
    intro tr
    have h1 := countP_snoc_le p tr (Event.read (Reg.sysc SYSCSR) (u32 (hw tr (Reg.sysc SYSCSR))))
      c (hc _)
    simp only [syscsr_wait]
    split
    · simp only [ioread32]
      nlinarith
    · refine (ih _).trans ?_
      simp only [udelay, ioread32]
      rw [List.countP_append _ _ [Event.delay SYSCSR_DELAY_US], List.countP_singleton, hd]
      simp only [Bool.false_eq_true, if_false, Nat.add_zero]
      nlinarith

theorem pwr_on_off_adds (hw : Hw) (pd : rcar_sysc_pd) (on_ : Bool) (p : Event → Bool)
    (c w : Nat) (hd : ∀ us, p (Event.delay us) = false)
    (hc : ∀ v, p (Event.read (Reg.sysc SYSCSR) v) = true → 1 ≤ c)
    (hw_ : ∀ v, p (Event.write (ctrl_reg pd on_) v) = true → 1 ≤ w) (tr : Trace) :
    List.countP p (rcar_sysc_pwr_on_off hw pd on_ tr).2 ≤
      List.countP p tr + (1000 * c + w) := by
  have h1 := syscsr_wait_adds hw (if on_ then SYSCSR_PONENB else SYSCSR_POFFENB) p c hd hc
    SYSCSR_RETRIES tr
  have h1000 : SYSCSR_RETRIES = 1000 := rfl
  rw [h1000] at h1
  have key : (rcar_sysc_pwr_on_off hw pd on_ tr).2 =
      if (syscsr_wait hw (if on_ then SYSCSR_PONENB else SYSCSR_POFFENB) 1000 tr).1 = false
      then (syscsr_wait hw (if on_ then SYSCSR_PONENB else SYSCSR_POFFENB) 1000 tr).2
      else (if on_ = false ∧ (pd.name = "a3vp" ∨ pd.name = "a3ir" ∨ pd.name = "a3vc")
        then (syscsr_wait hw (if on_ then SYSCSR_PONENB else SYSCSR_POFFENB) 1000 tr).2 ++
          [Event.delay 1]
        else (syscsr_wait hw (if on_ then SYSCSR_PONENB else SYSCSR_POFFENB) 1000 tr).2) ++
        [Event.write (ctrl_reg pd on_) (u32 (BIT pd.ch.chan_bit))] := by
    unfold rcar_sysc_pwr_on_off
    simp only [SYSCSR_RETRIES, iowrite32, udelay, ctrl_reg]
    split_ifs <;> rfl
  rw [key]
  by_cases hb : (syscsr_wait hw (if on_ then SYSCSR_PONENB else SYSCSR_POFFENB) 1000 tr).1 = false
  · rw [if_pos hb]
    omega
  · rw [if_neg hb]
    refine (countP_snoc_le p _ _ w (hw_ _)).trans ?_
    by_cases hn : on_ = false ∧ (pd.name = "a3vp" ∨ pd.name = "a3ir" ∨ pd.name = "a3vc")
    · rw [if_pos hn, List.countP_append, List.countP_singleton, hd]
      simp only [Bool.false_eq_true, if_false, Nat.add_zero]
      omega
    · rw [if_neg hn]
      omega

theorem pwrer_loop_adds (hw : Hw) (pd : rcar_sysc_pd) (on_ : Bool) (cm : Nat)
    (p : Event → Bool) (c w e : Nat) (hd : ∀ us, p (Event.delay us) = false)
    (hc : ∀ v, p (Event.read (Reg.sysc SYSCSR) v) = true → 1 ≤ c)
    (hw_ : ∀ v, p (Event.write (ctrl_reg pd on_) v) = true → 1 ≤ w)
    (he : ∀ v, p (Event.read (Reg.chan pd.ch.chan_offs PWRER_OFFS) v) = true → 1 ≤ e) :
    ∀ n tr, List.countP p (pwrer_loop hw pd on_ cm n tr).2 ≤
      List.countP p tr + n * (1000 * c + w + e) := by
  intro n
  induction n with
  | zero => intro tr; simp [pwrer_loop]
  | succ n ih =>
    intro tr
    have h1 := pwr_on_off_adds hw pd on_ p c w hd hc hw_ tr
    have h2 := countP_snoc_le p (rcar_sysc_pwr_on_off hw pd on_ tr).2
      (Event.read (Reg.chan pd.ch.chan_offs PWRER_OFFS)
        (u32 (hw (rcar_sysc_pwr_on_off hw pd on_ tr).2 (Reg.chan pd.ch.chan_offs PWRER_OFFS))))
      e (he _)
    simp only [pwrer_loop]
    split_ifs
    · nlinarith
    · simp only [ioread32]
      nlinarith
    · refine (ih _).trans ?_
      simp only [udelay, ioread32]
      rw [List.countP_append _ _ [Event.delay PWRER_DELAY_US], List.countP_singleton, hd]
      simp only [Bool.false_eq_true, if_false, Nat.add_zero]
      nlinarith

theorem syscisr_wait_adds (hw : Hw) (isr_mask : Nat) (p : Event → Bool) (i : Nat)
    (hd : ∀ us, p (Event.delay us) = false)
    (hi : ∀ v, p (Event.read (Reg.sysc SYSCISR) v) = true → 1 ≤ i) :
    ∀ n tr, List.countP p (syscisr_wait hw isr_mask n tr).2 ≤ List.countP p tr + n * i := by
  intro n
  induction n with
  | zero => intro tr; simp [syscisr_wait]
  | succ n ih =>
    intro tr
    have h1 := countP_snoc_le p tr
      (Event.read (Reg.sysc SYSCISR) (u32 (hw tr (Reg.sysc SYSCISR)))) i (hi _)
    simp only [syscisr_wait]
    split
    · simp only [ioread32]
      nlinarith
    · refine (ih _).trans ?_
      simp only [udelay, ioread32]
      rw [List.countP_append _ _ [Event.delay SYSCISR_DELAY_US], List.countP_singleton, hd]
      simp only [Bool.false_eq_true, if_false, Nat.add_zero]
      nlinarith

theorem request_adds (hw : Hw) (pd : rcar_sysc_pd) (on_ : Bool)
    (p : Event → Bool) (c w e i s : Nat) (hd : ∀ us, p (Event.delay us) = false)
    (hc : ∀ v, p (Event.read (Reg.sysc SYSCSR) v) = true → 1 ≤ c)
    (hw_ : ∀ v, p (Event.write (ctrl_reg pd on_) v) = true → 1 ≤ w)
    (he : ∀ v, p (Event.read (Reg.chan pd.ch.chan_offs PWRER_OFFS) v) = true → 1 ≤ e)
    (hi : ∀ v, p (Event.read (Reg.sysc SYSCISR) v) = true → 1 ≤ i)
    (hs : ∀ v, p (Event.write (Reg.sysc SYSCISCR) v) = true → 1 ≤ s) (tr : Trace) :
    List.countP p (rcar_sysc_power_request hw pd on_ tr).2 ≤
      List.countP p tr + (1000 * (1000 * c + w + e) + 1000 * i + s) := by
  have h1 := pwrer_loop_adds hw pd on_ (u32 (BIT pd.ch.chan_bit)) p c w e hd hc hw_ he
    PWRER_RETRIES tr
  have h2 := syscisr_wait_adds hw (u32 (BIT pd.ch.isr_bit)) p i hd hi SYSCISR_RETRIES
    (pwrer_loop hw pd on_ (u32 (BIT pd.ch.chan_bit)) PWRER_RETRIES tr).2
  have e1 : PWRER_RETRIES = 1000 := rfl
  have e2 : SYSCISR_RETRIES = 1000 := rfl
  rw [e1] at h1 h2
  rw [e2] at h2
  unfold rcar_sysc_power_request
  simp only [e1, e2]
  split
  · dsimp only
    omega
  · dsimp only
    omega
  · simp only [iowrite32]
    refine (countP_snoc_le p _ _ s (hs _)).trans ?_
    omega

/-- A counter that ignores the events of the head and the tail of
`rcar_sysc_power` grows by at most the budget of the two loops. -/
theorem power_adds (g : Sysc) (hw : Hw) (pd : rcar_sysc_pd) (on_ : Bool)
    (p : Event → Bool) (c w e i : Nat) (hf : ∀ ev, ev.inFrame = true → p ev = false)
    (hd : ∀ us, p (Event.delay us) = false)
    (hc : ∀ v, p (Event.read (Reg.sysc SYSCSR) v) = true → 1 ≤ c)
    (hw_ : ∀ v, p (Event.write (ctrl_reg pd on_) v) = true → 1 ≤ w)
    (he : ∀ v, p (Event.read (Reg.chan pd.ch.chan_offs PWRER_OFFS) v) = true → 1 ≤ e)
    (hi : ∀ v, p (Event.read (Reg.sysc SYSCISR) v) = true → 1 ≤ i) (tr : Trace) :
    List.countP p (rcar_sysc_power g hw pd on_ tr).2 ≤
      List.countP p tr + (1000 * (1000 * c + w + e) + 1000 * i) := by
  have harm : List.countP p (rcar_sysc_power_arm g hw pd tr) = List.countP p tr := by
    unfold rcar_sysc_power_arm
    simp only [iowrite32, ioread32]
    split_ifs <;>
      simp [List.countP_append, List.countP_cons, hf, Event.inFrame]
  have hreq := request_adds hw pd on_ p c w e i 0 hd hc hw_ he hi
    (fun v h => by rw [hf _ (by simp [Event.inFrame])] at h; cases h)
    (rcar_sysc_power_arm g hw pd tr)
  rw [harm] at hreq
  unfold rcar_sysc_power rcar_sysc_power_out
  simp only [iowrite32]
  split_ifs <;>
    simp [List.countP_append, List.countP_cons, hf, Event.inFrame] <;>
    omega

/-! ## The erratum delay of the submission -/

theorem pwr_on_off_eq (hw : Hw) (pd : rcar_sysc_pd) (on_ : Bool) (tr : Trace) :
    rcar_sysc_pwr_on_off hw pd on_ tr =
      if (syscsr_wait hw (if on_ then 1 else 0) 1000 tr).1 = false
      then (-EAGAIN, (syscsr_wait hw (if on_ then 1 else 0) 1000 tr).2)
      else (0, (syscsr_wait hw (if on_ then 1 else 0) 1000 tr).2 ++
        (if on_ = false ∧ (pd.name = "a3vp" ∨ pd.name = "a3ir" ∨ pd.name = "a3vc")
         then [Event.delay 1] else []) ++
        [Event.write (Reg.chan pd.ch.chan_offs (if on_ then 0x0c else 0x04))
          (u32 (BIT pd.ch.chan_bit))]) := by
  unfold rcar_sysc_pwr_on_off
  simp only [SYSCSR_RETRIES, SYSCSR_PONENB, SYSCSR_POFFENB, PWRONCR_OFFS, PWROFFCR_OFFS,
    iowrite32, udelay]
  split_ifs <;> simp

theorem syscsr_wait_delays1 (hw : Hw) (sr_bit : Nat) (n : Nat) (tr : Trace) :
    delaysOf 1 (syscsr_wait hw sr_bit n tr).2 = delaysOf 1 tr := by
  have h := syscsr_wait_ext_gen hw sr_bit
    (fun e => !(Event.isDelayOf 1 e)) (fun _ => rfl) (by decide) n tr
  exact h.countP_eq (Event.isDelayOf 1) (by
    intro e he
    cases hb : Event.isDelayOf 1 e
    · rfl
    · simp [hb] at he)

/-! ## The head of the handshake -/

theorem u32_u32 (x : Nat) : u32 (u32 x) = u32 x := by
  unfold u32
  exact Nat.mod_mod _ _

theorem u32_or (a b : Nat) : u32 (u32 a ||| u32 b) = u32 a ||| u32 b := by
  unfold u32
  exact Nat.mod_eq_of_lt (Nat.or_lt_two_pow (Nat.mod_lt _ (by norm_num))
    (Nat.mod_lt _ (by norm_num)))

theorem u32_BIT_testBit (b i : Nat) :
    (u32 (BIT b)).testBit i = (decide (i = b) && decide (b < 32)) := by
  unfold u32 BIT
  rw [Nat.testBit_mod_two_pow, Nat.one_shiftLeft, Nat.testBit_two_pow]
  by_cases h : b = i
  · subst h
    simp
  · have h2 : ¬ i = b := fun k => h k.symm
    simp [h, h2]

/-- The events of the head of `rcar_sysc_power`. -/
theorem arm_eq (g : Sysc) (hw : Hw) (pd : rcar_sysc_pd) (tr : Trace) :
    rcar_sysc_power_arm g hw pd tr =
      (tr ++ Event.lock ::
        (if g.rcar_sysc_extmask_val ≠ 0
         then [Event.write (Reg.extmask g.rcar_sysc_extmask_offs)
           (u32 g.rcar_sysc_extmask_val)]
         else [])) ++
      [Event.read (Reg.sysc SYSCIMR)
         (u32 (hw (tr ++ Event.lock ::
           (if g.rcar_sysc_extmask_val ≠ 0
            then [Event.write (Reg.extmask g.rcar_sysc_extmask_offs)
              (u32 g.rcar_sysc_extmask_val)]
            else [])) (Reg.sysc SYSCIMR))),
       Event.write (Reg.sysc SYSCIMR)
         (u32 (hw (tr ++ Event.lock ::
           (if g.rcar_sysc_extmask_val ≠ 0
            then [Event.write (Reg.extmask g.rcar_sysc_extmask_offs)
              (u32 g.rcar_sysc_extmask_val)]
            else [])) (Reg.sysc SYSCIMR)) ||| u32 (BIT pd.ch.isr_bit)),
       Event.read (Reg.sysc SYSCIER)
         (u32 (hw ((tr ++ Event.lock ::
           (if g.rcar_sysc_extmask_val ≠ 0
            then [Event.write (Reg.extmask g.rcar_sysc_extmask_offs)
              (u32 g.rcar_sysc_extmask_val)]
            else [])) ++
           [Event.read (Reg.sysc SYSCIMR)
             (u32 (hw (tr ++ Event.lock ::
               (if g.rcar_sysc_extmask_val ≠ 0
                then [Event.write (Reg.extmask g.rcar_sysc_extmask_offs)
                  (u32 g.rcar_sysc_extmask_val)]
                else [])) (Reg.sysc SYSCIMR))),
            Event.write (Reg.sysc SYSCIMR)
             (u32 (hw (tr ++ Event.lock ::
               (if g.rcar_sysc_extmask_val ≠ 0
                then [Event.write (Reg.extmask g.rcar_sysc_extmask_offs)
                  (u32 g.rcar_sysc_extmask_val)]
                else [])) (Reg.sysc SYSCIMR)) ||| u32 (BIT pd.ch.isr_bit))])
           (Reg.sysc SYSCIER))),
       Event.write (Reg.sysc SYSCIER)
         (u32 (hw ((tr ++ Event.lock ::
           (if g.rcar_sysc_extmask_val ≠ 0
            then [Event.write (Reg.extmask g.rcar_sysc_extmask_offs)
              (u32 g.rcar_sysc_extmask_val)]
            else [])) ++
           [Event.read (Reg.sysc SYSCIMR)
             (u32 (hw (tr ++ Event.lock ::
               (if g.rcar_sysc_extmask_val ≠ 0
                then [Event.write (Reg.extmask g.rcar_sysc_extmask_offs)
                  (u32 g.rcar_sysc_extmask_val)]
                else [])) (Reg.sysc SYSCIMR))),
            Event.write (Reg.sysc SYSCIMR)
             (u32 (hw (tr ++ Event.lock ::
               (if g.rcar_sysc_extmask_val ≠ 0
                then [Event.write (Reg.extmask g.rcar_sysc_extmask_offs)
                  (u32 g.rcar_sysc_extmask_val)]
                else [])) (Reg.sysc SYSCIMR)) ||| u32 (BIT pd.ch.isr_bit))])
           (Reg.sysc SYSCIER)) ||| u32 (BIT pd.ch.isr_bit)),
       Event.write (Reg.sysc SYSCISCR) (u32 (BIT pd.ch.isr_bit))] := by
  unfold rcar_sysc_power_arm
  simp only [iowrite32, ioread32, u32_or, u32_u32]
  split_ifs <;> simp


theorem power_after_arm (g : Sysc) (hw : Hw) (pd : rcar_sysc_pd) (on_ : Bool) (tr : Trace) :
    ∃ rest, (rcar_sysc_power g hw pd on_ tr).2 = rcar_sysc_power_arm g hw pd tr ++ rest := by
  obtain ⟨t, ht⟩ := (request_grows hw pd on_ (rcar_sysc_power_arm g hw pd tr)).trans
    (out_grows g _)
  exact ⟨t, ht.symm⟩

/-- One run of `rcar_sysc_power` writes SYSCIMR once and SYSCIER once. -/
theorem power_sysc_writes (g : Sysc) (hw : Hw) (pd : rcar_sysc_pd) (on_ : Bool) (tr : Trace)
    (o : Nat) (ho : o = SYSCIMR ∨ o = SYSCIER) :
    writesTo (Reg.sysc o) (rcar_sysc_power g hw pd on_ tr).2 =
      writesTo (Reg.sysc o) tr + 1 := by
  have harm : writesTo (Reg.sysc o) (rcar_sysc_power_arm g hw pd tr) =
      writesTo (Reg.sysc o) tr + 1 := by
    unfold rcar_sysc_power_arm
    simp only [iowrite32, ioread32]
    rcases ho with rfl | rfl <;> split_ifs <;>
      simp [writesTo, List.countP_append, List.countP_cons, Event.isWriteTo, SYSCIMR,
        SYSCIER, SYSCISCR]
  have hle := request_adds hw pd on_ (Event.isWriteTo (Reg.sysc o)) 0 0 0 0 0
    (fun _ => rfl) (fun _ h => by cases h)
    (fun _ h => by simp [Event.isWriteTo, ctrl_reg] at h) (fun _ h => by cases h)
    (fun _ h => by cases h)
    (fun _ h => by
      rcases ho with rfl | rfl <;> simp [Event.isWriteTo, SYSCISCR, SYSCIMR, SYSCIER] at h)
    (rcar_sysc_power_arm g hw pd tr)
  have hge := countP_le_of_grows (Event.isWriteTo (Reg.sysc o))
    (request_grows hw pd on_ (rcar_sysc_power_arm g hw pd tr))
  have hreq : writesTo (Reg.sysc o)
      (rcar_sysc_power_request hw pd on_ (rcar_sysc_power_arm g hw pd tr)).2 =
      writesTo (Reg.sysc o) tr + 1 := by
    unfold writesTo at harm ⊢
    omega
  unfold rcar_sysc_power rcar_sysc_power_out
  simp only [iowrite32]
  unfold writesTo at hreq ⊢
  split_ifs <;>
    simp [List.countP_append, List.countP_cons, Event.isWriteTo, hreq]

/-! ## Lock discipline -/

theorem accesses_outside_held (l l2 : Trace) (h : ∀ e ∈ l, e.isUnlock = false) :
    accesses_outside true (l ++ l2) = accesses_outside true l2 := by
  induction l with
  | nil => rfl
  | cons e t ih =>
    have ht : ∀ e ∈ t, e.isUnlock = false := fun e he => h e (List.mem_cons_of_mem _ he)
    have he := h e (List.mem_cons_self _ _)
    cases e with
    | read r v => simp [accesses_outside, ih ht]
    | write r v => simp [accesses_outside, ih ht]
    | delay us => simp [accesses_outside, ih ht]
    | lock => simp [accesses_outside, ih ht]
    | unlock => cases he

/-- One run of `rcar_sysc_power` appends a lock, events that are neither a
lock nor an unlock, and an unlock. -/
theorem power_lock_shape (g : Sysc) (hw : Hw) (pd : rcar_sysc_pd) (on_ : Bool) (tr : Trace) :
    ∃ mid, (rcar_sysc_power g hw pd on_ tr).2 = tr ++ Event.lock :: (mid ++ [Event.unlock]) ∧
      ∀ e ∈ mid, e.isLock = false ∧ e.isUnlock = false := by
  have harm : Extends (fun e => !e.isLock && !e.isUnlock) (tr ++ [Event.lock])
      (rcar_sysc_power_arm g hw pd tr) := by
    unfold rcar_sysc_power_arm
    simp only
    split_ifs
    all_goals
      repeat (first
        | exact Extends.rfl_ _ _
        | refine ext_write _ _ (fun _ => rfl) ?_
        | refine ext_read hw _ (fun _ => rfl) ?_)
  have hreq := @Extends.mono_ _ (fun e => !e.isLock && !e.isUnlock) _ _
    (request_ext hw pd on_ (rcar_sysc_power_arm g hw pd tr)) (by
      intro e he
      cases e <;> simp_all [Event.inRequest, Event.isLock, Event.isUnlock])
  have hbody : Extends (fun e => !e.isLock && !e.isUnlock) (tr ++ [Event.lock])
      (if g.rcar_sysc_extmask_val ≠ 0
       then iowrite32 0 (Reg.extmask g.rcar_sysc_extmask_offs)
         (rcar_sysc_power_request hw pd on_ (rcar_sysc_power_arm g hw pd tr)).2
       else (rcar_sysc_power_request hw pd on_ (rcar_sysc_power_arm g hw pd tr)).2) := by
    split_ifs
    · exact ext_write _ _ (fun _ => rfl) (harm.trans_ hreq)
    · exact harm.trans_ hreq
  obtain ⟨mid, hmid, hq⟩ := hbody
  refine ⟨mid, ?_, ?_⟩
  · have : (rcar_sysc_power g hw pd on_ tr).2 =
        (if g.rcar_sysc_extmask_val ≠ 0
         then iowrite32 0 (Reg.extmask g.rcar_sysc_extmask_offs)
           (rcar_sysc_power_request hw pd on_ (rcar_sysc_power_arm g hw pd tr)).2
         else (rcar_sysc_power_request hw pd on_ (rcar_sysc_power_arm g hw pd tr)).2) ++
        [Event.unlock] := rfl
    rw [this, hmid]
    simp
  · intro e he
    have := hq e he
    simp at this
    exact this

theorem power_outside (g : Sysc) (hw : Hw) (pd : rcar_sysc_pd) (on_ : Bool) (tr : Trace) :
    accesses_outside false ((rcar_sysc_power g hw pd on_ tr).2.drop tr.length) = 0 := by
  obtain ⟨mid, h, hq⟩ := power_lock_shape g hw pd on_ tr
  rw [h, List.drop_left]
  show accesses_outside true (mid ++ [Event.unlock]) = 0
  rw [accesses_outside_held mid _ (fun e he => (hq e he).2)]
  rfl

theorem pd_power_on_query_first (g : Sysc) (hw : Hw) (pd : rcar_sysc_pd) (tr : Trace) :
    ∃ rest, (rcar_sysc_pd_power_on g hw pd tr).2 =
      tr ++ Event.read (Reg.chan pd.ch.chan_offs PWRSR_OFFS)
        (u32 (hw tr (Reg.chan pd.ch.chan_offs PWRSR_OFFS))) :: rest := by
  have h : (tr ++ [Event.read (Reg.chan pd.ch.chan_offs PWRSR_OFFS)
      (u32 (hw tr (Reg.chan pd.ch.chan_offs PWRSR_OFFS)))]) <+:
      (rcar_sysc_pd_power_on g hw pd tr).2 := by
    unfold rcar_sysc_pd_power_on
    simp only [power_is_off_eq]
    split_ifs
    · exact List.prefix_rfl
    · obtain ⟨evs, h, _⟩ := power_ext g hw pd true (rcar_sysc_a3ir_clk_ctrl hw true
        (tr ++ [Event.read (Reg.chan pd.ch.chan_offs PWRSR_OFFS)
          (u32 (hw tr (Reg.chan pd.ch.chan_offs PWRSR_OFFS)))])).2
      rw [h]
      exact (a3ir_clk_ctrl_grows hw true _).trans (List.prefix_append _ _)
    · obtain ⟨evs, h, _⟩ := power_ext g hw pd true
        (tr ++ [Event.read (Reg.chan pd.ch.chan_offs PWRSR_OFFS)
          (u32 (hw tr (Reg.chan pd.ch.chan_offs PWRSR_OFFS)))])
      rw [h]
      exact List.prefix_append _ _
  obtain ⟨t, ht⟩ := h
  exact ⟨t, by rw [← ht]; simp⟩

theorem pd_power_off_query_first (g : Sysc) (hw : Hw) (pd : rcar_sysc_pd) (tr : Trace) :
    ∃ rest, (rcar_sysc_pd_power_off g hw pd tr).2 =
      tr ++ Event.read (Reg.chan pd.ch.chan_offs PWRSR_OFFS)
        (u32 (hw tr (Reg.chan pd.ch.chan_offs PWRSR_OFFS))) :: rest := by
  have h : (tr ++ [Event.read (Reg.chan pd.ch.chan_offs PWRSR_OFFS)
      (u32 (hw tr (Reg.chan pd.ch.chan_offs PWRSR_OFFS)))]) <+:
      (rcar_sysc_pd_power_off g hw pd tr).2 := by
    unfold rcar_sysc_pd_power_off
    simp only [power_is_off_eq]
    split_ifs
    · exact List.prefix_rfl
    · obtain ⟨evs, h, _⟩ := power_ext g hw pd false (rcar_sysc_a3ir_clk_ctrl hw false
        (tr ++ [Event.read (Reg.chan pd.ch.chan_offs PWRSR_OFFS)
          (u32 (hw tr (Reg.chan pd.ch.chan_offs PWRSR_OFFS)))])).2
      rw [h]
      exact (a3ir_clk_ctrl_grows hw false _).trans (List.prefix_append _ _)
    · obtain ⟨evs, h, _⟩ := power_ext g hw pd false
        (tr ++ [Event.read (Reg.chan pd.ch.chan_offs PWRSR_OFFS)
          (u32 (hw tr (Reg.chan pd.ch.chan_offs PWRSR_OFFS)))])
      rw [h]
      exact List.prefix_append _ _
  obtain ⟨t, ht⟩ := h
  exact ⟨t, by rw [← ht]; simp⟩

theorem a3ir_clk_wait_first (hw : Hw) (clk_en : Bool) (fuel timeout : Nat) (tr : Trace) :
    (ioread32 hw (Reg.phys MSTPSR8_ADDR) (ioread32 hw (Reg.phys MSTPSR5_ADDR) tr).2).2 <+:
      (a3ir_clk_wait hw clk_en (fuel + 1) timeout tr).2 := by
  rw [a3ir_clk_wait]
  simp only
  split_ifs
  all_goals
    first
      | exact List.prefix_rfl
      | exact prefix_delay _ List.prefix_rfl
      | exact (prefix_delay _ List.prefix_rfl).trans (a3ir_clk_wait_grows hw clk_en _ _ _)

/-- The clock-gate control starts with six register accesses. -/
theorem a3ir_clk_ctrl_first (hw : Hw) (clk_en : Bool) (tr : Trace) :
    ∃ v1 v2 v3 v4 v5 v6 rest, (rcar_sysc_a3ir_clk_ctrl hw clk_en tr).2 =
      tr ++ Event.read (Reg.phys SMSTPCR5_ADDR) v1 :: Event.write (Reg.phys SMSTPCR5_ADDR) v2 ::
        Event.read (Reg.phys SMSTPCR8_ADDR) v3 :: Event.write (Reg.phys SMSTPCR8_ADDR) v4 ::
        Event.read (Reg.phys MSTPSR5_ADDR) v5 :: Event.read (Reg.phys MSTPSR8_ADDR) v6 ::
        rest := by
  have key : ∃ t, (rcar_sysc_a3ir_clk_ctrl hw clk_en tr).2 =
      (a3ir_clk_wait hw clk_en 102 0 t).2 ∧
      ∃ v1 v2 v3 v4, t = tr ++ [Event.read (Reg.phys SMSTPCR5_ADDR) v1,
        Event.write (Reg.phys SMSTPCR5_ADDR) v2, Event.read (Reg.phys SMSTPCR8_ADDR) v3,
        Event.write (Reg.phys SMSTPCR8_ADDR) v4] := by
    unfold rcar_sysc_a3ir_clk_ctrl
    simp only [iowrite32, ioread32]
    split_ifs
    all_goals
      refine ⟨_, rfl, ?_⟩
      simp only [List.append_assoc, List.cons_append, List.nil_append]
      exact ⟨_, _, _, _, rfl⟩
  obtain ⟨t, h1, v1, v2, v3, v4, ht⟩ := key
  obtain ⟨rest, hrest⟩ := a3ir_clk_wait_first hw clk_en 101 0 t
  rw [h1, ← hrest, ht]
  simp only [ioread32, List.append_assoc, List.cons_append, List.nil_append]
  exact ⟨_, _, _, _, _, _, _, rfl⟩

theorem a3ir_clk_ctrl_outside (hw : Hw) (clk_en : Bool) (tr : Trace) :
    6 ≤ accesses_outside false ((rcar_sysc_a3ir_clk_ctrl hw clk_en tr).2.drop tr.length) ∧
    locks (rcar_sysc_a3ir_clk_ctrl hw clk_en tr).2 = locks tr := by
  constructor
  · obtain ⟨v1, v2, v3, v4, v5, v6, rest, h⟩ := a3ir_clk_ctrl_first hw clk_en tr
    rw [h, List.drop_left]
    simp only [accesses_outside]
    simp
    omega
  · exact (a3ir_clk_ctrl_ext hw clk_en tr).countP_eq Event.isLock (by
      intro e he
      cases e <;> simp_all [Event.inClkCtrl, Event.isLock])

/-! ## The callbacks and the registers of another domain -/

theorem ioread32_agree {o : Nat} {hw1 hw2 : Hw} (h : AgreeOutside o hw1 hw2) (r : Reg)
    (hr : ∀ b, r ≠ Reg.chan o b) (tr : Trace) : ioread32 hw1 r tr = ioread32 hw2 r tr := by
  unfold ioread32
  rw [h tr r hr]

theorem syscsr_wait_agree {o : Nat} {hw1 hw2 : Hw} (h : AgreeOutside o hw1 hw2)
    (sr_bit : Nat) : ∀ n tr, syscsr_wait hw1 sr_bit n tr = syscsr_wait hw2 sr_bit n tr := by
  intro n
  induction n with
  | zero => intro tr; rfl
  | succ n ih =>
    intro tr
    simp only [syscsr_wait, ioread32_agree h (Reg.sysc SYSCSR) (fun _ => by simp), ih]

theorem syscisr_wait_agree {o : Nat} {hw1 hw2 : Hw} (h : AgreeOutside o hw1 hw2)
    (m : Nat) : ∀ n tr, syscisr_wait hw1 m n tr = syscisr_wait hw2 m n tr := by
  intro n
  induction n with
  | zero => intro tr; rfl
  | succ n ih =>
    intro tr
    simp only [syscisr_wait, ioread32_agree h (Reg.sysc SYSCISR) (fun _ => by simp), ih]

theorem pwr_on_off_agree {o : Nat} {hw1 hw2 : Hw} (h : AgreeOutside o hw1 hw2)
    (pd : rcar_sysc_pd) (on_ : Bool) (tr : Trace) :
    rcar_sysc_pwr_on_off hw1 pd on_ tr = rcar_sysc_pwr_on_off hw2 pd on_ tr := by
  unfold rcar_sysc_pwr_on_off
  simp only [syscsr_wait_agree h]

theorem pwrer_loop_agree {o : Nat} {hw1 hw2 : Hw} (h : AgreeOutside o hw1 hw2)
    (pd : rcar_sysc_pd) (hne : pd.ch.chan_offs ≠ o) (on_ : Bool) (cm : Nat) :
    ∀ n tr, pwrer_loop hw1 pd on_ cm n tr = pwrer_loop hw2 pd on_ cm n tr := by
  intro n
  induction n with
  | zero => intro tr; rfl
  | succ n ih =>
    intro tr
    simp only [pwrer_loop, pwr_on_off_agree h,
      ioread32_agree h (Reg.chan pd.ch.chan_offs PWRER_OFFS) (fun _ => by simp [hne]), ih]

theorem request_agree {o : Nat} {hw1 hw2 : Hw} (h : AgreeOutside o hw1 hw2)
    (pd : rcar_sysc_pd) (hne : pd.ch.chan_offs ≠ o) (on_ : Bool) (tr : Trace) :
    rcar_sysc_power_request hw1 pd on_ tr = rcar_sysc_power_request hw2 pd on_ tr := by
  unfold rcar_sysc_power_request
  simp only [pwrer_loop_agree h pd hne, syscisr_wait_agree h]

theorem arm_agree {o : Nat} {hw1 hw2 : Hw} (h : AgreeOutside o hw1 hw2) (g : Sysc)
    (pd : rcar_sysc_pd) (tr : Trace) :
    rcar_sysc_power_arm g hw1 pd tr = rcar_sysc_power_arm g hw2 pd tr := by
  unfold rcar_sysc_power_arm
  simp only [ioread32_agree h (Reg.sysc SYSCIMR) (fun _ => by simp),
    ioread32_agree h (Reg.sysc SYSCIER) (fun _ => by simp)]

theorem power_agree {o : Nat} {hw1 hw2 : Hw} (h : AgreeOutside o hw1 hw2) (g : Sysc)
    (pd : rcar_sysc_pd) (hne : pd.ch.chan_offs ≠ o) (on_ : Bool) (tr : Trace) :
    rcar_sysc_power g hw1 pd on_ tr = rcar_sysc_power g hw2 pd on_ tr := by
  unfold rcar_sysc_power
  simp only [arm_agree h, request_agree h pd hne]

theorem a3ir_clk_wait_agree {o : Nat} {hw1 hw2 : Hw} (h : AgreeOutside o hw1 hw2)
    (clk_en : Bool) : ∀ fuel timeout tr,
      a3ir_clk_wait hw1 clk_en fuel timeout tr = a3ir_clk_wait hw2 clk_en fuel timeout tr := by
  intro fuel
  induction fuel with
  | zero => intro timeout tr; rfl
  | succ n ih =>
    intro timeout tr
    rw [a3ir_clk_wait, a3ir_clk_wait]
    simp only [ioread32_agree h (Reg.phys MSTPSR5_ADDR) (fun _ => by simp),
      ioread32_agree h (Reg.phys MSTPSR8_ADDR) (fun _ => by simp), ih]

theorem a3ir_clk_ctrl_agree {o : Nat} {hw1 hw2 : Hw} (h : AgreeOutside o hw1 hw2)
    (clk_en : Bool) (tr : Trace) :
    rcar_sysc_a3ir_clk_ctrl hw1 clk_en tr = rcar_sysc_a3ir_clk_ctrl hw2 clk_en tr := by
  unfold rcar_sysc_a3ir_clk_ctrl
  simp only [ioread32_agree h (Reg.phys SMSTPCR5_ADDR) (fun _ => by simp),
    ioread32_agree h (Reg.phys SMSTPCR8_ADDR) (fun _ => by simp), a3ir_clk_wait_agree h]

/-- The outcome and the accesses of the power-on callback of a domain do not
depend on what the registers of another domain's block read. -/
theorem pd_power_on_agree {o : Nat} {hw1 hw2 : Hw} (h : AgreeOutside o hw1 hw2) (g : Sysc)
    (pd : rcar_sysc_pd) (hne : pd.ch.chan_offs ≠ o) (tr : Trace) :
    rcar_sysc_pd_power_on g hw1 pd tr = rcar_sysc_pd_power_on g hw2 pd tr := by
  unfold rcar_sysc_pd_power_on rcar_sysc_power_is_off
  simp only [ioread32_agree h (Reg.chan pd.ch.chan_offs PWRSR_OFFS) (fun _ => by simp [hne]),
    a3ir_clk_ctrl_agree h, power_agree h g pd hne]

/-- When the domain reads off, the power-on callback arms the interrupt of the
domain: it writes SYSCIMR and SYSCIER once each. -/
theorem pd_power_on_arms (g : Sysc) (hw : Hw) (pd : rcar_sysc_pd) (tr : Trace)
    (hoff : reads_bit hw tr (Reg.chan pd.ch.chan_offs PWRSR_OFFS) pd.ch.chan_bit = true)
    (o : Nat) (ho : o = SYSCIMR ∨ o = SYSCIER) :
    writesTo (Reg.sysc o) (rcar_sysc_pd_power_on g hw pd tr).2 =
      writesTo (Reg.sysc o) tr + 1 := by
  by_cases hc : g.has_clk_crl = true ∧ pd.name = "a3ir"
  · rw [pd_power_on_a3ir g hw pd tr hc.1 hc.2 hoff, power_sysc_writes g hw pd true _ o ho]
    have h := (a3ir_clk_ctrl_ext hw true
      (tr ++ [Event.read (Reg.chan pd.ch.chan_offs PWRSR_OFFS)
        (u32 (hw tr (Reg.chan pd.ch.chan_offs PWRSR_OFFS)))])).countP_eq
      (Event.isWriteTo (Reg.sysc o)) (by
        intro e he
        cases e with
        | read r v => rfl
        | write r v => cases r <;> simp_all [Event.inClkCtrl, Event.isWriteTo]
        | delay us => rfl
        | lock => rfl
        | unlock => rfl)
    unfold writesTo
    rw [h]
    simp [List.countP_append, List.countP_cons, Event.isWriteTo]
  · rw [pd_power_on_plain g hw pd tr hc hoff, power_sysc_writes g hw pd true _ o ho]
    simp [writesTo, List.countP_append, List.countP_cons, Event.isWriteTo]

/-- The power-on callback of a domain reads no register of another domain's
block. -/
theorem pd_power_on_reads (g : Sysc) (hw : Hw) (pd : rcar_sysc_pd) (tr : Trace)
    (o b : Nat) (hne : pd.ch.chan_offs ≠ o) :
    readsOf (Reg.chan o b) (rcar_sysc_pd_power_on g hw pd tr).2 =
      readsOf (Reg.chan o b) tr := by
  have hpow : ∀ t, readsOf (Reg.chan o b) (rcar_sysc_power g hw pd true t).2 =
      readsOf (Reg.chan o b) t := by
    intro t
    have hle := power_adds g hw pd true (Event.isReadOf (Reg.chan o b)) 0 0 0 0
      (by intro ev hev; cases ev with
          | read r v => cases r <;> simp_all [Event.inFrame, Event.isReadOf]
          | write r v => rfl
          | delay us => rfl
          | lock => rfl
          | unlock => rfl)
      (fun _ => rfl) (fun _ h => by simp [Event.isReadOf] at h) (fun _ h => by cases h)
      (fun _ h => by simp [Event.isReadOf, hne] at h)
      (fun _ h => by simp [Event.isReadOf] at h) t
    obtain ⟨evs, hevs, _⟩ := power_ext g hw pd true t
    have hge := countP_le_of_grows (Event.isReadOf (Reg.chan o b))
      (show t <+: (rcar_sysc_power g hw pd true t).2 from ⟨evs, hevs.symm⟩)
    unfold readsOf
    omega
  have hq : readsOf (Reg.chan o b) (tr ++ [Event.read (Reg.chan pd.ch.chan_offs PWRSR_OFFS)
      (u32 (hw tr (Reg.chan pd.ch.chan_offs PWRSR_OFFS)))]) = readsOf (Reg.chan o b) tr := by
    simp [readsOf, List.countP_append, List.countP_cons, Event.isReadOf, hne]
  unfold rcar_sysc_pd_power_on
  simp only [power_is_off_eq]
  split_ifs
  · exact hq
  · rw [hpow]
    have h := (a3ir_clk_ctrl_ext hw true
      (tr ++ [Event.read (Reg.chan pd.ch.chan_offs PWRSR_OFFS)
        (u32 (hw tr (Reg.chan pd.ch.chan_offs PWRSR_OFFS)))])).countP_eq
      (Event.isReadOf (Reg.chan o b)) (by
        intro e he
        cases e with
        | read r v => cases r <;> simp_all [Event.inClkCtrl, Event.isReadOf]
        | write r v => rfl
        | delay us => rfl
        | lock => rfl
        | unlock => rfl)
    unfold readsOf at hq ⊢
    rw [h, hq]
  · rw [hpow, hq]

theorem hw_all_off_off (tr : Trace) (o n : Nat) (hn : n < 32) :
    reads_bit hw_all_off tr (Reg.chan o 0x00) n = true := by
  simp only [reads_bit, hw_all_off, u32]
  norm_num
  interval_cases n <;> decide

theorem hw_all_off_ready (tr : Trace) :
    reads_bit hw_all_off tr (Reg.sysc 0x00) 1 = true := by
  simp only [reads_bit, hw_all_off, u32]
  decide

set_option maxRecDepth 100000 in
theorem sysc_tree_slots :
    sysc_tree.rcar_domains 1 = some pd_tree_a ∧ sysc_tree.rcar_domains 2 = some pd_tree_b := by
  decide

set_option maxRecDepth 100000 in
theorem tree_power_on_run :
    rcar_sysc_pd_power_on sysc_tree hw_all_off pd_tree_b [] =
      (0, [Event.read (Reg.chan 0x100 0x00) 0xffffffff, Event.lock,
        Event.read (Reg.sysc 0x10) 0xffffffff, Event.write (Reg.sysc 0x10) 0xffffffff,
        Event.read (Reg.sysc 0x0c) 0xffffffff, Event.write (Reg.sysc 0x0c) 0xffffffff,
        Event.write (Reg.sysc 0x08) 4, Event.read (Reg.sysc 0x00) 0xffffffff,
        Event.write (Reg.chan 0x100 0x0c) 1, Event.read (Reg.chan 0x100 0x14) 0,
        Event.read (Reg.sysc 0x04) 0xffffffff, Event.write (Reg.sysc 0x08) 4,
        Event.unlock]) := by
  decide


theorem hw_parent_on_agree : AgreeOutside 0xc0 hw_all_off hw_parent_on := by
  intro tr r hr
  cases r with
  | sysc o => rfl
  | chan a b =>
    have ha : a ≠ 0xc0 := fun h => hr b (by rw [h])
    simp [hw_parent_on, ha]
  | extmask o => rfl
  | phys a => rfl

/-! ## The wait of the clock gate -/

theorem a3ir_clk_wait_step (hw : Hw) (clk_en : Bool) (fuel timeout : Nat) (tr : Trace) :
    a3ir_clk_wait hw clk_en (fuel + 1) timeout tr =
      if a3ir_clk_busy hw clk_en tr = true then
        (if timeout + 1 > 100
         then (timeout + 1, udelay 1 (a3ir_clk_poll hw tr))
         else a3ir_clk_wait hw clk_en fuel (timeout + 1) (udelay 1 (a3ir_clk_poll hw tr)))
      else (timeout, a3ir_clk_poll hw tr) := by
  rw [a3ir_clk_wait]
  simp only [a3ir_clk_busy, a3ir_clk_poll]

theorem delaysOf_poll (hw : Hw) (tr : Trace) :
    delaysOf 1 (a3ir_clk_poll hw tr) = delaysOf 1 tr := by
  simp [a3ir_clk_poll, ioread32, delaysOf, List.countP_append, List.countP_cons,
    Event.isDelayOf]

theorem delaysOf_step (hw : Hw) (tr : Trace) :
    delaysOf 1 (udelay 1 (a3ir_clk_poll hw tr)) = delaysOf 1 tr + 1 := by
  rw [← delaysOf_poll hw tr]
  simp [udelay, delaysOf, List.countP_append, List.countP_cons, Event.isDelayOf]

/-- The wait loop when the condition holds at every evaluation. -/
theorem a3ir_clk_wait_busy_delays (hw : Hw) (clk_en : Bool)
    (hbusy : ∀ t, a3ir_clk_busy hw clk_en t = true) :
    ∀ fuel timeout tr, timeout ≤ 100 → 101 ≤ timeout + fuel →
      (a3ir_clk_wait hw clk_en fuel timeout tr).1 = 101 ∧
      delaysOf 1 (a3ir_clk_wait hw clk_en fuel timeout tr).2 + timeout =
        delaysOf 1 tr + 101 := by
  intro fuel
  induction fuel with
  | zero => intro timeout tr h1 h2; omega
  | succ n ih =>
    intro timeout tr h1 h2
    rw [a3ir_clk_wait_step, if_pos (hbusy tr)]
    by_cases hgt : timeout + 1 > 100
    · rw [if_pos hgt]
      have : timeout = 100 := by omega
      rw [this]
      exact ⟨rfl, by rw [delaysOf_step]⟩
    · rw [if_neg hgt]
      have h3 := ih (timeout + 1) (udelay 1 (a3ir_clk_poll hw tr)) (by omega) (by omega)
      rw [delaysOf_step] at h3
      exact ⟨h3.1, by omega⟩

/-- The wait loop when the condition holds at the evaluations after fewer than
`j` delays and fails at the evaluation after `j` delays. -/
theorem a3ir_clk_wait_ack_at (hw : Hw) (clk_en : Bool) (D j : Nat) (hj : j ≤ 100)
    (hbusy : ∀ t, delaysOf 1 t < D + j → a3ir_clk_busy hw clk_en t = true)
    (hack : ∀ t, delaysOf 1 t = D + j → a3ir_clk_busy hw clk_en t = false) :
    ∀ fuel timeout tr, timeout ≤ j → j < timeout + fuel → delaysOf 1 tr = D + timeout →
      (a3ir_clk_wait hw clk_en fuel timeout tr).1 = j ∧
      delaysOf 1 (a3ir_clk_wait hw clk_en fuel timeout tr).2 = D + j := by
  intro fuel
  induction fuel with
  | zero => intro timeout tr h1 h2 _; omega
  | succ n ih =>
    intro timeout tr h1 h2 h3
    rw [a3ir_clk_wait_step]
    by_cases hlt : timeout < j
    · rw [if_pos (hbusy tr (by omega)), if_neg (by omega)]
      exact ih (timeout + 1) _ (by omega) (by omega) (by rw [delaysOf_step]; omega)
    · have he : timeout = j := by omega
      rw [he] at h3 ⊢
      rw [hack tr h3]
      simp only [Bool.false_eq_true, if_false]
      exact ⟨trivial, by rw [delaysOf_poll]; exact h3⟩

theorem a3ir_clk_ctrl_eq_wait (hw : Hw) (clk_en : Bool) (tr : Trace) :
    ∃ t, delaysOf 1 t = delaysOf 1 tr ∧
      rcar_sysc_a3ir_clk_ctrl hw clk_en tr =
        if (a3ir_clk_wait hw clk_en 102 0 t).1 > 100
        then (-EBUSY, (a3ir_clk_wait hw clk_en 102 0 t).2)
        else (0, (a3ir_clk_wait hw clk_en 102 0 t).2) := by
  unfold rcar_sysc_a3ir_clk_ctrl
  refine ⟨_, ?_, rfl⟩
  simp [iowrite32, ioread32, delaysOf, List.countP_append, List.countP_cons, Event.isDelayOf]

theorem a3ir_clk_ctrl_busy_delays (hw : Hw) (clk_en : Bool) (tr : Trace)
    (hbusy : ∀ t, a3ir_clk_busy hw clk_en t = true) :
    (rcar_sysc_a3ir_clk_ctrl hw clk_en tr).1 = -EBUSY ∧
    delaysOf 1 (rcar_sysc_a3ir_clk_ctrl hw clk_en tr).2 = delaysOf 1 tr + 101 := by
  obtain ⟨t, ht, h⟩ := a3ir_clk_ctrl_eq_wait hw clk_en tr
  have hw1 := a3ir_clk_wait_busy_delays hw clk_en hbusy 102 0 t (by omega) (by omega)
  rw [h, if_pos (by rw [hw1.1]; omega)]
  refine ⟨rfl, ?_⟩
  have := hw1.2
  show delaysOf 1 (a3ir_clk_wait hw clk_en 102 0 t).2 = _
  omega

theorem a3ir_clk_ctrl_ack_at (hw : Hw) (clk_en : Bool) (tr : Trace) (j : Nat) (hj : j ≤ 100)
    (hbusy : ∀ t, delaysOf 1 t < delaysOf 1 tr + j → a3ir_clk_busy hw clk_en t = true)
    (hack : ∀ t, delaysOf 1 t = delaysOf 1 tr + j → a3ir_clk_busy hw clk_en t = false) :
    (rcar_sysc_a3ir_clk_ctrl hw clk_en tr).1 = 0 ∧
    delaysOf 1 (rcar_sysc_a3ir_clk_ctrl hw clk_en tr).2 = delaysOf 1 tr + j := by
  obtain ⟨t, ht, h⟩ := a3ir_clk_ctrl_eq_wait hw clk_en tr
  have hw1 := a3ir_clk_wait_ack_at hw clk_en (delaysOf 1 tr) j hj hbusy hack 102 0 t
    (by omega) (by omega) (by omega)
  rw [h, if_neg (by rw [hw1.1]; omega)]
  exact ⟨rfl, hw1.2⟩

theorem hw_ones_clk_busy (t : Trace) : a3ir_clk_busy hw_ones true t = true := by
  simp [a3ir_clk_busy, hw_ones, ioread32, u32, IMPx5_MASK, IMPx8_MASK]

theorem hw_ack_late_busy (t : Trace) (h : delaysOf 1 t < 100) :
    a3ir_clk_busy hw_ack_late true t = true := by
  have h2 : delaysOf 1 (t ++ [Event.read (Reg.phys MSTPSR5_ADDR) (u32 0xffffffff)]) < 100 := by
    simpa [delaysOf, List.countP_append, List.countP_cons, Event.isDelayOf] using h
  simp only [a3ir_clk_busy, hw_ack_late, ioread32, if_pos h, if_pos h2]
  decide

theorem hw_ack_late_ack (t : Trace) (h : delaysOf 1 t = 100) :
    a3ir_clk_busy hw_ack_late true t = false := by
  have h1 : ¬ delaysOf 1 t < 100 := by omega
  have h2 : ¬ delaysOf 1 (t ++ [Event.read (Reg.phys MSTPSR5_ADDR) (u32 0)]) < 100 := by
    simpa [delaysOf, List.countP_append, List.countP_cons, Event.isDelayOf] using h1
  simp only [a3ir_clk_busy, hw_ack_late, ioread32, if_neg h1, if_neg h2]
  decide

set_option maxRecDepth 100000 in
theorem hw_ack_partial_run :
    rcar_sysc_a3ir_clk_ctrl hw_ack_partial false [] =
      (0, [Event.read (Reg.phys 0xE6150144) 0, Event.write (Reg.phys 0xE6150144) 0xbf200001,
        Event.read (Reg.phys 0xE6150990) 0, Event.write (Reg.phys 0xE6150990) 0xff000000,
        Event.read (Reg.phys 0xE615003C) 0x80000000,
        Event.read (Reg.phys 0xE61509A0) 0x80000000]) := by
  decide

/-! ## Events of the clock gate, by kind -/

theorem a3ir_clk_wait_ext_gen (hw : Hw) (clk_en : Bool) (q : Event → Bool)
    (h5 : ∀ v, q (Event.read (Reg.phys MSTPSR5_ADDR) v) = true)
    (h8 : ∀ v, q (Event.read (Reg.phys MSTPSR8_ADDR) v) = true)
    (hd : q (Event.delay 1) = true) :
    ∀ fuel timeout tr, Extends q tr (a3ir_clk_wait hw clk_en fuel timeout tr).2 := by
  intro fuel
  induction fuel with
  | zero => intro timeout tr; exact Extends.rfl_ _ _
  | succ n ih =>
    intro timeout tr
    have h0 : Extends q tr (a3ir_clk_poll hw tr) :=
      ext_read hw _ h8 (ext_read hw _ h5 (Extends.rfl_ _ _))
    rw [a3ir_clk_wait_step]
    split_ifs
    · exact ext_delay _ hd h0
    · exact (ext_delay _ hd h0).trans_ (ih _ _)
    · exact h0

theorem a3ir_clk_ctrl_ext_gen (hw : Hw) (clk_en : Bool) (q : Event → Bool)
    (hr : ∀ a v, q (Event.read (Reg.phys a) v) = true)
    (hw_ : ∀ a v, q (Event.write (Reg.phys a) v) = true)
    (hd : q (Event.delay 1) = true) (tr : Trace) :
    Extends q tr (rcar_sysc_a3ir_clk_ctrl hw clk_en tr).2 := by
  unfold rcar_sysc_a3ir_clk_ctrl
  simp only
  split_ifs
  all_goals
    refine Extends.trans_ ?_ (a3ir_clk_wait_ext_gen hw _ q (hr _) (hr _) hd _ _ _)
    exact ext_write _ _ (hw_ _) (ext_read hw _ (hr _)
      (ext_write _ _ (hw_ _) (ext_read hw _ (hr _) (Extends.rfl_ _ _))))

/-- Every delay of the clock-gate control is a delay of 1 µs. -/
theorem a3ir_clk_ctrl_other_delays (hw : Hw) (clk_en : Bool) (tr : Trace) (us : Nat)
    (hus : us ≠ 1) :
    delaysOf us (rcar_sysc_a3ir_clk_ctrl hw clk_en tr).2 = delaysOf us tr :=
  (a3ir_clk_ctrl_ext_gen hw clk_en (fun e => !(Event.isDelayOf us e)) (fun _ _ => rfl)
    (fun _ _ => rfl) (by simp [Event.isDelayOf, hus.symm]) tr).countP_eq (Event.isDelayOf us) (by
      intro e he
      cases hb : Event.isDelayOf us e
      · rfl
      · simp [hb] at he)

/-- When the wait loop ends with `timeout` at most 100, its last action was an
evaluation at which the loop condition was false. -/
theorem a3ir_clk_wait_ok_last (hw : Hw) (clk_en : Bool) :
    ∀ fuel timeout tr, timeout ≤ 100 → 101 ≤ timeout + fuel →
      (a3ir_clk_wait hw clk_en fuel timeout tr).1 ≤ 100 →
      ∃ t, (a3ir_clk_wait hw clk_en fuel timeout tr).2 = a3ir_clk_poll hw t ∧
        a3ir_clk_busy hw clk_en t = false := by
  intro fuel
  induction fuel with
  | zero => intro timeout tr h1 h2 _; omega
  | succ n ih =>
    intro timeout tr h1 h2 h3
    rw [a3ir_clk_wait_step] at h3 ⊢
    by_cases hb : a3ir_clk_busy hw clk_en tr = true
    · rw [if_pos hb] at h3 ⊢
      by_cases hgt : timeout + 1 > 100
      · rw [if_pos hgt] at h3
        simp only at h3
        omega
      · rw [if_neg hgt] at h3 ⊢
        exact ih _ _ (by omega) (by omega) h3
    · rw [if_neg hb]
      exact ⟨tr, rfl, by simpa using hb⟩

theorem a3ir_clk_ctrl_ok_last (hw : Hw) (clk_en : Bool) (tr : Trace)
    (h0 : (rcar_sysc_a3ir_clk_ctrl hw clk_en tr).1 = 0) :
    ∃ t, (rcar_sysc_a3ir_clk_ctrl hw clk_en tr).2 = a3ir_clk_poll hw t ∧
      a3ir_clk_busy hw clk_en t = false := by
  obtain ⟨t, _, h⟩ := a3ir_clk_ctrl_eq_wait hw clk_en tr
  rw [h] at h0 ⊢
  by_cases hgt : (a3ir_clk_wait hw clk_en 102 0 t).1 > 100
  · rw [if_pos hgt] at h0
    have hne : (-EBUSY : Int) ≠ 0 := by decide
    exact absurd h0 hne
  · rw [if_neg hgt]
    exact a3ir_clk_wait_ok_last hw clk_en 102 0 t (by omega) (by omega) (by omega)

/-- The enable direction: the loop condition is false exactly when the masked
bits of both status registers are all clear. -/
theorem a3ir_clk_busy_enable (hw : Hw) (t : Trace)
    (h : a3ir_clk_busy hw true t = false) :
    ∃ v5 v8, a3ir_clk_poll hw t =
        t ++ [Event.read (Reg.phys MSTPSR5_ADDR) v5, Event.read (Reg.phys MSTPSR8_ADDR) v8] ∧
      v5 &&& 0xbf200001 = 0 ∧ v8 &&& 0xff000000 = 0 := by
  refine ⟨_, _, by simp [a3ir_clk_poll, ioread32]; exact ⟨rfl, rfl⟩, ?_⟩
  simp only [a3ir_clk_busy, ioread32, if_true, decide_eq_false_iff_not, ne_eq,
    not_not] at h
  exact or_eq_zero _ _ h

/-! ## Submission under a ready controller -/

theorem pwrer_loop_first (hw : Hw) (pd : rcar_sysc_pd) (on_ : Bool) (cm n : Nat) (tr : Trace) :
    (rcar_sysc_pwr_on_off hw pd on_ tr).2 <+: (pwrer_loop hw pd on_ cm (n + 1) tr).2 := by
  simp only [pwrer_loop]
  split_ifs
  · exact List.prefix_rfl
  · exact prefix_read hw _ List.prefix_rfl
  · exact (prefix_delay _ (prefix_read hw _ List.prefix_rfl)).trans (pwrer_loop_grows hw pd on_ cm _ _)

/-- When the controller is ready, one run of `rcar_sysc_power` writes the
control register at least once. -/
theorem power_ready_submits (g : Sysc) (hw : Hw) (pd : rcar_sysc_pd) (on_ : Bool) (tr : Trace)
    (hready : ∀ t, reads_bit hw t (Reg.sysc SYSCSR) (ready_bit on_) = true) :
    writesTo (ctrl_reg pd on_) tr + 1 ≤
      writesTo (ctrl_reg pd on_) (rcar_sysc_power g hw pd on_ tr).2 := by
  have h1 := (arm_counts g hw pd tr).1 pd.ch.chan_offs
    (if on_ then PWRONCR_OFFS else PWROFFCR_OFFS)
  rw [← ctrl_reg_eq] at h1
  have h2 := (pwr_on_off_ready_counts hw pd on_ (rcar_sysc_power_arm g hw pd tr)
    (hready _)).2.1
  have h3 := countP_le_of_grows (Event.isWriteTo (ctrl_reg pd on_))
    (pwrer_loop_first hw pd on_ (u32 (BIT pd.ch.chan_bit)) 999 (rcar_sysc_power_arm g hw pd tr))
  have h4 : (pwrer_loop hw pd on_ (u32 (BIT pd.ch.chan_bit)) (999 + 1)
      (rcar_sysc_power_arm g hw pd tr)).2 <+: (rcar_sysc_power g hw pd on_ tr).2 := by
    have hp : (pwrer_loop hw pd on_ (u32 (BIT pd.ch.chan_bit)) PWRER_RETRIES
        (rcar_sysc_power_arm g hw pd tr)).2 <+:
        (rcar_sysc_power_request hw pd on_ (rcar_sysc_power_arm g hw pd tr)).2 := by
      unfold rcar_sysc_power_request
      simp only
      split
      · exact List.prefix_rfl
      · exact List.prefix_rfl
      · exact prefix_write _ _ (syscisr_wait_grows hw _ _ _)
    exact hp.trans (out_grows g _)
  have h5 := countP_le_of_grows (Event.isWriteTo (ctrl_reg pd on_)) h4
  unfold writesTo at h1 h2 ⊢
  omega


/-- When the domain reads off and the controller is ready, the power-on
callback writes the power-on control register of the domain. -/
theorem pd_power_on_submits (g : Sysc) (hw : Hw) (pd : rcar_sysc_pd) (tr : Trace)
    (hoff : reads_bit hw tr (Reg.chan pd.ch.chan_offs PWRSR_OFFS) pd.ch.chan_bit = true)
    (hready : ∀ t, reads_bit hw t (Reg.sysc SYSCSR) (ready_bit true) = true) :
    writesTo (ctrl_reg pd true) tr + 1 ≤
      writesTo (ctrl_reg pd true) (rcar_sysc_pd_power_on g hw pd tr).2 := by
  by_cases hc : g.has_clk_crl = true ∧ pd.name = "a3ir"
  · rw [pd_power_on_a3ir g hw pd tr hc.1 hc.2 hoff]
    refine le_trans ?_ (power_ready_submits g hw pd true _ hready)
    have h := (a3ir_clk_ctrl_ext hw true
      (tr ++ [Event.read (Reg.chan pd.ch.chan_offs PWRSR_OFFS)
        (u32 (hw tr (Reg.chan pd.ch.chan_offs PWRSR_OFFS)))])).countP_eq
      (Event.isWriteTo (ctrl_reg pd true)) (by
        intro e he
        cases e with
        | read r v => rfl
        | write r v => cases r <;> simp_all [Event.inClkCtrl, Event.isWriteTo, ctrl_reg]
        | delay us => rfl
        | lock => rfl
        | unlock => rfl)
    unfold writesTo
    rw [h]
    simp [List.countP_append, List.countP_cons, Event.isWriteTo]
  · rw [pd_power_on_plain g hw pd tr hc hoff]
    refine le_trans ?_ (power_ready_submits g hw pd true _ hready)
    simp [writesTo, List.countP_append, List.countP_cons, Event.isWriteTo]

/-! ## Results on the callbacks, the lock, the run bounds and the clock gate -/

/-- C21 (counterexample): the table `info_tree` is a three-level tree (root
"always-on", "a3sh" below it, "a2sh" below "a3sh"); on hardware where both
"a3sh" and "a2sh" read off, the power-on callback of "a2sh" returns 0 after
writing the power-on control register of "a2sh" and the interrupt mask,
enable and status clear registers. -/
theorem C21_counterexample :
    info_tree.areas.map (fun a => (a.name, a.isr_bit, a.parent)) =
      [(some "always-on", 32, -1), (some "a3sh", 1, 32), (some "a2sh", 2, 1)] ∧
    sysc_tree.rcar_domains 1 = some pd_tree_a ∧
    sysc_tree.rcar_domains 2 = some pd_tree_b ∧
    (∀ tr, reads_bit hw_all_off tr (Reg.chan pd_tree_a.ch.chan_offs 0x00)
      pd_tree_a.ch.chan_bit = true) ∧
    (rcar_sysc_pd_power_on sysc_tree hw_all_off pd_tree_b []).1 = 0 ∧
    writesTo (Reg.chan pd_tree_b.ch.chan_offs 0x0c)
      (rcar_sysc_pd_power_on sysc_tree hw_all_off pd_tree_b []).2 = 1 ∧
    writesTo (Reg.sysc 0x10) (rcar_sysc_pd_power_on sysc_tree hw_all_off pd_tree_b []).2 = 1 ∧
    writesTo (Reg.sysc 0x0c) (rcar_sysc_pd_power_on sysc_tree hw_all_off pd_tree_b []).2 = 1 ∧
    writesTo (Reg.sysc 0x08) (rcar_sysc_pd_power_on sysc_tree hw_all_off pd_tree_b []).2 = 2 := by
  refine ⟨by decide, sysc_tree_slots.1, sysc_tree_slots.2,
    fun tr => hw_all_off_off tr _ _ (by decide), ?_, ?_, ?_, ?_, ?_⟩ <;>
  · rw [tree_power_on_run]
    try decide

/-- C21 (amended): the power-on callback of a domain B decides on bit
chan_bit of the power status register of B alone, for every hardware
behaviour and so whatever the status of another domain A reads: when the bit
reads clear it returns 0 after that one read; when the bit reads set it
attempts the transition of B, writing the interrupt mask register and the
interrupt enable register once each and, if the controller always reads
ready, the power-on control register of B.  If the register block of A is not
the block of B (their chan_offs differ), the callback reads no register of the
block of A, and its result and its register accesses are the same on every
hardware behaviour that differs only in what the registers of the block of A
read. -/
theorem C21_parent_not_consulted (g : Sysc) (hw : Hw) (pdA pdB : rcar_sysc_pd)
    (tr : Trace) :
    (reads_bit hw tr (Reg.chan pdB.ch.chan_offs 0x00) pdB.ch.chan_bit = false →
      rcar_sysc_pd_power_on g hw pdB tr =
        (0, tr ++ [Event.read (Reg.chan pdB.ch.chan_offs 0x00)
          (u32 (hw tr (Reg.chan pdB.ch.chan_offs 0x00)))])) ∧
    (reads_bit hw tr (Reg.chan pdB.ch.chan_offs 0x00) pdB.ch.chan_bit = true →
      writesTo (Reg.sysc 0x10) (rcar_sysc_pd_power_on g hw pdB tr).2 =
        writesTo (Reg.sysc 0x10) tr + 1 ∧
      writesTo (Reg.sysc 0x0c) (rcar_sysc_pd_power_on g hw pdB tr).2 =
        writesTo (Reg.sysc 0x0c) tr + 1 ∧
      writes tr < writes (rcar_sysc_pd_power_on g hw pdB tr).2 ∧
      ((∀ t, reads_bit hw t (Reg.sysc 0x00) 1 = true) →
        writesTo (Reg.chan pdB.ch.chan_offs 0x0c) tr + 1 ≤
          writesTo (Reg.chan pdB.ch.chan_offs 0x0c) (rcar_sysc_pd_power_on g hw pdB tr).2)) ∧
    (pdB.ch.chan_offs ≠ pdA.ch.chan_offs →
      (∀ b, readsOf (Reg.chan pdA.ch.chan_offs b) (rcar_sysc_pd_power_on g hw pdB tr).2 =
        readsOf (Reg.chan pdA.ch.chan_offs b) tr) ∧
      ∀ hw2, AgreeOutside pdA.ch.chan_offs hw hw2 →
        rcar_sysc_pd_power_on g hw pdB tr = rcar_sysc_pd_power_on g hw2 pdB tr) :=
  ⟨fun hon => pd_power_on_noop g hw pdB tr hon,
   fun hoff => ⟨pd_power_on_arms g hw pdB tr hoff _ (Or.inl rfl),
     pd_power_on_arms g hw pdB tr hoff _ (Or.inr rfl),
     pd_power_on_transition g hw pdB tr hoff,
     fun hready => pd_power_on_submits g hw pdB tr hoff hready⟩,
   fun hne => ⟨fun b => pd_power_on_reads g hw pdB tr _ b hne,
     fun _ hagree => pd_power_on_agree hagree g pdB hne tr⟩⟩

/-- Witness of C21 (amended): the domains "a3sh" and "a2sh" of `info_tree`.
On all-zero hardware "a2sh" reads on and the callback is a single read; on
`hw_all_off` both "a2sh" and "a3sh" read off and the callback for "a2sh" runs
the transition; the run is the same on `hw_parent_on`, where "a3sh" reads
on. -/
theorem C21_parent_not_consulted_witness :
    rcar_sysc_pd_power_on sysc_tree hw_zero pd_tree_b [] =
      (0, [] ++ [Event.read (Reg.chan pd_tree_b.ch.chan_offs 0x00)
        (u32 (hw_zero [] (Reg.chan pd_tree_b.ch.chan_offs 0x00)))]) ∧
    reads_bit hw_all_off [] (Reg.chan pd_tree_a.ch.chan_offs 0x00) pd_tree_a.ch.chan_bit = true ∧
    (writesTo (Reg.sysc 0x10) (rcar_sysc_pd_power_on sysc_tree hw_all_off pd_tree_b []).2 =
        writesTo (Reg.sysc 0x10) [] + 1 ∧
      writesTo (Reg.sysc 0x0c) (rcar_sysc_pd_power_on sysc_tree hw_all_off pd_tree_b []).2 =
        writesTo (Reg.sysc 0x0c) [] + 1 ∧
      writes [] < writes (rcar_sysc_pd_power_on sysc_tree hw_all_off pd_tree_b []).2 ∧
      writesTo (Reg.chan pd_tree_b.ch.chan_offs 0x0c) [] + 1 ≤
        writesTo (Reg.chan pd_tree_b.ch.chan_offs 0x0c)
          (rcar_sysc_pd_power_on sysc_tree hw_all_off pd_tree_b []).2) ∧
    (∀ b, readsOf (Reg.chan pd_tree_a.ch.chan_offs b)
      (rcar_sysc_pd_power_on sysc_tree hw_all_off pd_tree_b []).2 =
        readsOf (Reg.chan pd_tree_a.ch.chan_offs b) []) ∧
    rcar_sysc_pd_power_on sysc_tree hw_all_off pd_tree_b [] =
      rcar_sysc_pd_power_on sysc_tree hw_parent_on pd_tree_b [] :=
  ⟨(C21_parent_not_consulted sysc_tree hw_zero pd_tree_a pd_tree_b []).1
      (hw_zero_bit [] _ _),
   hw_all_off_off [] _ _ (by decide),
   (fun h => ⟨h.1, h.2.1, h.2.2.1, h.2.2.2 (fun t => hw_all_off_ready t)⟩)
    ((C21_parent_not_consulted sysc_tree hw_all_off pd_tree_a pd_tree_b []).2.1
      (hw_all_off_off [] _ _ (by decide))),
   ((C21_parent_not_consulted sysc_tree hw_all_off pd_tree_a pd_tree_b []).2.2
      (by decide)).1,
   ((C21_parent_not_consulted sysc_tree hw_all_off pd_tree_a pd_tree_b []).2.2
      (by decide)).2 hw_parent_on hw_parent_on_agree⟩

/-- C22 (counterexample): the power-on callback of `pd_sample` on hardware
that reads all-ones performs a transition, and its first action is the read of
the power status register, before the lock is taken: the trace has register
accesses outside the lock. -/
theorem C22_counterexample :
    (rcar_sysc_pd_power_on Sysc.boot hw_ones pd_sample []).2.head? =
      some (Event.read (Reg.chan 0x140 0x00) 0xffffffff) ∧
    0 < writes (rcar_sysc_pd_power_on Sysc.boot hw_ones pd_sample []).2 ∧
    accesses_outside false (rcar_sysc_pd_power_on Sysc.boot hw_ones pd_sample []).2 ≠ 0 := by
  obtain ⟨rest, h⟩ := pd_power_on_query_first Sysc.boot hw_ones pd_sample []
  refine ⟨?_, pd_power_on_transition Sysc.boot hw_ones pd_sample [] (hw_ones_bit [] _), ?_⟩
  · rw [h]
    rfl
  · rw [h]
    simp [accesses_outside]

/-- C22 (amended): every run of rcar_sysc_power takes rcar_sysc_lock once as
its first action and releases it once as its last action, on every return
path, and all its register accesses lie between the two, so none is made
outside the lock.  The power-state query of rcar_sysc_pd_power_on and
rcar_sysc_pd_power_off and the six or more register accesses of
rcar_sysc_a3ir_clk_ctrl are made outside the lock; rcar_sysc_a3ir_clk_ctrl
never takes it. -/
theorem C22_lock_discipline (g : Sysc) (hw : Hw) (pd : rcar_sysc_pd) (on_ : Bool)
    (tr : Trace) :
    (∃ mid, (rcar_sysc_power g hw pd on_ tr).2 =
        tr ++ Event.lock :: (mid ++ [Event.unlock]) ∧
      ∀ e ∈ mid, e.isLock = false ∧ e.isUnlock = false) ∧
    accesses_outside false ((rcar_sysc_power g hw pd on_ tr).2.drop tr.length) = 0 ∧
    1 ≤ accesses_outside false ((rcar_sysc_pd_power_on g hw pd tr).2.drop tr.length) ∧
    1 ≤ accesses_outside false ((rcar_sysc_pd_power_off g hw pd tr).2.drop tr.length) ∧
    6 ≤ accesses_outside false ((rcar_sysc_a3ir_clk_ctrl hw on_ tr).2.drop tr.length) ∧
    locks (rcar_sysc_a3ir_clk_ctrl hw on_ tr).2 = locks tr := by
  refine ⟨power_lock_shape g hw pd on_ tr, power_outside g hw pd on_ tr, ?_, ?_,
    (a3ir_clk_ctrl_outside hw on_ tr).1, (a3ir_clk_ctrl_outside hw on_ tr).2⟩
  · obtain ⟨rest, h⟩ := pd_power_on_query_first g hw pd tr
    rw [h, List.drop_left]
    simp [accesses_outside]
  · obtain ⟨rest, h⟩ := pd_power_off_query_first g hw pd tr
    rw [h, List.drop_left]
    simp [accesses_outside]

/-- C23: every run of rcar_sysc_power contains, before any write to a
per-domain register (so before its first submission), the sequence: read of
the interrupt mask register (+0x10) giving v1, write of v1 OR BIT(isr_bit)
to it, read of the interrupt enable register (+0x0c) giving v2, write of
v2 OR BIT(isr_bit) to it, write of BIT(isr_bit) to the interrupt status
clear register (+0x08), where v1 and v2 are the values the hardware returns
at these reads and BIT(isr_bit) is taken as a 32-bit value.  The run writes
each of the two registers exactly once, and the value written has every bit
of the value read plus bit isr_bit (for isr_bit < 32) and no other bit. -/
theorem C23_arm_preserves_bits (g : Sysc) (hw : Hw) (pd : rcar_sysc_pd) (on_ : Bool)
    (tr : Trace) :
    ∃ pre v1 v2 rest,
      (rcar_sysc_power g hw pd on_ tr).2 =
        pre ++
          [Event.read (Reg.sysc 0x10) v1,
           Event.write (Reg.sysc 0x10) (v1 ||| u32 (BIT pd.ch.isr_bit)),
           Event.read (Reg.sysc 0x0c) v2,
           Event.write (Reg.sysc 0x0c) (v2 ||| u32 (BIT pd.ch.isr_bit)),
           Event.write (Reg.sysc 0x08) (u32 (BIT pd.ch.isr_bit))] ++ rest ∧
      tr <+: pre ∧
      (∀ a b, writesTo (Reg.chan a b) pre = writesTo (Reg.chan a b) tr) ∧
      v1 = u32 (hw pre (Reg.sysc 0x10)) ∧
      v2 = u32 (hw (pre ++ [Event.read (Reg.sysc 0x10) v1,
        Event.write (Reg.sysc 0x10) (v1 ||| u32 (BIT pd.ch.isr_bit))]) (Reg.sysc 0x0c)) ∧
      writesTo (Reg.sysc 0x10) (rcar_sysc_power g hw pd on_ tr).2 =
        writesTo (Reg.sysc 0x10) tr + 1 ∧
      writesTo (Reg.sysc 0x0c) (rcar_sysc_power g hw pd on_ tr).2 =
        writesTo (Reg.sysc 0x0c) tr + 1 ∧
      (∀ i, (v1 ||| u32 (BIT pd.ch.isr_bit)).testBit i =
        (v1.testBit i || (decide (i = pd.ch.isr_bit) && decide (pd.ch.isr_bit < 32)))) ∧
      (∀ i, (v2 ||| u32 (BIT pd.ch.isr_bit)).testBit i =
        (v2.testBit i || (decide (i = pd.ch.isr_bit) && decide (pd.ch.isr_bit < 32)))) := by
  obtain ⟨rest, hrest⟩ := power_after_arm g hw pd on_ tr
  refine ⟨tr ++ Event.lock ::
      (if g.rcar_sysc_extmask_val ≠ 0
       then [Event.write (Reg.extmask g.rcar_sysc_extmask_offs)
         (u32 g.rcar_sysc_extmask_val)]
       else []), _, _, rest, ?_, List.prefix_append _ _, ?_, rfl, rfl,
    power_sysc_writes g hw pd on_ tr _ (Or.inl rfl),
    power_sysc_writes g hw pd on_ tr _ (Or.inr rfl), ?_, ?_⟩
  · rw [hrest, arm_eq]
    rfl
  · intro a b
    split_ifs <;> simp [writesTo, List.countP_append, List.countP_cons, Event.isWriteTo]
  · intro i
    rw [Nat.testBit_or, u32_BIT_testBit]
  · intro i
    rw [Nat.testBit_or, u32_BIT_testBit]

/-- C24: for every domain, direction and hardware behaviour, rcar_sysc_power
returns (the model is a total function whose trace extends the history by a
finite list of events), having written the control register at most 1000
times, read the readiness status SYSCSR at most 1000 times per submission
attempt and at most 1,000,000 times in total, read the error status register
at most 1000 times and polled the interrupt status register at most 1000
times. -/
theorem C24_bounded_run (g : Sysc) (hw : Hw) (pd : rcar_sysc_pd) (on_ : Bool) (tr : Trace) :
    (∃ evs, (rcar_sysc_power g hw pd on_ tr).2 = tr ++ evs) ∧
    writesTo (Reg.chan pd.ch.chan_offs (if on_ then 0x0c else 0x04))
        (rcar_sysc_power g hw pd on_ tr).2 ≤
      writesTo (Reg.chan pd.ch.chan_offs (if on_ then 0x0c else 0x04)) tr + 1000 ∧
    (∀ t, readsOf (Reg.sysc 0x00) (rcar_sysc_pwr_on_off hw pd on_ t).2 ≤
      readsOf (Reg.sysc 0x00) t + 1000) ∧
    readsOf (Reg.sysc 0x00) (rcar_sysc_power g hw pd on_ tr).2 ≤
      readsOf (Reg.sysc 0x00) tr + 1000000 ∧
    readsOf (Reg.chan pd.ch.chan_offs 0x14) (rcar_sysc_power g hw pd on_ tr).2 ≤
      readsOf (Reg.chan pd.ch.chan_offs 0x14) tr + 1000 ∧
    readsOf (Reg.sysc 0x04) (rcar_sysc_power g hw pd on_ tr).2 ≤
      readsOf (Reg.sysc 0x04) tr + 1000 := by
  refine ⟨?_, ?_, ?_, ?_, ?_, ?_⟩
  · obtain ⟨evs, h, _⟩ := power_ext g hw pd on_ tr
    exact ⟨evs, h⟩
  · have h := power_adds g hw pd on_ (Event.isWriteTo (ctrl_reg pd on_)) 0 1 0 0
      (by intro ev hev; cases ev with
          | read r v => rfl
          | write r v => cases r <;> simp_all [Event.inFrame, Event.isWriteTo, ctrl_reg]
          | delay us => rfl
          | lock => rfl
          | unlock => rfl)
      (fun _ => rfl) (fun _ h => by cases h) (fun _ _ => le_refl _)
      (fun _ h => by cases h) (fun _ h => by cases h) tr
    exact h
  · intro t
    have h := pwr_on_off_adds hw pd on_ (Event.isReadOf (Reg.sysc SYSCSR)) 1 0
      (fun _ => rfl) (fun _ _ => le_refl _) (fun _ h => by cases h) t
    exact h
  · have h := power_adds g hw pd on_ (Event.isReadOf (Reg.sysc SYSCSR)) 1 0 0 0
      (by intro ev hev; cases ev with
          | read r v =>
            cases r <;> simp_all [Event.inFrame, Event.isReadOf, SYSCSR, SYSCIMR, SYSCIER]
            omega
          | write r v => rfl
          | delay us => rfl
          | lock => rfl
          | unlock => rfl)
      (fun _ => rfl) (fun _ _ => le_refl _) (fun _ h => by cases h)
      (fun _ h => by simp [Event.isReadOf] at h)
      (fun _ h => by simp [Event.isReadOf, SYSCISR, SYSCSR] at h) tr
    exact h
  · have h := power_adds g hw pd on_
      (Event.isReadOf (Reg.chan pd.ch.chan_offs PWRER_OFFS)) 0 0 1 0
      (by intro ev hev; cases ev with
          | read r v => cases r <;> simp_all [Event.inFrame, Event.isReadOf]
          | write r v => rfl
          | delay us => rfl
          | lock => rfl
          | unlock => rfl)
      (fun _ => rfl) (fun _ h => by simp [Event.isReadOf] at h) (fun _ h => by cases h)
      (fun _ _ => le_refl _) (fun _ h => by simp [Event.isReadOf] at h) tr
    exact h
  · have h := power_adds g hw pd on_ (Event.isReadOf (Reg.sysc SYSCISR)) 0 0 0 1
      (by intro ev hev; cases ev with
          | read r v =>
            cases r <;> simp_all [Event.inFrame, Event.isReadOf, SYSCISR, SYSCIMR, SYSCIER]
            omega
          | write r v => rfl
          | delay us => rfl
          | lock => rfl
          | unlock => rfl)
      (fun _ => rfl) (fun _ h => by simp [Event.isReadOf, SYSCISR, SYSCSR] at h)
      (fun _ h => by cases h) (fun _ h => by simp [Event.isReadOf] at h)
      (fun _ _ => le_refl _) tr
    exact h

/-- C25: when the acceptance wait of rcar_sysc_pwr_on_off succeeds, the events
that follow the wait are a 1 µs delay and the control-register write if the
request is a power-off and the name is "a3vp", "a3ir" or "a3vc", and the
control-register write alone otherwise; when the wait fails nothing follows
it.  The wait itself contains no 1 µs delay, so the number of 1 µs delays of
the call is 1 in the first case and 0 in every other case. -/
theorem C25_erratum_delay (hw : Hw) (pd : rcar_sysc_pd) (on_ : Bool) (tr : Trace) :
    rcar_sysc_pwr_on_off hw pd on_ tr =
      (if (syscsr_wait hw (if on_ then 1 else 0) 1000 tr).1 = false
       then (-EAGAIN, (syscsr_wait hw (if on_ then 1 else 0) 1000 tr).2)
       else (0, (syscsr_wait hw (if on_ then 1 else 0) 1000 tr).2 ++
        (if on_ = false ∧ (pd.name = "a3vp" ∨ pd.name = "a3ir" ∨ pd.name = "a3vc")
         then [Event.delay 1] else []) ++
        [Event.write (Reg.chan pd.ch.chan_offs (if on_ then 0x0c else 0x04))
          (u32 (BIT pd.ch.chan_bit))])) ∧
    delaysOf 1 (rcar_sysc_pwr_on_off hw pd on_ tr).2 =
      delaysOf 1 tr +
        (if (rcar_sysc_pwr_on_off hw pd on_ tr).1 = 0 ∧ on_ = false ∧
            (pd.name = "a3vp" ∨ pd.name = "a3ir" ∨ pd.name = "a3vc")
         then 1 else 0) := by
  refine ⟨pwr_on_off_eq hw pd on_ tr, ?_⟩
  have hw1 := syscsr_wait_delays1 hw (if on_ then 1 else 0) 1000 tr
  rw [pwr_on_off_eq]
  by_cases hb : (syscsr_wait hw (if on_ then 1 else 0) 1000 tr).1 = false
  · simp only [if_pos hb]
    rw [hw1]
    have : ¬ ((-EAGAIN : Int) = 0) := by decide
    simp [this]
  · simp only [if_neg hb]
    by_cases hn : on_ = false ∧ (pd.name = "a3vp" ∨ pd.name = "a3ir" ∨ pd.name = "a3vc")
    · simp only [if_pos hn, true_and]
      simp [delaysOf, List.countP_append, List.countP_cons, Event.isDelayOf] at hw1 ⊢
      exact hw1
    · simp only [if_neg hn, true_and]
      simp [delaysOf, List.countP_append, List.countP_cons, Event.isDelayOf] at hw1 ⊢
      exact hw1

/-- C26 (counterexample): on hardware whose status never acknowledges, the
enable wait makes 101 delays of 1 µs before it returns -EBUSY; on hardware
that acknowledges only after 100 delays, it has not given up after 100 wait
iterations and returns 0. -/
theorem C26_counterexample :
    (rcar_sysc_a3ir_clk_ctrl hw_ones true []).1 = -EBUSY ∧
    delaysOf 1 (rcar_sysc_a3ir_clk_ctrl hw_ones true []).2 = 101 ∧
    (rcar_sysc_a3ir_clk_ctrl hw_ack_late true []).1 = 0 ∧
    delaysOf 1 (rcar_sysc_a3ir_clk_ctrl hw_ack_late true []).2 = 100 := by
  have h1 := a3ir_clk_ctrl_busy_delays hw_ones true [] hw_ones_clk_busy
  have h2 := a3ir_clk_ctrl_ack_at hw_ack_late true [] 100 (le_refl _)
    (fun t ht => hw_ack_late_busy t (by simpa [delaysOf] using ht))
    (fun t ht => hw_ack_late_ack t (by simpa [delaysOf] using ht))
  exact ⟨h1.1, by simpa [delaysOf] using h1.2, h2.1, by simpa [delaysOf] using h2.2⟩

/-- C26 (amended): for both directions, if the loop condition of
rcar_sysc_a3ir_clk_ctrl holds at every evaluation, the function returns -EBUSY
(-16) after exactly 101 delays of 1 µs; if the condition holds at the
evaluations made after fewer than j delays and fails at the evaluation made
after j delays, for some j ≤ 100, the function returns 0 after exactly j
delays.  The function makes no delay of another length. -/
theorem C26_clock_wait_bound (hw : Hw) (clk_en : Bool) (tr : Trace) :
    ((∀ t, a3ir_clk_busy hw clk_en t = true) →
      (rcar_sysc_a3ir_clk_ctrl hw clk_en tr).1 = -EBUSY ∧ (-EBUSY : Int) = -16 ∧
      delaysOf 1 (rcar_sysc_a3ir_clk_ctrl hw clk_en tr).2 = delaysOf 1 tr + 101) ∧
    (∀ j, j ≤ 100 →
      (∀ t, delaysOf 1 t < delaysOf 1 tr + j → a3ir_clk_busy hw clk_en t = true) →
      (∀ t, delaysOf 1 t = delaysOf 1 tr + j → a3ir_clk_busy hw clk_en t = false) →
      (rcar_sysc_a3ir_clk_ctrl hw clk_en tr).1 = 0 ∧
      delaysOf 1 (rcar_sysc_a3ir_clk_ctrl hw clk_en tr).2 = delaysOf 1 tr + j) ∧
    (∀ us, us ≠ 1 →
      delaysOf us (rcar_sysc_a3ir_clk_ctrl hw clk_en tr).2 = delaysOf us tr) :=
  ⟨fun hbusy => ⟨(a3ir_clk_ctrl_busy_delays hw clk_en tr hbusy).1, rfl,
      (a3ir_clk_ctrl_busy_delays hw clk_en tr hbusy).2⟩,
   fun j hj hbusy hack => a3ir_clk_ctrl_ack_at hw clk_en tr j hj hbusy hack,
   fun us hus => a3ir_clk_ctrl_other_delays hw clk_en tr us hus⟩

/-- Witness of C26 (amended): the enable direction on hardware that never
acknowledges (`hw_ones`) and on hardware that acknowledges after 100 delays
(`hw_ack_late`). -/
theorem C26_clock_wait_bound_witness :
    ((rcar_sysc_a3ir_clk_ctrl hw_ones true []).1 = -EBUSY ∧ (-EBUSY : Int) = -16 ∧
      delaysOf 1 (rcar_sysc_a3ir_clk_ctrl hw_ones true []).2 = delaysOf 1 [] + 101) ∧
    ((rcar_sysc_a3ir_clk_ctrl hw_ack_late true []).1 = 0 ∧
      delaysOf 1 (rcar_sysc_a3ir_clk_ctrl hw_ack_late true []).2 = delaysOf 1 [] + 100) :=
  ⟨(C26_clock_wait_bound hw_ones true []).1 hw_ones_clk_busy,
   (C26_clock_wait_bound hw_ack_late true []).2.1 100 (le_refl _)
    (fun t ht => hw_ack_late_busy t (by simpa [delaysOf] using ht))
    (fun t ht => hw_ack_late_ack t (by simpa [delaysOf] using ht))⟩

/-- C27: in the enable direction rcar_sysc_a3ir_clk_ctrl returns 0 only after
a last read of MSTPSR5 and MSTPSR8 with all bits of 0xbf200001 and of
0xff000000 clear.  In the disable direction it does not wait for all bits: on
hardware where only bit 31 of each status register reads set, it returns 0
after the first pair of reads, with the bits 0x3f200001 of MSTPSR5 and
0x7f000000 of MSTPSR8 still clear. -/
theorem C27_disable_acknowledged_early :
    (∀ (hw : Hw) (tr : Trace), (rcar_sysc_a3ir_clk_ctrl hw true tr).1 = 0 →
      ∃ t v5 v8, (rcar_sysc_a3ir_clk_ctrl hw true tr).2 =
          t ++ [Event.read (Reg.phys 0xE615003C) v5, Event.read (Reg.phys 0xE61509A0) v8] ∧
        v5 &&& 0xbf200001 = 0 ∧ v8 &&& 0xff000000 = 0) ∧
    rcar_sysc_a3ir_clk_ctrl hw_ack_partial false [] =
      (0, [Event.read (Reg.phys 0xE6150144) 0, Event.write (Reg.phys 0xE6150144) 0xbf200001,
        Event.read (Reg.phys 0xE6150990) 0, Event.write (Reg.phys 0xE6150990) 0xff000000,
        Event.read (Reg.phys 0xE615003C) 0x80000000,
        Event.read (Reg.phys 0xE61509A0) 0x80000000]) ∧
    0x80000000 &&& IMPx5_MASK ≠ IMPx5_MASK ∧ 0x80000000 &&& IMPx8_MASK ≠ IMPx8_MASK := by
  refine ⟨?_, hw_ack_partial_run, by decide, by decide⟩
  intro hw tr h0
  obtain ⟨t, ht, hb⟩ := a3ir_clk_ctrl_ok_last hw true tr h0
  obtain ⟨v5, v8, hp, h5, h8⟩ := a3ir_clk_busy_enable hw t hb
  exact ⟨t, v5, v8, by rw [ht, hp]; rfl, h5, h8⟩

/-- Witness of C27: the enable direction on all-zero hardware returns 0. -/
theorem C27_disable_acknowledged_early_witness :
    ∃ t v5 v8, (rcar_sysc_a3ir_clk_ctrl hw_zero true []).2 =
        t ++ [Event.read (Reg.phys 0xE615003C) v5, Event.read (Reg.phys 0xE61509A0) v8] ∧
      v5 &&& 0xbf200001 = 0 ∧ v8 &&& 0xff000000 = 0 :=
  C27_disable_acknowledged_early.1 hw_zero [] (by decide)

end RcarSysc
